import Mathlib

/-!
# Portfolio page script: a shallow embedding of `js/script.js`

The script is a collection of event handlers over the DOM.  Each handler is
embedded as a function on an explicit record of the DOM state it reads and
writes.  JavaScript strings that the script measures or matches are lists of
UTF-16 code units; numbers that may be `NaN` are options; a handler that can
throw returns the state reached together with the error thrown.
-/

namespace Portfolio

/-! ## JavaScript strings -/

/-- A JavaScript string: its sequence of UTF-16 code units. -/
abbrev JsString := List Nat

/-- The UTF-16 code units of a text. -/
def utf16 (s : String) : JsString :=
  s.toList.flatMap fun c =>
    if c.toNat < 65536 then [c.toNat]
    else [55296 + (c.toNat - 65536) / 1024, 56320 + (c.toNat - 65536) % 1024]

/-- The code units that `String.prototype.trim` strips and that the regular
expression escape `\s` matches: WhiteSpace and LineTerminator of ECMAScript. -/
def isJsSpace (c : Nat) : Bool :=
  c = 9 || c = 10 || c = 11 || c = 12 || c = 13 || c = 32 || c = 160 || c = 5760
    || (8192 ≤ c && c ≤ 8202) || c = 8232 || c = 8233 || c = 8239 || c = 8287
    || c = 12288 || c = 65279

/-- The method `String.prototype.trim`. -/
def trim (s : JsString) : JsString :=
  ((s.dropWhile isJsSpace).reverse.dropWhile isJsSpace).reverse

/-- The call `s.substring(0, n)`: a negative end counts as 0, one past the end
as the length. -/
def substring0 (s : JsString) (n : Int) : JsString :=
  s.take n.toNat

/-! ## Mobile menu, project modal and the page scroll lock -/

/-- One entry of `projectData`. -/
structure ProjectRecord where
  title : String
  description : String
  features : List String
  technologies : List String
  challenges : String
  github : String
  demo : String
  deriving DecidableEq, Repr

/-- The record stored under the key ecommerce of projectData. -/
def projectData.ecommerce : ProjectRecord where
  title := "E-Commerce Website - MERN Stack"
  description :=
    "A comprehensive full-stack e-commerce application built with the MERN stack (MongoDB, Express.js, React.js, Node.js). This project demonstrates modern web development practices and includes advanced features for both customers and administrators."
  features := [
    "User Authentication & Authorization",
    "Product Catalog with Search & Filtering",
    "Shopping Cart & Wishlist Functionality",
    "Secure Payment Gateway Integration",
    "Order Management System",
    "Admin Dashboard for Inventory Management",
    "Responsive Design for All Devices",
    "Real-time Notifications"]
  technologies := ["React.js", "Node.js", "Express.js", "MongoDB", "JWT", "Stripe API", "Material-UI"]
  challenges :=
    "Implementing secure payment processing, managing state across multiple components, and optimizing database queries for performance."
  github := "https://github.com/Ashu2380"
  demo := "#"

/-- The record stored under the key simon of projectData. -/
def projectData.simon : ProjectRecord where
  title := "Simon Says Memory Game"
  description :=
    "An interactive memory game that challenges players to remember and repeat increasingly complex sequences of colors and sounds. Built with vanilla JavaScript to demonstrate DOM manipulation and game logic implementation."
  features := [
    "Progressive Difficulty Levels",
    "Visual & Audio Feedback",
    "Score Tracking System",
    "Responsive Game Interface",
    "Touch & Click Support",
    "Game State Management",
    "Smooth Animations",
    "Local Storage for High Scores"]
  technologies := ["HTML5", "CSS3", "JavaScript", "Web Audio API", "Local Storage"]
  challenges :=
    "Creating smooth animations, managing game state effectively, and implementing audio feedback across different browsers."
  github := "https://github.com/Ashu2380"
  demo := "#"

/-- The record stored under the key event of projectData. -/
def projectData.event : ProjectRecord where
  title := "Event Management System - Salesforce"
  description :=
    "A comprehensive Salesforce-based application designed to streamline event management processes. This system helps organizations manage events from planning to execution with automated workflows and real-time tracking."
  features := [
    "Event Planning & Scheduling",
    "Participant Registration Management",
    "Automated Email Communications",
    "Resource & Venue Management",
    "Real-time Event Analytics",
    "Mobile-Responsive Interface",
    "Integration with Calendar Systems",
    "Automated Reporting"]
  technologies := ["Salesforce", "Apex", "Lightning Components", "SOQL", "Process Builder", "Flow"]
  challenges :=
    "Designing complex data relationships, implementing automated workflows, and ensuring optimal performance with large datasets."
  github := "https://github.com/Ashu2380"
  demo := "#"

/-- The record stored under the key hospital of projectData. -/
def projectData.hospital : ProjectRecord where
  title := "Hospital Management System - Salesforce"
  description :=
    "A comprehensive hospital management solution built on the Salesforce platform. This system digitizes and automates various hospital operations, improving efficiency and patient care quality."
  features := [
    "Patient Record Management",
    "Appointment Scheduling System",
    "Doctor & Staff Management",
    "Medical History Tracking",
    "Billing & Insurance Processing",
    "Inventory Management",
    "Report Generation",
    "Multi-location Support"]
  technologies := ["Salesforce", "Apex", "Lightning Web Components", "SOQL", "Einstein Analytics"]
  challenges :=
    "Managing complex healthcare data relationships, ensuring HIPAA compliance, and creating intuitive interfaces for diverse user roles."
  github := "https://github.com/Ashu2380"
  demo := "#"

/-- The value of a property read `projectData[projectId]`. -/
inductive JsValue where
  /-- No own and no inherited property of that name. -/
  | undefined
  /-- One of the four records of the object literal. -/
  | project (r : ProjectRecord)
  /-- A property that the object literal inherits from `Object.prototype`
  (a built-in function or object, none of which has a property `features`). -/
  | inherited (name : String)
  deriving DecidableEq, Repr

/-- The property names that every object literal inherits from
`Object.prototype`. -/
def objectPrototypeKeys : List String :=
  ["constructor", "__defineGetter__", "__defineSetter__", "hasOwnProperty",
   "__lookupGetter__", "__lookupSetter__", "isPrototypeOf", "propertyIsEnumerable",
   "toString", "valueOf", "__proto__", "toLocaleString"]

/-- The keys declared in the object literal `projectData`. -/
def declaredProjectKeys : List String := ["ecommerce", "simon", "event", "hospital"]

/-- The property read `projectData[projectId]` of the click handler: own
properties first, then the prototype chain. -/
def projectDataGet (projectId : String) : JsValue :=
  if projectId = "ecommerce" then .project projectData.ecommerce
  else if projectId = "simon" then .project projectData.simon
  else if projectId = "event" then .project projectData.event
  else if projectId = "hospital" then .project projectData.hospital
  else if projectId ∈ objectPrototypeKeys then .inherited projectId
  else .undefined

/-- The template literal `modalContent` of `openModal`. -/
def modalContent (r : ProjectRecord) : String :=
  "\n        <div class=\"project-modal-header\">\n            <h2>"
  ++ r.title
  ++ "</h2>\n        </div>\n        <div class=\"project-modal-content\">\n"
  ++ "            <div class=\"project-description\">\n"
  ++ "                <h3>Project Overview</h3>\n                <p>"
  ++ r.description
  ++ "</p>\n            </div>\n            \n"
  ++ "            <div class=\"project-features\">\n"
  ++ "                <h3>Key Features</h3>\n                <ul>\n                    "
  ++ String.join (r.features.map fun feature => "<li>" ++ feature ++ "</li>")
  ++ "\n                </ul>\n            </div>\n            \n"
  ++ "            <div class=\"project-technologies\">\n"
  ++ "                <h3>Technologies Used</h3>\n"
  ++ "                <div class=\"tech-tags\">\n                    "
  ++ String.join (r.technologies.map fun tech => "<span class=\"tech-tag\">" ++ tech ++ "</span>")
  ++ "\n                </div>\n            </div>\n            \n"
  ++ "            <div class=\"project-challenges\">\n"
  ++ "                <h3>Challenges & Solutions</h3>\n                <p>"
  ++ r.challenges
  ++ "</p>\n            </div>\n            \n"
  ++ "            <div class=\"project-links\">\n                <a href=\""
  ++ r.github
  ++ "\" target=\"_blank\" class=\"btn btn-primary\">\n"
  ++ "                    <i class=\"fab fa-github\"></i> View on GitHub\n"
  ++ "                </a>\n                <a href=\""
  ++ r.demo
  ++ "\" class=\"btn btn-secondary\">\n"
  ++ "                    <i class=\"fas fa-external-link-alt\"></i> Live Demo\n"
  ++ "                </a>\n            </div>\n        </div>\n    "

/-- The part of the document that the menu and the modal handlers touch.  An
element that the document lacks (a lookup that returned `null`) is `none`. -/
structure Page where
  /-- Whether `navToggle` carries the class `active`. -/
  navToggle : Option Bool
  /-- Whether `navMenu` carries the class `active`: the mobile menu is open. -/
  navMenu : Option Bool
  /-- Whether `modal` carries the class `active`: the modal is open. -/
  modal : Option Bool
  /-- The property `modalBody.innerHTML`. -/
  modalBody : Option String
  /-- The property `document.body.style.overflow`; `hidden` locks page scroll. -/
  bodyOverflow : String
  deriving DecidableEq, Repr

/-- What a handler leaves behind: the page as it is when the handler returns
or throws, and the error thrown, if any. -/
structure Outcome where
  page : Page
  thrown : Option String
  deriving DecidableEq, Repr

/-- The function `toggleMobileMenu`. -/
def toggleMobileMenu (p : Page) : Outcome :=
  match p.navToggle with
  | none => { page := p, thrown := some "TypeError: navToggle is null" }
  | some t =>
    let p1 := { p with navToggle := some (!t) }
    match p1.navMenu with
    | none => { page := p1, thrown := some "TypeError: navMenu is null" }
    | some m =>
      let p2 := { p1 with navMenu := some (!m) }
      { page := { p2 with bodyOverflow := if p2.navMenu = some true then "hidden" else "" },
        thrown := none }

/-- The function `closeMobileMenu`. -/
def closeMobileMenu (p : Page) : Outcome :=
  match p.navToggle with
  | none => { page := p, thrown := some "TypeError: navToggle is null" }
  | some _ =>
    let p1 := { p with navToggle := some false }
    match p1.navMenu with
    | none => { page := p1, thrown := some "TypeError: navMenu is null" }
    | some _ =>
      { page := { p1 with navMenu := some false, bodyOverflow := "" }, thrown := none }

/-- The function `openModal`, called with the value read from `projectData`. -/
def openModal (projectData : JsValue) (p : Page) : Outcome :=
  match projectData, p.modal, p.modalBody with
  | .undefined, _, _ => { page := p, thrown := none }
  | _, none, _ => { page := p, thrown := none }
  | _, _, none => { page := p, thrown := none }
  | .inherited _, some _, some _ =>
    -- `projectData.features` is undefined, so `.map` throws while the template
    -- literal is evaluated, before any assignment
    { page := p, thrown := some "TypeError: projectData.features is undefined" }
  | .project r, some _, some _ =>
    { page := { p with modalBody := some (modalContent r), modal := some true,
                       bodyOverflow := "hidden" },
      thrown := none }

/-- The click handler that `initializeModal` puts on a project link whose
attribute `data-project` is `projectId`. -/
def projectLinkClick (projectId : String) (p : Page) : Outcome :=
  openModal (projectDataGet projectId) p

/-- The function `closeModalHandler`. -/
def closeModalHandler (p : Page) : Outcome :=
  match p.modal with
  | none => { page := p, thrown := none }
  | some _ => { page := { p with modal := some false, bodyOverflow := "" }, thrown := none }

/-- The events of the menu and the modal. -/
inductive LockEvent where
  | toggleMobileMenu
  | closeMobileMenu
  | openModal (projectData : JsValue)
  | closeModalHandler
  deriving DecidableEq, Repr

/-- The handler of one event. -/
def LockEvent.handle : LockEvent → Page → Outcome
  | .toggleMobileMenu => Portfolio.toggleMobileMenu
  | .closeMobileMenu => Portfolio.closeMobileMenu
  | .openModal v => Portfolio.openModal v
  | .closeModalHandler => Portfolio.closeModalHandler

/-- The page after a sequence of events, each delivered to its handler; an
error thrown by a handler ends that handler only. -/
def runLockEvents (es : List LockEvent) (p : Page) : Page :=
  es.foldl (fun q e => (e.handle q).page) p

/-- The page as loaded: every element present, menu and modal closed, page
scroll free. -/
def Page.initial : Page :=
  { navToggle := some false, navMenu := some false, modal := some false,
    modalBody := some "", bodyOverflow := "" }

/-- Page scroll is locked. -/
def Page.scrollLocked (p : Page) : Bool := p.bodyOverflow = "hidden"

/-- The mobile menu is open. -/
def Page.menuOpen (p : Page) : Bool := p.navMenu = some true

/-- The modal is open. -/
def Page.modalOpen (p : Page) : Bool := p.modal = some true

/-! ## Contact form -/

/-- An item of a character class: one code unit, or the escape `\s`. -/
inductive ClassItem where
  | unit (c : Nat)
  | space
  deriving DecidableEq, Repr

/-- Whether the item covers the code unit. -/
def ClassItem.covers : ClassItem → Nat → Bool
  | .unit c, d => c = d
  | .space, d => isJsSpace d

/-- The regular expressions the script uses, anchored at both ends by `test`
below: character classes, sequencing, and repetition. -/
inductive Regex where
  /-- Matches no string. -/
  | fail
  /-- Matches the empty string. -/
  | eps
  /-- A character class `[...]`, or `[^...]` when negated. -/
  | cls (negated : Bool) (items : List ClassItem)
  | seq (r s : Regex)
  | alt (r s : Regex)
  | star (r : Regex)
  deriving DecidableEq, Repr

/-- The quantifier `+`. -/
def Regex.plus (r : Regex) : Regex := .seq r (.star r)

/-- A literal code unit. -/
def Regex.chr (c : Nat) : Regex := .cls false [.unit c]

/-- Whether the expression matches the empty string. -/
def Regex.nullable : Regex → Bool
  | .fail => false
  | .eps => true
  | .cls _ _ => false
  | .seq r s => r.nullable && s.nullable
  | .alt r s => r.nullable || s.nullable
  | .star _ => true

/-- The expression matching what may follow the code unit `c`. -/
def Regex.deriv : Regex → Nat → Regex
  | .fail, _ => .fail
  | .eps, _ => .fail
  | .cls negated items, c => if (items.any fun i => i.covers c) != negated then .eps else .fail
  | .seq r s, c =>
    if r.nullable then .alt (.seq (r.deriv c) s) (s.deriv c) else .seq (r.deriv c) s
  | .alt r s, c => .alt (r.deriv c) (s.deriv c)
  | .star r, c => .seq (r.deriv c) (.star r)

/-- The method `RegExp.prototype.test` for an expression written `/^...$/`:
the whole string has to match. -/
def Regex.test (r : Regex) (s : JsString) : Bool :=
  (s.foldl Regex.deriv r).nullable

/-- The class `[^\s@]`. -/
def notSpaceNorAt : Regex := .cls true [.space, .unit 64]

/-- The literal `/^[^\s@]+@[^\s@]+\.[^\s@]+$/` of `validateForm`. -/
def emailRegex : Regex :=
  .seq notSpaceNorAt.plus (.seq (.chr 64) (.seq notSpaceNorAt.plus
    (.seq (.chr 46) notSpaceNorAt.plus)))

/-- The object `data` that `handleFormSubmission` builds from the form; a
property the form has no field for is `none` (undefined). -/
structure FormDraft where
  name : Option JsString
  email : Option JsString
  subject : Option JsString
  message : Option JsString
  deriving DecidableEq, Repr

/-- An input or textarea of the contact form. -/
structure FormField where
  /-- The identity of `field.parentNode`. -/
  parent : Nat
  /-- The property `field.style.borderColor`. -/
  borderColor : String
  deriving DecidableEq, Repr

/-- The submit button. -/
structure SubmitButton where
  innerHTML : String
  disabled : Bool
  deriving DecidableEq, Repr

/-- A callback that the form handlers passed to `setTimeout`. -/
inductive FormTimer where
  /-- The callback of `handleFormSubmission`: success banner, reset, button
  restored to `originalText`. -/
  | finishSubmission (delay : Nat) (originalText : String)
  deriving DecidableEq, Repr

/-- The contact form and what hangs below it.  The parent nodes of the fields
are taken not to contain one another, so that the error messages below one
parent are those appended to it. -/
structure ContactForm where
  /-- The result of `contactForm.querySelector` for a `name` attribute. -/
  field : String → Option FormField
  /-- For each parent node, the texts of the elements of class
  `error-message` below it, in document order. -/
  errorMessages : Nat → List String
  /-- The result of `contactForm.querySelector('button[type="submit"]')`. -/
  submitButton : Option SubmitButton
  /-- The pending timers, oldest first. -/
  timers : List FormTimer

/-- The function `clearValidationError`, called with `e.target` the field
named `fieldName`. -/
def clearValidationError (fieldName : String) (form : ContactForm) : ContactForm :=
  match form.field fieldName with
  | none => form
  | some f =>
    { form with
      field := fun n => if n = fieldName then some { f with borderColor := "" } else form.field n
      errorMessages := fun q =>
        if q = f.parent then (form.errorMessages q).tail else form.errorMessages q }

/-- The function `showValidationError`. -/
def showValidationError (fieldName : String) (message : String) (form : ContactForm) :
    ContactForm :=
  match form.field fieldName with
  | none => form
  | some f =>
    let form1 := clearValidationError fieldName form
    { form1 with
      field := fun n =>
        if n = fieldName then some { f with borderColor := "#e74c3c" } else form1.field n
      errorMessages := fun q =>
        if q = f.parent then form1.errorMessages q ++ [message] else form1.errorMessages q }

/-- The test `!value || value.trim().length < n` of `validateForm`. -/
def tooShort (value : Option JsString) (n : Nat) : Bool :=
  match value with
  | none => true
  | some v => v.isEmpty || decide ((trim v).length < n)

/-- The test `!data.email || !emailRegex.test(data.email)` of `validateForm`. -/
def badEmail (value : Option JsString) : Bool :=
  match value with
  | none => true
  | some v => v.isEmpty || !emailRegex.test v

/-- The function `validateForm`: the flag returned and the form it leaves. -/
def validateForm (data : FormDraft) (form : ContactForm) : Bool × ContactForm :=
  let isValid := true
  let (isValid, form) :=
    if tooShort data.name 2 then
      (false, showValidationError "name" "Name must be at least 2 characters long" form)
    else (isValid, form)
  let (isValid, form) :=
    if badEmail data.email then
      (false, showValidationError "email" "Please enter a valid email address" form)
    else (isValid, form)
  let (isValid, form) :=
    if tooShort data.subject 3 then
      (false, showValidationError "subject" "Subject must be at least 3 characters long" form)
    else (isValid, form)
  let (isValid, form) :=
    if tooShort data.message 10 then
      (false, showValidationError "message" "Message must be at least 10 characters long" form)
    else (isValid, form)
  (isValid, form)

/-- What `handleFormSubmission` leaves behind. -/
structure FormOutcome where
  form : ContactForm
  thrown : Option String

/-- The function `handleFormSubmission`, with `data` the entries read from the
form. -/
def handleFormSubmission (data : FormDraft) (form : ContactForm) : FormOutcome :=
  let (ok, form) := validateForm data form
  if !ok then { form := form, thrown := none }
  else
    match form.submitButton with
    | none => { form := form, thrown := some "TypeError: submitButton is null" }
    | some b =>
      let originalText := b.innerHTML
      { form :=
          { form with
            submitButton :=
              some { innerHTML := "<i class=\"fas fa-spinner fa-spin\"></i> Sending...",
                     disabled := true }
            timers := form.timers ++ [.finishSubmission 2000 originalText] }
        thrown := none }

/-- The four fields that `validateForm` checks. -/
inductive FieldId where
  | name | email | subject | message
  deriving DecidableEq, Repr

/-- The `name` attribute of a field. -/
def FieldId.attr : FieldId → String
  | .name => "name"
  | .email => "email"
  | .subject => "subject"
  | .message => "message"

/-- The message that `validateForm` shows for a field. -/
def FieldId.errorText : FieldId → String
  | .name => "Name must be at least 2 characters long"
  | .email => "Please enter a valid email address"
  | .subject => "Subject must be at least 3 characters long"
  | .message => "Message must be at least 10 characters long"

/-- The rule of the specification for a field: trimmed name of length at least
2, email of the form local@domain.tld, trimmed subject of length at least 3,
trimmed message of length at least 10; a missing or empty value breaks it. -/
def FieldId.satisfiedBy : FieldId → FormDraft → Prop
  | .name, d => ∃ v, d.name = some v ∧ 2 ≤ (trim v).length
  | .email, d => ∃ v, d.email = some v ∧ emailRegex.test v = true
  | .subject, d => ∃ v, d.subject = some v ∧ 3 ≤ (trim v).length
  | .message, d => ∃ v, d.message = some v ∧ 10 ≤ (trim v).length

/-- The test that `validateForm` makes on a field. -/
def FieldId.rejects : FieldId → FormDraft → Bool
  | .name, d => tooShort d.name 2
  | .email, d => badEmail d.email
  | .subject, d => tooShort d.subject 3
  | .message, d => tooShort d.message 10

/-- The guarded call of `showValidationError` that each of the four blocks of
`validateForm` makes. -/
def reportIf (bad : Bool) (f : FieldId) (form : ContactForm) : ContactForm :=
  if bad then showValidationError f.attr f.errorText form else form

/-- The error messages shown below the parent of a field; none when the form
has no such field. -/
def ContactForm.errorsOf (form : ContactForm) (f : FieldId) : List String :=
  match form.field f.attr with
  | none => []
  | some fld => form.errorMessages fld.parent

/-- The document the script is written for: the form has the four fields, each
below a parent of its own. -/
def ContactForm.wellFormed (form : ContactForm) : Prop :=
  (∀ f : FieldId, (form.field f.attr).isSome) ∧
  ∀ f g : FieldId, f ≠ g → (form.field f.attr).map (·.parent) ≠ (form.field g.attr).map (·.parent)

/-- A document of the expected shape: the four fields below the parents 0 to
3, no error message shown, the submit button enabled, no timer pending. -/
def ContactForm.sample : ContactForm where
  field := fun n =>
    if n = "name" then some { parent := 0, borderColor := "" }
    else if n = "email" then some { parent := 1, borderColor := "" }
    else if n = "subject" then some { parent := 2, borderColor := "" }
    else if n = "message" then some { parent := 3, borderColor := "" }
    else none
  errorMessages := fun _ => []
  submitButton := some { innerHTML := "Send Message", disabled := false }
  timers := []

/-- The draft of the specification that breaks all four rules. -/
def FormDraft.allBad : FormDraft :=
  { name := some (utf16 "A"), email := some (utf16 "bad"), subject := some (utf16 "Hi"),
    message := some (utf16 "short") }

/-- The draft of the specification that breaks no rule. -/
def FormDraft.allGood : FormDraft :=
  { name := some (utf16 "Jane Doe"), email := some (utf16 "jane@example.com"),
    subject := some (utf16 "Hello there"),
    message := some (utf16 "This is a sufficiently long message.") }

/-! ## Typing animation -/

/-- The constant `texts` of `initializeTypingAnimation`. -/
def texts : List JsString :=
  [utf16 "Asharam Saini", utf16 "Full Stack Developer", utf16 "Problem Solver",
   utf16 "Tech Enthusiast"]

/-- The variables that `typeText` closes over, the text of the typing element,
and the delay of the timer the last call set. -/
structure TypingState where
  textIndex : Nat
  charIndex : Int
  isDeleting : Bool
  typingSpeed : Nat
  /-- The property `typingElement.textContent`. -/
  textContent : JsString
  /-- The delay passed to the pending `setTimeout(typeText, ...)`. -/
  timeout : Nat
  deriving DecidableEq, Repr

/-- The state when `initializeTypingAnimation` returns: the first call of
`typeText` is due after 2000. -/
def TypingState.initial (shown : JsString) : TypingState :=
  { textIndex := 0, charIndex := 0, isDeleting := false, typingSpeed := 100,
    textContent := shown, timeout := 2000 }

/-- One call of `typeText` over the phrase list `texts`; `none` when
`texts[textIndex]` is undefined and the call throws. -/
def typeText (texts : List JsString) (s : TypingState) : Option TypingState :=
  match texts[s.textIndex]? with
  | none => none
  | some currentText =>
    if !s.isDeleting then
      let s := { s with textContent := substring0 currentText (s.charIndex + 1),
                        charIndex := s.charIndex + 1 }
      if s.charIndex = (currentText.length : Int) then
        some { s with isDeleting := true, typingSpeed := 50, timeout := 2000 }
      else some { s with timeout := s.typingSpeed }
    else
      let s := { s with textContent := substring0 currentText s.charIndex,
                        charIndex := s.charIndex - 1 }
      if s.charIndex < (0 : Int) then
        some { s with isDeleting := false, textIndex := (s.textIndex + 1) % texts.length,
                      typingSpeed := 100, timeout := 500 }
      else some { s with timeout := s.typingSpeed }

/-- The state after `n` calls of `typeText`, each made by the timer the one
before it set. -/
def runTyping (texts : List JsString) (shown : JsString) : Nat → Option TypingState
  | 0 => some (TypingState.initial shown)
  | n + 1 => (runTyping texts shown n).bind (typeText texts)

/-- The number of deletion phases completed within the first `n` calls: the
calls that found `isDeleting` set and cleared it. -/
def completedDeletions (texts : List JsString) (shown : JsString) : Nat → Nat
  | 0 => 0
  | n + 1 =>
    completedDeletions texts shown n +
      (match runTyping texts shown n, runTyping texts shown (n + 1) with
       | some s, some s2 => if s.isDeleting && !s2.isDeleting then 1 else 0
       | _, _ => 0)

/-- The length of the phrase visited `k`-th (counting from 0). -/
def phraseLength (texts : List JsString) (k : Nat) : Nat :=
  (texts.getD (k % texts.length) []).length

/-- The number of the call that ends the typing of the phrase visited `k`-th. -/
def switchCall (texts : List JsString) : Nat → Nat
  | 0 => phraseLength texts 0
  | k + 1 => switchCall texts k + (phraseLength texts k + 1) + (phraseLength texts (k + 1) + 1)

/-- The number of the call that ends the deleting of the phrase visited
`k`-th: one call more than the phrase has characters after the switch. -/
def deletionEndCall (texts : List JsString) (k : Nat) : Nat :=
  switchCall texts k + phraseLength texts k + 1

/-- The number of calls made before the visit of the phrase visited `k`-th
begins: none for the first, else those up to the end of the deletion before. -/
def visitStartCall (texts : List JsString) : Nat → Nat
  | 0 => 0
  | k + 1 => deletionEndCall texts k

/-! ## Numbers

The numbers of the script are IEEE 754 doubles.  A finite double is given by
its exact value, a rational; the result of an operation is the exact result
rounded to the nearest double, ties to the even mantissa.  The two zeros are
not told apart: no operation of the script tells them apart. -/

/-- The integer nearest to `x`, the even one of the two when `x` lies half way
between them. -/
def roundHalfEven (x : ℚ) : ℤ :=
  let f := ⌊x⌋
  let r := x - f
  if r < 1 / 2 then f
  else if 1 / 2 < r then f + 1
  else if f % 2 = 0 then f else f + 1

/-- The exponent of the last of the 53 bits of the double nearest to `x`:
52 below the exponent of `x`, and not below -1074. -/
def ulpExponent (x : ℚ) : ℤ := max (Int.log 2 |x| - 52) (-1074)

/-- The multiple of `2 ^ ulpExponent x` nearest to `x`, ties to the even
multiple: `x` rounded as a double, were the exponent range unbounded above. -/
def roundValue (x : ℚ) : ℚ :=
  (roundHalfEven (x / 2 ^ ulpExponent x) : ℚ) * 2 ^ ulpExponent x

/-- A value of the type Number other than `NaN`. -/
inductive NumberValue where
  | negInf
  /-- A finite double, by its exact value. -/
  | fin (q : ℚ)
  | posInf
  deriving DecidableEq, Repr

/-- A value of the type Number; `none` is `NaN`. -/
abbrev JsNumber := Option NumberValue

/-- The double that the exact result `x` of an operation gives: the nearest
one, an infinity from `2 ^ 1024` on. -/
def roundDouble (x : ℚ) : NumberValue :=
  let r := roundValue x
  if (2 : ℚ) ^ 1024 ≤ r then .posInf
  else if r ≤ -(2 : ℚ) ^ 1024 then .negInf
  else .fin r

/-- A Number without a fraction, as `parseInt` and `Math.floor` return it. -/
inductive WholeValue where
  | negInf
  /-- A finite whole double, by its value. -/
  | fin (z : ℤ)
  | posInf
  deriving DecidableEq, Repr

/-- A Number without a fraction, or `NaN` (`none`). -/
abbrev JsWhole := Option WholeValue

/-- A whole Number as a Number. -/
def WholeValue.toNumber : WholeValue → NumberValue
  | .negInf => .negInf
  | .fin z => .fin z
  | .posInf => .posInf

/-- The order of the Numbers other than `NaN`. -/
def NumberValue.le : NumberValue → NumberValue → Bool
  | .negInf, _ => true
  | _, .posInf => true
  | .fin a, .fin b => decide (a ≤ b)
  | _, _ => false

/-- The comparison `a >= b`, false when either side is `NaN`. -/
def jsGe (a b : JsNumber) : Bool :=
  match a, b with
  | some x, some y => y.le x
  | _, _ => false

/-- The sum `a + b`. -/
def jsAdd (a b : JsNumber) : JsNumber :=
  match a, b with
  | some (.fin x), some (.fin y) => some (roundDouble (x + y))
  | some .posInf, some .negInf => none
  | some .negInf, some .posInf => none
  | some .posInf, some _ => some .posInf
  | some _, some .posInf => some .posInf
  | some .negInf, some _ => some .negInf
  | some _, some .negInf => some .negInf
  | _, _ => none

/-- The quotient `a / b`; a zero divisor counts as the positive zero. -/
def jsDiv (a b : JsNumber) : JsNumber :=
  match a, b with
  | some (.fin x), some (.fin y) =>
    if y = 0 then
      if x = 0 then none else if 0 < x then some .posInf else some .negInf
    else some (roundDouble (x / y))
  | some (.fin _), some _ => some (.fin 0)
  | some .posInf, some (.fin y) => if 0 ≤ y then some .posInf else some .negInf
  | some .negInf, some (.fin y) => if 0 ≤ y then some .negInf else some .posInf
  | _, _ => none

/-- The call `Math.floor(a)`. -/
def mathFloor (a : JsNumber) : JsWhole :=
  match a with
  | none => none
  | some .negInf => some .negInf
  | some (.fin q) => some (.fin ⌊q⌋)
  | some .posInf => some .posInf

/-- The number of decimal digits of a positive whole number. -/
def decimalLength (z : Nat) : Nat := Nat.log 10 z + 1

/-- The whole number `s × 10^(n-k)` with `k` significant digits that
`Number::toString` prints for the positive whole double `z` of `n` digits, if
there is one: of the two such numbers next to `z`, below and above, the one
that rounds to `z`; the nearer to `z` when both do, the one with even `s` when
they are equally near. -/
def decimalCandidate (z n k : Nat) : Option Nat :=
  let P := 10 ^ (n - k)
  let lo := z / P * P
  let hi := lo + P
  let okLo := decide (roundDouble (lo : ℚ) = .fin (z : ℚ))
  let okHi := decide (roundDouble (hi : ℚ) = .fin (z : ℚ))
  if okLo && okHi then
    if z - lo < hi - z then some lo
    else if hi - z < z - lo then some hi
    else if (z / P) % 2 = 0 then some lo else some hi
  else if okLo then some lo
  else if okHi then some hi
  else none

/-- The whole number whose digits `Number::toString` prints for the positive
whole double `z`: among the numbers `s × 10^(n-k)` that round to `z` one with
the least number `k` of significant digits. -/
def shortestDecimal (z : Nat) : Nat :=
  let n := decimalLength z
  ((List.range n).findSome? fun i => decimalCandidate z n (i + 1)).getD z

/-- The digits of a whole number without its trailing zeros. -/
def significantDigits (v : Nat) : List Char :=
  ((toString v).toList.reverse.dropWhile (· = '0')).reverse

/-- The text of `Number::toString` for a non-negative whole double: its
shortest digits, in full up to 21 digits and with an exponent beyond. -/
def wholeText (z : Nat) : String :=
  if z = 0 then "0"
  else
    let v := shortestDecimal z
    let n := decimalLength v
    if n ≤ 21 then toString v
    else
      match significantDigits v with
      | [] => "0"
      | [d] => String.mk [d] ++ "e+" ++ toString (n - 1)
      | d :: rest => String.mk (d :: '.' :: rest) ++ "e+" ++ toString (n - 1)

/-- The text that assigning a whole Number to `textContent` gives. -/
def numberText : JsWhole → String
  | none => "NaN"
  | some .negInf => "-Infinity"
  | some .posInf => "Infinity"
  | some (.fin z) => if z < 0 then "-" ++ wholeText z.natAbs else wholeText z.natAbs

/-! ## Counters -/

/-- The closure `updateCounter` of one animation: the constants `target` and
`step` and the variable `current`. -/
structure CounterClosure where
  target : JsWhole
  step : JsNumber
  current : JsNumber

/-- A counter element. -/
structure CounterNode where
  /-- The property `counter.textContent`. -/
  textContent : String
  /-- The values assigned to `textContent` so far, oldest first. -/
  written : List JsWhole
  /-- The callback of this element passed to `requestAnimationFrame` and not
  yet run; an element is animated once, so at most one is pending. -/
  frame : Option CounterClosure

/-- The function `updateCounter`. -/
def updateCounter (k : CounterClosure) (counter : CounterNode) : CounterNode :=
  let k := { k with current := jsAdd k.current k.step }
  if jsGe k.current (k.target.map WholeValue.toNumber) then
    { counter with textContent := numberText k.target,
                   written := counter.written ++ [k.target] }
  else
    { textContent := numberText (mathFloor k.current),
      written := counter.written ++ [mathFloor k.current], frame := some k }

/-- The function `animateCounter`, with `target` the result of `parseInt` on
the attribute `data-count` of the element `id`: the set `animatedElements`
and the element it leaves. -/
def animateCounter (animatedElements : List Nat) (id : Nat) (target : JsWhole)
    (counter : CounterNode) : List Nat × CounterNode :=
  if id ∈ animatedElements then (animatedElements, counter)
  else
    let duration : JsNumber := some (.fin 2000)
    let step := jsDiv (target.map WholeValue.toNumber) (jsDiv duration (some (.fin 16)))
    let current : JsNumber := some (.fin 0)
    (id :: animatedElements,
      updateCounter { target := target, step := step, current := current } counter)

/-- One animation frame: the requested callback, if any, runs. -/
def animationFrame (counter : CounterNode) : CounterNode :=
  match counter.frame with
  | none => counter
  | some k => updateCounter k { counter with frame := none }

/-- The element after `animateCounter` and `n` further animation frames. -/
def runCounter (animatedElements : List Nat) (id : Nat) (target : JsWhole)
    (counter : CounterNode) (n : Nat) : CounterNode :=
  animationFrame^[n] (animateCounter animatedElements id target counter).2

/-- The element while the animation towards the whole target `T` runs: a
frame is requested with the step `σ` and the current value `c`, a double
between 0 and `T`; `ws` are the values written since `base`, in order, none
above `c`. -/
def CounterNode.running (node : CounterNode) (base : List JsWhole) (T : ℕ) (σ c : ℚ)
    (ws : List ℤ) : Prop :=
  node.frame = some { target := some (.fin (T : ℤ)), step := some (.fin σ),
                      current := some (.fin c) } ∧
  node.written = base ++ ws.map (fun z => some (.fin z)) ∧
  roundValue c = c ∧ 0 ≤ c ∧ c < (T : ℚ) ∧ ws.Pairwise (· ≤ ·) ∧ ∀ w ∈ ws, (w : ℚ) ≤ c

/-- The element when the animation towards the whole target `T` is over: no
frame is requested, the text is the target, and the values `ws` written since
`base` do not decrease, do not exceed `T` and end with `T`. -/
def CounterNode.finished (node : CounterNode) (base : List JsWhole) (T : ℕ)
    (ws : List ℤ) : Prop :=
  node.frame = none ∧
  node.written = base ++ ws.map (fun z => some (.fin z)) ∧
  node.textContent = numberText (some (.fin (T : ℤ))) ∧
  ws.Pairwise (· ≤ ·) ∧ (∀ w ∈ ws, w ≤ (T : ℤ)) ∧ ws.getLast? = some (T : ℤ)

/-! ## Active navigation link -/

/-- An element matched by `section[id]`. -/
structure PageSection where
  offsetTop : Int
  offsetHeight : Int
  id : String
  deriving DecidableEq, Repr

/-- An element of `navLinks`. -/
structure NavLink where
  /-- The attribute `href`, `none` when the link has none. -/
  href : Option String
  /-- Whether the link carries the class `active`. -/
  active : Bool
  deriving DecidableEq, Repr

/-- The test of `updateActiveNavigation` on one section. -/
def PageSection.spans (S : PageSection) (scrollTop : Int) : Bool :=
  let sectionTop := S.offsetTop - 100
  let sectionHeight := S.offsetHeight
  decide (scrollTop ≥ sectionTop) && decide (scrollTop < sectionTop + sectionHeight)

/-- The inner loop of `updateActiveNavigation` for the section `S`. -/
def markLinks (S : PageSection) (navLinks : List NavLink) : List NavLink :=
  navLinks.map fun link =>
    { link with active := decide (link.href = some ("#" ++ S.id)) }

/-- The function `updateActiveNavigation`, with `scrollTop` the scroll offset
in pixels: the links it leaves. -/
def updateActiveNavigation (sections : List PageSection) (scrollTop : Int)
    (navLinks : List NavLink) : List NavLink :=
  sections.foldl
    (fun links S => if S.spans scrollTop then markLinks S links else links) navLinks

/-! ## Animations triggered by visibility -/

/-- An entry that an `IntersectionObserver` hands to its callback. -/
structure IntersectionEntry where
  isIntersecting : Bool
  /-- The identity of `entry.target`. -/
  target : Nat
  deriving DecidableEq, Repr

/-- The inline style properties that the animators assign. -/
structure NodeStyle where
  width : String
  opacity : String
  transform : String
  animation : String
  deriving DecidableEq, Repr

/-- A callback that an animator passed to `setTimeout`. -/
inductive SceneTimer where
  /-- The callback of `animateSkillBar`: `skillBar.style.width = width`. -/
  | setWidth (delay : ℚ) (node : Nat) (width : Option String)
  /-- The callback of the reveal observer: opacity, transform and animation
  of `entry.target`. -/
  | reveal (delay : Nat) (node : Nat)

/-- The elements that the three observers watch, with the global set
`animatedElements` and the pending timers. -/
structure Scene where
  animatedElements : List Nat
  /-- For each element the result of `parseInt` on its attribute `data-count`. -/
  dataCount : Nat → JsWhole
  /-- For each element its attribute `data-width`. -/
  dataWidth : Nat → Option String
  /-- For each element its text, and its pending animation frame. -/
  counters : Nat → CounterNode
  /-- For each element its inline style. -/
  style : Nat → NodeStyle
  /-- The pending timers, oldest first. -/
  timers : List SceneTimer

/-- The call `animateCounter(entry.target)` on the scene. -/
def Scene.animateCounter (id : Nat) (s : Scene) : Scene :=
  let r := Portfolio.animateCounter s.animatedElements id (s.dataCount id) (s.counters id)
  { s with animatedElements := r.1, counters := Function.update s.counters id r.2 }

/-- The callback of the observer of `initializeCounters`. -/
def counterObserver (entries : List IntersectionEntry) (s : Scene) : Scene :=
  entries.foldl (fun s entry => if entry.isIntersecting then s.animateCounter entry.target else s) s

/-- The function `animateSkillBar`, with `random` the value that
`Math.random()` returns for the call. -/
def animateSkillBar (random : ℚ) (skillBar : Nat) (s : Scene) : Scene :=
  if skillBar ∈ s.animatedElements then s
  else
    let width := s.dataWidth skillBar
    { s with animatedElements := skillBar :: s.animatedElements,
             timers := s.timers ++ [.setWidth (random * 500) skillBar width] }

/-- The callback of the observer of `initializeSkillBars`; `random` gives the
value of `Math.random()` for the call made for an element. -/
def skillObserver (random : Nat → ℚ) (entries : List IntersectionEntry) (s : Scene) : Scene :=
  entries.foldl
    (fun s entry =>
      if entry.isIntersecting then animateSkillBar (random entry.target) entry.target s else s) s

/-- The callback of the observer of `initializeScrollAnimations`. -/
def revealObserver (entries : List IntersectionEntry) (s : Scene) : Scene :=
  entries.enum.foldl
    (fun s (p : Nat × IntersectionEntry) =>
      let index := p.1
      let entry := p.2
      if entry.isIntersecting && !decide (entry.target ∈ s.animatedElements) then
        { s with animatedElements := entry.target :: s.animatedElements,
                 timers := s.timers ++ [.reveal (index * 100) entry.target] }
      else s) s

/-- The timer at position `i` of the pending ones fires. -/
def Scene.fireTimer (i : Nat) (s : Scene) : Scene :=
  match s.timers[i]? with
  | none => s
  | some (.setWidth _ node width) =>
    -- `null` is assigned as the empty string
    { s with timers := s.timers.eraseIdx i,
             style := Function.update s.style node
               { s.style node with width := width.getD "" } }
  | some (.reveal _ node) =>
    { s with timers := s.timers.eraseIdx i,
             style := Function.update s.style node
               { s.style node with opacity := "1", transform := "translateY(0)",
                                   animation := "fadeInUp 0.8s ease forwards" } }

/-- The requested animation frame of the counter `id` runs. -/
def Scene.frame (id : Nat) (s : Scene) : Scene :=
  { s with counters := Function.update s.counters id (animationFrame (s.counters id)) }

/-- What can happen to the scene. -/
inductive SceneEvent where
  | counterEntries (entries : List IntersectionEntry)
  | skillEntries (random : Nat → ℚ) (entries : List IntersectionEntry)
  | revealEntries (entries : List IntersectionEntry)
  | timer (i : Nat)
  | frame (id : Nat)

/-- The scene after an event. -/
def SceneEvent.apply : SceneEvent → Scene → Scene
  | .counterEntries entries, s => counterObserver entries s
  | .skillEntries random entries, s => skillObserver random entries s
  | .revealEntries entries, s => revealObserver entries s
  | .timer i, s => s.fireTimer i
  | .frame id, s => s.frame id

/-- The scene after a sequence of events. -/
def runScene (events : List SceneEvent) (s : Scene) : Scene :=
  events.foldl (fun s e => e.apply s) s

/-- A scene in which the elements 1, 2 and 3 (a counter, a skill bar and a
card) were animated and nothing is pending. -/
def Scene.sample : Scene where
  animatedElements := [3, 2, 1]
  dataCount := fun _ => some (.fin 25)
  dataWidth := fun _ => some "90%"
  counters := fun _ => { textContent := "25", written := [], frame := none }
  style := fun _ => { width := "90%", opacity := "1", transform := "translateY(0)",
                      animation := "fadeInUp 0.8s ease forwards" }
  timers := []

/-! ## Project filter -/

/-- An element of `filterButtons`. -/
structure FilterButton where
  /-- The attribute `data-filter`. -/
  dataFilter : Option String
  /-- Whether the button carries the class `active`. -/
  active : Bool
  deriving DecidableEq, Repr

/-- An element of `projectCards`. -/
structure ProjectCard where
  /-- The attribute `data-category`. -/
  dataCategory : Option String
  /-- Whether the card carries the class `hidden`. -/
  hidden : Bool
  /-- The property `card.style.animation`. -/
  animation : String
  deriving DecidableEq, Repr

/-- The callback that a click passed to `setTimeout` for the card at position
`card`, due at the time `due`. -/
structure FilterTimer where
  due : Nat
  card : Nat
  deriving DecidableEq, Repr

/-- The buttons, the cards and the pending timers of the project filter. -/
structure FilterPage where
  filterButtons : List FilterButton
  projectCards : List ProjectCard
  /-- The pending timers, oldest first. -/
  timers : List FilterTimer
  deriving DecidableEq, Repr

/-- The test `filter === 'all' || category === filter`. -/
def filterShows (filter category : Option String) : Bool :=
  filter = some "all" || category = filter

/-- The callback of the timer for a card: the card is shown. -/
def showCard (card : Nat) (cards : List ProjectCard) : List ProjectCard :=
  cards.modify (fun c => { c with hidden := false, animation := "fadeInUp 0.6s ease forwards" })
    card

/-- The click handler of the button at position `button`, run at the time
`now`: the active button changes, the cards that do not match are hidden at
once, and for each card that matches a timer is set. -/
def filterClick (now : Nat) (button : Nat) (p : FilterPage) : FilterPage :=
  match p.filterButtons[button]? with
  | none => p
  | some b =>
    let filter := b.dataFilter
    let buttons := (p.filterButtons.map fun btn => { btn with active := false }).modify
      (fun btn => { btn with active := true }) button
    let cards := p.projectCards.map fun card =>
      if filterShows filter card.dataCategory then card
      else { card with hidden := true, animation := "" }
    let timers := (p.projectCards.enum.filter fun ic => filterShows filter ic.2.dataCategory).map
      fun ic => { due := now + ic.1 * 100, card := ic.1 : FilterTimer }
    { filterButtons := buttons, projectCards := cards, timers := p.timers ++ timers }

/-- The pending timers that are due at the time `now` fire, oldest first. -/
def fireDue (now : Nat) (p : FilterPage) : FilterPage :=
  { p with
    projectCards := (p.timers.filter fun t => t.due ≤ now).foldl
      (fun cards t => showCard t.card cards) p.projectCards
    timers := p.timers.filter fun t => ¬ t.due ≤ now }

/-- All pending timers fire. -/
def fireAll (p : FilterPage) : FilterPage :=
  { p with
    projectCards := p.timers.foldl (fun cards t => showCard t.card cards) p.projectCards
    timers := [] }

/-- The page after a sequence of clicks, each given by its time and the
position of its button, and after all timers have fired: before a click the
timers due by then fire. -/
def runFilterClicks (clicks : List (Nat × Nat)) (p : FilterPage) : FilterPage :=
  fireAll (clicks.foldl (fun p c => filterClick c.1 c.2 (fireDue c.1 p)) p)

/-- A page with the buttons `all`, `web` and `salesforce` and four cards, two
of each category, all shown, no timer pending. -/
def FilterPage.sample : FilterPage where
  filterButtons := [⟨some "all", true⟩, ⟨some "web", false⟩, ⟨some "salesforce", false⟩]
  projectCards := [⟨some "web", false, ""⟩, ⟨some "web", false, ""⟩,
    ⟨some "salesforce", false, ""⟩, ⟨some "salesforce", false, ""⟩]
  timers := []

/-! ## Theme -/

/-- The element `themeToggle`; `icon` is the class name of the `i` element
inside it, `none` when it has none. -/
structure ThemeToggle where
  icon : Option String
  deriving DecidableEq, Repr

/-- What the theme functions read and write. -/
structure ThemePage where
  /-- The attribute `data-theme` of the document element. -/
  dataTheme : Option String
  /-- The entries of `localStorage`. -/
  localStorage : String → Option String
  /-- The element `themeToggle`, `none` when the document has none. -/
  themeToggle : Option ThemeToggle
  /-- Whether `toggleTheme` listens to clicks on `themeToggle`. -/
  toggleListens : Bool
  /-- The property `document.body.style.transition`. -/
  bodyTransition : String
  /-- The delays of the pending timers that clear the transition. -/
  timers : List Nat

/-- What a theme function leaves behind: the page as it is when the function
returns or throws, and the error thrown, if any. -/
structure ThemeOutcome where
  page : ThemePage
  thrown : Option String

/-- The function `updateThemeIcon`. -/
def updateThemeIcon (theme : String) (p : ThemePage) : ThemeOutcome :=
  match p.themeToggle with
  | none => { page := p, thrown := some "TypeError: themeToggle is null" }
  | some t =>
    match t.icon with
    | none => { page := p, thrown := none }
    | some _ =>
      let className := if theme = "dark" then "fas fa-sun" else "fas fa-moon"
      { page := { p with themeToggle := some { icon := some className } }, thrown := none }

/-- The expression `localStorage.getItem('theme') || 'light'`. -/
def savedTheme (p : ThemePage) : String :=
  match p.localStorage "theme" with
  | none => "light"
  | some v => if v = "" then "light" else v

/-- The function `initializeTheme`. -/
def initializeTheme (p : ThemePage) : ThemeOutcome :=
  let savedTheme := savedTheme p
  let p := { p with dataTheme := some savedTheme }
  let o := updateThemeIcon savedTheme p
  match o.thrown with
  | some e => { page := o.page, thrown := some e }
  | none =>
    match o.page.themeToggle with
    | none => { page := o.page, thrown := none }
    | some _ => { page := { o.page with toggleListens := true }, thrown := none }

/-- The function `toggleTheme`. -/
def toggleTheme (p : ThemePage) : ThemeOutcome :=
  let currentTheme := p.dataTheme
  let newTheme := if currentTheme = some "dark" then "light" else "dark"
  let p := { p with dataTheme := some newTheme,
                    localStorage := fun k => if k = "theme" then some newTheme
                                             else p.localStorage k }
  let o := updateThemeIcon newTheme p
  match o.thrown with
  | some e => { page := o.page, thrown := some e }
  | none =>
    { page := { o.page with bodyTransition := "all 0.3s ease", timers := o.page.timers ++ [300] },
      thrown := none }

/-- A page load: storage is kept, the document is fresh. -/
def ThemePage.reload (p : ThemePage) (themeToggle : Option ThemeToggle) : ThemePage :=
  { dataTheme := none, localStorage := p.localStorage, themeToggle := themeToggle,
    toggleListens := false, bodyTransition := "", timers := [] }

/-- A loaded page in the light theme with nothing stored. -/
def ThemePage.sample : ThemePage :=
  { dataTheme := some "light", localStorage := fun _ => none,
    themeToggle := some { icon := some "fas fa-moon" }, toggleListens := true,
    bodyTransition := "", timers := [] }

/-! ## Initialization -/

/-- The initializers that `initializeApp` calls, in its order. -/
inductive Feature where
  | navigation | theme | scrollEffects | typing | counters | skillBars
  | projectFilters | contactForm | scrollAnimations | modal
  deriving DecidableEq, Repr

/-- The listeners, observers and timers that the initializers register. -/
inductive Listener where
  /-- Click on `navToggle`: `toggleMobileMenu`. -/
  | navToggleClick
  /-- Click on a navigation link: `closeMobileMenu`, then `handleSmoothScroll`. -/
  | navLinkClick
  /-- Scroll: `updateActiveNavigation`. -/
  | scrollActiveNavigation
  /-- Scroll: `handleNavbarScroll`. -/
  | scrollNavbar
  /-- Click on `themeToggle`: `toggleTheme`. -/
  | themeToggleClick
  /-- Click on `backToTop`. -/
  | backToTopClick
  /-- Scroll: the throttled `handleScrollEffects` and `handleScrollAnimations`. -/
  | scrollEffects
  /-- The timer that starts `typeText`. -/
  | typingTimer
  | counterObserver
  | skillObserver
  /-- Click on a filter button. -/
  | filterClick
  /-- Submit of the contact form: `handleFormSubmission`. -/
  | formSubmit
  /-- Blur and input of the fields of the contact form. -/
  | fieldEvents
  | revealObserver
  /-- Click on a project link. -/
  | projectLinkClick
  /-- Click on `closeModal`. -/
  | closeModalClick
  /-- Click on `modal`. -/
  | modalClick
  /-- Key down on the document. -/
  | documentKeydown
  deriving DecidableEq, Repr

/-- The document as the initializers see it: for each element looked up at the
top of the script whether it was found, the sizes of the node lists, and what
has been registered so far. -/
structure App where
  /-- The element `navbar`: whether it carries the class `scrolled`; `none`
  when the document has none. -/
  navbar : Option Bool
  /-- The elements `navToggle`, `navMenu`, `modal`, `modalBody` and the body. -/
  page : Page
  /-- The number of elements of `navLinks`. -/
  navLinks : Nat
  /-- The element `themeToggle`, the theme attribute and the storage. -/
  theme : ThemePage
  backToTop : Bool
  /-- Whether an element of class `typing-animation` exists. -/
  typingElement : Bool
  /-- The numbers of counters, skill bars, filter buttons, project links and
  elements to reveal. -/
  counters : Nat
  skillBars : Nat
  filterButtons : Nat
  projectLinks : Nat
  animateElements : Nat
  /-- The element `contactForm`: the number of its inputs and textareas;
  `none` when the document has none. -/
  contactForm : Option Nat
  closeModal : Bool
  /-- What is registered, oldest first. -/
  listeners : List Listener
  /-- The initializers that have returned, oldest first. -/
  initialized : List Feature

/-- What an initializer or a handler leaves behind. -/
structure AppOutcome where
  app : App
  thrown : Option String

/-- The function `initializeNavigation`. -/
def initializeNavigation (a : App) : AppOutcome :=
  let onToggle := if a.page.navToggle.isSome then [Listener.navToggleClick] else []
  let onLinks := List.replicate a.navLinks Listener.navLinkClick
  { app := { a with listeners := a.listeners ++ onToggle ++ onLinks ++
                      [.scrollActiveNavigation, .scrollNavbar] },
    thrown := none }

/-- The function `initializeTheme` on the document. -/
def App.initializeTheme (a : App) : AppOutcome :=
  let o := Portfolio.initializeTheme a.theme
  match o.thrown with
  | some e => { app := { a with theme := o.page }, thrown := some e }
  | none =>
    { app := { a with theme := o.page,
                      listeners := a.listeners ++
                        (if o.page.toggleListens then [Listener.themeToggleClick] else []) },
      thrown := none }

/-- The function `initializeScrollEffects`. -/
def initializeScrollEffects (a : App) : AppOutcome :=
  let onTop := if a.backToTop then [Listener.backToTopClick] else []
  { app := { a with listeners := a.listeners ++ onTop ++ [.scrollEffects] }, thrown := none }

/-- The function `initializeTypingAnimation`. -/
def initializeTypingAnimation (a : App) : AppOutcome :=
  if !a.typingElement then { app := a, thrown := none }
  else { app := { a with listeners := a.listeners ++ [.typingTimer] }, thrown := none }

/-- The function `initializeCounters`. -/
def initializeCounters (a : App) : AppOutcome :=
  { app := { a with listeners := a.listeners ++ [.counterObserver] }, thrown := none }

/-- The function `initializeSkillBars`. -/
def initializeSkillBars (a : App) : AppOutcome :=
  { app := { a with listeners := a.listeners ++ [.skillObserver] }, thrown := none }

/-- The function `initializeProjectFilters`. -/
def initializeProjectFilters (a : App) : AppOutcome :=
  { app := { a with listeners := a.listeners ++
                      List.replicate a.filterButtons Listener.filterClick },
    thrown := none }

/-- The function `initializeContactForm`. -/
def initializeContactForm (a : App) : AppOutcome :=
  match a.contactForm with
  | none => { app := a, thrown := none }
  | some inputs =>
    { app := { a with listeners := a.listeners ++ [.formSubmit] ++
                        List.replicate inputs Listener.fieldEvents },
      thrown := none }

/-- The function `initializeScrollAnimations`. -/
def initializeScrollAnimations (a : App) : AppOutcome :=
  { app := { a with listeners := a.listeners ++ [.revealObserver] }, thrown := none }

/-- The function `initializeModal`. -/
def initializeModal (a : App) : AppOutcome :=
  let onLinks := List.replicate a.projectLinks Listener.projectLinkClick
  let onClose := if a.closeModal then [Listener.closeModalClick] else []
  let onModal := if a.page.modal.isSome then [Listener.modalClick] else []
  { app := { a with listeners := a.listeners ++ onLinks ++ onClose ++ onModal ++
                      [.documentKeydown] },
    thrown := none }

/-- The initializer of a feature. -/
def Feature.initializer : Feature → App → AppOutcome
  | .navigation => initializeNavigation
  | .theme => App.initializeTheme
  | .scrollEffects => initializeScrollEffects
  | .typing => initializeTypingAnimation
  | .counters => initializeCounters
  | .skillBars => initializeSkillBars
  | .projectFilters => initializeProjectFilters
  | .contactForm => initializeContactForm
  | .scrollAnimations => initializeScrollAnimations
  | .modal => initializeModal

/-- The calls of the body of `initializeApp`, one after the other: an error
thrown by one of them ends `initializeApp`. -/
def runInitializers : List Feature → App → AppOutcome
  | [], a => { app := a, thrown := none }
  | f :: rest, a =>
    let o := f.initializer a
    match o.thrown with
    | some e => { app := o.app, thrown := some e }
    | none => runInitializers rest { o.app with initialized := o.app.initialized ++ [f] }

/-- The function `initializeApp`; its last call, `handleScrollAnimations`,
moves the floating icons and registers nothing. -/
def initializeApp (a : App) : AppOutcome :=
  runInitializers
    [.navigation, .theme, .scrollEffects, .typing, .counters, .skillBars, .projectFilters,
     .contactForm, .scrollAnimations, .modal] a

/-- The function `handleNavbarScroll`, with `scrollTop` the scroll offset. -/
def handleNavbarScroll (scrollTop : Int) (a : App) : AppOutcome :=
  match a.navbar with
  | none => { app := a, thrown := some "TypeError: navbar is null" }
  | some _ => { app := { a with navbar := some (decide (scrollTop > 100)) }, thrown := none }

/-- The key-down listener of `initializeModal`, with `key` the property
`e.key`. -/
def documentKeydown (key : String) (a : App) : AppOutcome :=
  if key = "Escape" then
    match a.page.modal with
    | none => { app := a, thrown := some "TypeError: modal is null" }
    | some active =>
      if active then { app := { a with page := (closeModalHandler a.page).page }, thrown := none }
      else { app := a, thrown := none }
  else { app := a, thrown := none }

/-- A document with every element the script looks up, before
`initializeApp`. -/
def App.sample : App where
  navbar := some false
  page := Page.initial
  navLinks := 6
  theme := ThemePage.sample.reload (some { icon := some "fas fa-moon" })
  backToTop := true
  typingElement := true
  counters := 4
  skillBars := 12
  filterButtons := 3
  projectLinks := 4
  animateElements := 20
  contactForm := some 4
  closeModal := true
  listeners := []
  initialized := []

/-! ## The language of a regular expression -/

/-- The strings that a regular expression matches as a whole. -/
inductive Regex.Matches : Regex → JsString → Prop where
  | eps : Regex.Matches .eps []
  | cls (negated : Bool) (items : List ClassItem) (c : Nat)
      (h : ((items.any fun i => i.covers c) != negated) = true) :
      Regex.Matches (.cls negated items) [c]
  | seq (r s : Regex) (u v : JsString) (hu : Regex.Matches r u) (hv : Regex.Matches s v) :
      Regex.Matches (.seq r s) (u ++ v)
  | altLeft (r s : Regex) (u : JsString) (hu : Regex.Matches r u) :
      Regex.Matches (.alt r s) u
  | altRight (r s : Regex) (u : JsString) (hu : Regex.Matches s u) :
      Regex.Matches (.alt r s) u
  | starNil (r : Regex) : Regex.Matches (.star r) []
  | starCons (r : Regex) (u v : JsString) (hu : Regex.Matches r u)
      (hv : Regex.Matches (.star r) v) : Regex.Matches (.star r) (u ++ v)

/-- The part of a string before its first `@`. -/
def beforeAt (s : JsString) : JsString := s.takeWhile (· != 64)

/-- The part of a string after its first `@`. -/
def afterAt (s : JsString) : JsString := (s.dropWhile (· != 64)).drop 1

/-- The shape of an accepted address in words: no white space, exactly one
`@`, at least one character before it, and after it a `.` that is neither the
first nor the last character of that part. -/
def emailShape (s : JsString) : Prop :=
  (∀ c ∈ s, isJsSpace c = false) ∧ s.count 64 = 1 ∧ beforeAt s ≠ [] ∧
  ∃ i : Nat, 0 < i ∧ i + 1 < (afterAt s).length ∧ (afterAt s)[i]? = some 46

/-! ## Theorems: the page scroll lock -/

/-- C1: with the mobile menu opened by `toggleMobileMenu`, then `openModal` on
a declared project record, then `closeModalHandler`, the script leaves
`document.body.style.overflow` empty although the mobile menu is still open:
page scroll is unlocked while the menu is open. -/
theorem closeModalHandler_unlocks_scroll_under_open_menu :
    (runLockEvents [.toggleMobileMenu, .openModal (.project projectData.ecommerce),
        .closeModalHandler] Page.initial).menuOpen = true ∧
    (runLockEvents [.toggleMobileMenu, .openModal (.project projectData.ecommerce),
        .closeModalHandler] Page.initial).modalOpen = false ∧
    (runLockEvents [.toggleMobileMenu, .openModal (.project projectData.ecommerce),
        .closeModalHandler] Page.initial).bodyOverflow = "" ∧
    (runLockEvents [.toggleMobileMenu, .openModal (.project projectData.ecommerce),
        .closeModalHandler] Page.initial).scrollLocked = false := by
  decide

/-- The menu handlers release the lock of an open modal in the same way:
closing the menu while the modal is open unlocks page scroll. -/
theorem closeMobileMenu_unlocks_scroll_under_open_modal :
    (runLockEvents [.openModal (.project projectData.ecommerce), .closeMobileMenu]
        Page.initial).modalOpen = true ∧
    (runLockEvents [.openModal (.project projectData.ecommerce), .closeMobileMenu]
        Page.initial).scrollLocked = false := by
  decide

/-- Before the modal is closed the lock is held: the sequence of C1 without
its last event leaves page scroll locked. -/
theorem scroll_locked_before_closeModalHandler :
    (runLockEvents [.toggleMobileMenu, .openModal (.project projectData.ecommerce)]
        Page.initial).scrollLocked = true := by
  decide

/-! ## Theorems: the project modal -/

/-- A key that is neither declared nor inherited reads as undefined, and the
click is a silent no-op on every page. -/
theorem projectLinkClick_unknown_noop (projectId : String) (p : Page)
    (h1 : projectId ∉ declaredProjectKeys) (h2 : projectId ∉ objectPrototypeKeys) :
    projectLinkClick projectId p = { page := p, thrown := none } := by
  simp only [declaredProjectKeys, List.mem_cons, List.mem_singleton, not_or,
    List.not_mem_nil, or_false] at h1
  obtain ⟨a, b, c, d⟩ := h1
  simp [projectLinkClick, projectDataGet, a, b, c, d, h2, openModal]

/-- C10: the key `constructor` is not a declared project key, yet the click
handler reads the inherited `Object.prototype.constructor`, passes the guard
of `openModal` and throws a TypeError; the page itself is left as it was. -/
theorem projectLinkClick_constructor_throws :
    "constructor" ∉ declaredProjectKeys ∧
    projectLinkClick "constructor" Page.initial =
      { page := Page.initial,
        thrown := some "TypeError: projectData.features is undefined" } := by
  decide

/-! ## Theorems: the contact form -/

theorem validateForm_fst (data : FormDraft) (form : ContactForm) :
    (validateForm data form).1 =
      !(tooShort data.name 2 || badEmail data.email || tooShort data.subject 3
        || tooShort data.message 10) := by
  unfold validateForm
  cases tooShort data.name 2 <;> cases badEmail data.email <;>
    cases tooShort data.subject 3 <;> cases tooShort data.message 10 <;> rfl

theorem validateForm_snd (data : FormDraft) (form : ContactForm) :
    (validateForm data form).2 =
      reportIf (tooShort data.message 10) .message
        (reportIf (tooShort data.subject 3) .subject
          (reportIf (badEmail data.email) .email
            (reportIf (tooShort data.name 2) .name form))) := by
  unfold validateForm reportIf
  cases tooShort data.name 2 <;> cases badEmail data.email <;>
    cases tooShort data.subject 3 <;> cases tooShort data.message 10 <;> rfl

theorem tooShort_eq_false_iff (value : Option JsString) (n : Nat) (hn : 0 < n) :
    tooShort value n = false ↔ ∃ v, value = some v ∧ n ≤ (trim v).length := by
  cases value with
  | none => simp [tooShort]
  | some v =>
    cases v with
    | nil => simp [tooShort, trim]; omega
    | cons a l => simp [tooShort]

theorem emailRegex_test_nil : emailRegex.test [] = false := by decide

theorem badEmail_eq_false_iff (value : Option JsString) :
    badEmail value = false ↔ ∃ v, value = some v ∧ emailRegex.test v = true := by
  cases value with
  | none => simp [badEmail]
  | some v =>
    cases v with
    | nil => simp [badEmail, emailRegex_test_nil]
    | cons a l => simp [badEmail]

theorem name_satisfied_iff (d : FormDraft) :
    FieldId.name.satisfiedBy d ↔ tooShort d.name 2 = false :=
  (tooShort_eq_false_iff _ _ (by decide)).symm

theorem email_satisfied_iff (d : FormDraft) :
    FieldId.email.satisfiedBy d ↔ badEmail d.email = false :=
  (badEmail_eq_false_iff _).symm

theorem subject_satisfied_iff (d : FormDraft) :
    FieldId.subject.satisfiedBy d ↔ tooShort d.subject 3 = false :=
  (tooShort_eq_false_iff _ _ (by decide)).symm

theorem message_satisfied_iff (d : FormDraft) :
    FieldId.message.satisfiedBy d ↔ tooShort d.message 10 = false :=
  (tooShort_eq_false_iff _ _ (by decide)).symm

theorem satisfiedBy_iff (f : FieldId) (d : FormDraft) :
    f.satisfiedBy d ↔ f.rejects d = false := by
  cases f
  · exact name_satisfied_iff d
  · exact email_satisfied_iff d
  · exact subject_satisfied_iff d
  · exact message_satisfied_iff d

/-- C2: `validateForm` returns true exactly for the drafts whose four fields
all satisfy their rule: trimmed name of length at least 2, email matching the
pattern, trimmed subject of length at least 3, trimmed message of length at
least 10, a missing or empty field being a violation. -/
theorem validateForm_true_iff (data : FormDraft) (form : ContactForm) :
    (validateForm data form).1 = true ↔
      (∃ v, data.name = some v ∧ 2 ≤ (trim v).length) ∧
      (∃ v, data.email = some v ∧ emailRegex.test v = true) ∧
      (∃ v, data.subject = some v ∧ 3 ≤ (trim v).length) ∧
      (∃ v, data.message = some v ∧ 10 ≤ (trim v).length) := by
  rw [validateForm_fst, ← tooShort_eq_false_iff _ _ (by decide), ← badEmail_eq_false_iff,
    ← tooShort_eq_false_iff _ _ (by decide), ← tooShort_eq_false_iff _ _ (by decide)]
  cases tooShort data.name 2 <;> cases badEmail data.email <;>
    cases tooShort data.subject 3 <;> cases tooShort data.message 10 <;> simp

theorem attr_injective (f g : FieldId) (h : f.attr = g.attr) : f = g := by
  cases f <;> cases g <;> first | rfl | (exact absurd h (by decide))

theorem showValidationError_submitButton (n m : String) (form : ContactForm) :
    (showValidationError n m form).submitButton = form.submitButton := by
  unfold showValidationError clearValidationError
  cases form.field n <;> rfl

theorem showValidationError_timers (n m : String) (form : ContactForm) :
    (showValidationError n m form).timers = form.timers := by
  unfold showValidationError clearValidationError
  cases form.field n <;> rfl

theorem showValidationError_parent (n m k : String) (form : ContactForm) :
    ((showValidationError n m form).field k).map (·.parent) =
      (form.field k).map (·.parent) := by
  unfold showValidationError clearValidationError
  cases h : form.field n with
  | none => simp [h]
  | some fld =>
    by_cases hk : k = n
    · subst hk; simp [h]
    · simp [h, hk]

theorem showValidationError_wellFormed (n m : String) (form : ContactForm)
    (hw : form.wellFormed) : (showValidationError n m form).wellFormed := by
  refine ⟨fun f => ?_, fun f g hfg => ?_⟩
  · have h := showValidationError_parent n m f.attr form
    have h2 := hw.1 f
    cases hx : (showValidationError n m form).field f.attr with
    | none => rw [hx] at h; cases hy : form.field f.attr <;> simp_all
    | some _ => rfl
  · rw [showValidationError_parent, showValidationError_parent]
    exact hw.2 f g hfg

theorem showValidationError_errorsOf (f g : FieldId) (m : String) (form : ContactForm)
    (hw : form.wellFormed) :
    (showValidationError f.attr m form).errorsOf g =
      if g = f then (form.errorsOf f).tail ++ [m] else form.errorsOf g := by
  have hf := hw.1 f
  have hg := hw.1 g
  obtain ⟨a, ha⟩ := Option.isSome_iff_exists.mp hf
  obtain ⟨b, hb⟩ := Option.isSome_iff_exists.mp hg
  by_cases hgf : g = f
  · subst hgf
    simp [ContactForm.errorsOf, showValidationError, clearValidationError, ha]
  · have hne := hw.2 g f hgf
    have hattr : g.attr ≠ f.attr := fun h => hgf (attr_injective _ _ h)
    rw [ha, hb] at hne
    have hpar : b.parent ≠ a.parent := by simpa using hne
    simp [ContactForm.errorsOf, showValidationError, clearValidationError, ha, hb, hattr,
      hgf, hpar]

theorem reportIf_wellFormed (bad : Bool) (f : FieldId) (form : ContactForm)
    (hw : form.wellFormed) : (reportIf bad f form).wellFormed := by
  unfold reportIf
  cases bad
  · exact hw
  · exact showValidationError_wellFormed _ _ _ hw

theorem reportIf_errorsOf (bad : Bool) (f g : FieldId) (form : ContactForm)
    (hw : form.wellFormed) :
    (reportIf bad f form).errorsOf g =
      if bad = true ∧ g = f then (form.errorsOf f).tail ++ [f.errorText]
      else form.errorsOf g := by
  unfold reportIf
  cases bad
  · simp
  · simp [showValidationError_errorsOf _ _ _ _ hw]

theorem reportIf_submitButton (bad : Bool) (f : FieldId) (form : ContactForm) :
    (reportIf bad f form).submitButton = form.submitButton := by
  unfold reportIf
  cases bad
  · rfl
  · exact showValidationError_submitButton _ _ _

theorem reportIf_timers (bad : Bool) (f : FieldId) (form : ContactForm) :
    (reportIf bad f form).timers = form.timers := by
  unfold reportIf
  cases bad
  · rfl
  · exact showValidationError_timers _ _ _

/-- The error messages that `validateForm` leaves below each field of a
well-formed form. -/
theorem validateForm_errorsOf (data : FormDraft) (form : ContactForm)
    (hw : form.wellFormed) (g : FieldId) :
    (validateForm data form).2.errorsOf g =
      if g.rejects data = true then (form.errorsOf g).tail ++ [g.errorText]
      else form.errorsOf g := by
  rw [validateForm_snd]
  have w1 := reportIf_wellFormed (tooShort data.name 2) .name form hw
  have w2 := reportIf_wellFormed (badEmail data.email) .email _ w1
  have w3 := reportIf_wellFormed (tooShort data.subject 3) .subject _ w2
  simp only [reportIf_errorsOf _ _ _ _ w3, reportIf_errorsOf _ _ _ _ w2,
    reportIf_errorsOf _ _ _ _ w1, reportIf_errorsOf _ _ _ _ hw]
  cases g <;> simp [FieldId.rejects]

theorem validateForm_submitButton (data : FormDraft) (form : ContactForm) :
    (validateForm data form).2.submitButton = form.submitButton := by
  rw [validateForm_snd]
  simp only [reportIf_submitButton]

theorem validateForm_timers (data : FormDraft) (form : ContactForm) :
    (validateForm data form).2.timers = form.timers := by
  rw [validateForm_snd]
  simp only [reportIf_timers]

theorem handleFormSubmission_errorsOf (data : FormDraft) (form : ContactForm)
    (g : FieldId) :
    (handleFormSubmission data form).form.errorsOf g =
      (validateForm data form).2.errorsOf g := by
  unfold handleFormSubmission
  rcases hv : validateForm data form with ⟨ok, form2⟩
  cases ok
  · rfl
  · cases hb : form2.submitButton <;> simp [hb, ContactForm.errorsOf]

/-- C3 (amended): on a form with its four fields, each below a parent of its
own, where every error message shown before the submission sits alone below a
field that breaks its rule, `handleFormSubmission` leaves exactly one error
message (the one of that field) below every field that breaks its rule and
none below the others; and when some field breaks its rule it returns without
an error, with the submit button untouched and no timer added. -/
theorem handleFormSubmission_reports_each_violation (data : FormDraft) (form : ContactForm)
    (hw : form.wellFormed)
    (hpre : ∀ f : FieldId, form.errorsOf f = [] ∨
      (¬ f.satisfiedBy data ∧ (form.errorsOf f).length = 1)) :
    (∀ f : FieldId,
      (f.satisfiedBy data → (handleFormSubmission data form).form.errorsOf f = []) ∧
      (¬ f.satisfiedBy data →
        (handleFormSubmission data form).form.errorsOf f = [f.errorText])) ∧
    ((∃ f : FieldId, ¬ f.satisfiedBy data) →
      (handleFormSubmission data form).thrown = none ∧
      (handleFormSubmission data form).form.submitButton = form.submitButton ∧
      (handleFormSubmission data form).form.timers = form.timers) := by
  refine ⟨fun f => ⟨fun hs => ?_, fun hs => ?_⟩, fun ⟨f, hf⟩ => ?_⟩
  · rw [handleFormSubmission_errorsOf, validateForm_errorsOf _ _ hw,
      (satisfiedBy_iff f data).mp hs]
    rcases hpre f with h | ⟨h, _⟩
    · simpa using h
    · exact absurd hs h
  · have hr : f.rejects data = true := by
      cases h : f.rejects data
      · exact absurd ((satisfiedBy_iff f data).mpr h) hs
      · rfl
    rw [handleFormSubmission_errorsOf, validateForm_errorsOf _ _ hw, hr]
    rcases hpre f with h | ⟨_, h⟩
    · simp [h]
    · have : (form.errorsOf f).tail = [] := by
        apply List.eq_nil_of_length_eq_zero
        simp [h]
      simp [this]
  · have hr : f.rejects data = true := by
      cases h : f.rejects data
      · exact absurd ((satisfiedBy_iff f data).mpr h) hf
      · rfl
    have hfst : (validateForm data form).1 = false := by
      rw [validateForm_fst]
      cases f <;> simp [FieldId.rejects] at hr <;> simp [hr]
    have hb := validateForm_submitButton data form
    have ht := validateForm_timers data form
    unfold handleFormSubmission
    rcases hv : validateForm data form with ⟨ok, form2⟩
    rw [hv] at hfst hb ht
    simp only at hfst hb ht
    subst hfst
    exact ⟨rfl, hb, ht⟩

theorem sample_wellFormed : ContactForm.sample.wellFormed := by
  refine ⟨fun f => ?_, fun f g hfg => ?_⟩
  · cases f <;> decide
  · cases f <;> cases g <;> first | exact absurd rfl hfg | decide

theorem sample_errorsOf (f : FieldId) : ContactForm.sample.errorsOf f = [] := by
  cases f <;> decide

theorem allBad_breaks (f : FieldId) : ¬ f.satisfiedBy FormDraft.allBad := by
  rw [satisfiedBy_iff]
  cases f <;> decide

theorem allGood_satisfies (f : FieldId) : f.satisfiedBy FormDraft.allGood := by
  rw [satisfiedBy_iff]
  cases f <;> decide

/-- The two submissions of the specification: the draft A / bad / Hi / short
gets four field errors and neither a disabled button nor a timer; the draft of
Jane Doe gets no field error. -/
theorem handleFormSubmission_reports_each_violation_witness :
    ContactForm.sample.wellFormed ∧
    (∀ f : FieldId,
      (handleFormSubmission FormDraft.allBad ContactForm.sample).form.errorsOf f =
        [f.errorText]) ∧
    (handleFormSubmission FormDraft.allBad ContactForm.sample).thrown = none ∧
    (handleFormSubmission FormDraft.allBad ContactForm.sample).form.submitButton =
      some { innerHTML := "Send Message", disabled := false } ∧
    (handleFormSubmission FormDraft.allBad ContactForm.sample).form.timers = [] ∧
    (∀ f : FieldId,
      (handleFormSubmission FormDraft.allGood ContactForm.sample).form.errorsOf f = []) :=
  have hbad := handleFormSubmission_reports_each_violation FormDraft.allBad
    ContactForm.sample sample_wellFormed (fun f => Or.inl (sample_errorsOf f))
  have hgood := handleFormSubmission_reports_each_violation FormDraft.allGood
    ContactForm.sample sample_wellFormed (fun f => Or.inl (sample_errorsOf f))
  have habort := hbad.2 ⟨FieldId.name, allBad_breaks FieldId.name⟩
  ⟨sample_wellFormed, fun f => (hbad.1 f).2 (allBad_breaks f), habort.1, habort.2.1,
    habort.2.2, fun f => (hgood.1 f).1 (allGood_satisfies f)⟩

/-! ## Theorems: the typing animation -/

theorem typeText_typing (texts : List JsString) (s : TypingState) (t : JsString)
    (ht : texts[s.textIndex]? = some t) (hd : s.isDeleting = false)
    (hc : s.charIndex + 1 ≠ (t.length : Int)) :
    ∃ s2, typeText texts s = some s2 ∧ s2.textIndex = s.textIndex ∧
      s2.charIndex = s.charIndex + 1 ∧ s2.isDeleting = false := by
  simp [typeText, ht, hd, hc]

theorem typeText_typing_last (texts : List JsString) (s : TypingState) (t : JsString)
    (ht : texts[s.textIndex]? = some t) (hd : s.isDeleting = false)
    (hc : s.charIndex + 1 = (t.length : Int)) :
    ∃ s2, typeText texts s = some s2 ∧ s2.textIndex = s.textIndex ∧
      s2.charIndex = (t.length : Int) ∧ s2.isDeleting = true ∧ s2.textContent = t := by
  simp [typeText, ht, hd, hc, substring0]

theorem typeText_deleting (texts : List JsString) (s : TypingState) (t : JsString)
    (ht : texts[s.textIndex]? = some t) (hd : s.isDeleting = true)
    (hc : 1 ≤ s.charIndex) :
    ∃ s2, typeText texts s = some s2 ∧ s2.textIndex = s.textIndex ∧
      s2.charIndex = s.charIndex - 1 ∧ s2.isDeleting = true := by
  have h : ¬ (s.charIndex - 1 < 0) := by omega
  simp [typeText, ht, hd, h]

theorem typeText_deleting_last (texts : List JsString) (s : TypingState) (t : JsString)
    (ht : texts[s.textIndex]? = some t) (hd : s.isDeleting = true)
    (hc : s.charIndex ≤ 0) :
    ∃ s2, typeText texts s = some s2 ∧ s2.textIndex = (s.textIndex + 1) % texts.length ∧
      s2.charIndex = s.charIndex - 1 ∧ s2.isDeleting = false := by
  have h : s.charIndex - 1 < 0 := by omega
  simp [typeText, ht, hd, h]

theorem runTyping_succ (texts : List JsString) (shown : JsString) (n : Nat) :
    runTyping texts shown (n + 1) = (runTyping texts shown n).bind (typeText texts) := rfl

/-- While the phrase is not complete the engine stays in the typing phase, one
character further with each call. -/
theorem typing_phase (texts : List JsString) (shown : JsString) (i : Nat) (t : JsString)
    (ht : texts[i]? = some t) (n : Nat) (c : Int) (m : Nat) (s : TypingState)
    (hs : runTyping texts shown n = some s) (hi : s.textIndex = i)
    (hc : s.charIndex = c) (hd : s.isDeleting = false)
    (hm : c + m < (t.length : Int)) :
    ∃ s2, runTyping texts shown (n + m) = some s2 ∧ s2.textIndex = i ∧
      s2.charIndex = c + m ∧ s2.isDeleting = false := by
  induction m with
  | zero => exact ⟨s, hs, hi, by simpa using hc, hd⟩
  | succ m ih =>
    obtain ⟨s1, h1, hi1, hc1, hd1⟩ := ih (by push_cast at hm ⊢; omega)
    obtain ⟨s2, h2, hi2, hc2, hd2⟩ := typeText_typing texts s1 t (by rw [hi1]; exact ht) hd1
      (by rw [hc1]; push_cast at hm ⊢; omega)
    refine ⟨s2, ?_, by rw [hi2, hi1], ?_, hd2⟩
    · rw [← Nat.add_assoc, runTyping_succ, h1]; exact h2
    · rw [hc2, hc1]; push_cast; ring

/-- From a typing state at most one character before the start of the phrase,
the engine completes the phrase after `m` calls, `m` the number of characters
still to come: it is typing up to the call before, and with that call it shows
the whole phrase and switches to deleting. -/
theorem typing_done (texts : List JsString) (shown : JsString) (i : Nat) (t : JsString)
    (ht : texts[i]? = some t) (n : Nat) (c : Int) (m : Nat) (s : TypingState)
    (hs : runTyping texts shown n = some s) (hi : s.textIndex = i)
    (hc : s.charIndex = c) (hd : s.isDeleting = false)
    (hm : c + m + 1 = (t.length : Int)) :
    (∃ s1, runTyping texts shown (n + m) = some s1 ∧ s1.isDeleting = false) ∧
    ∃ s2, runTyping texts shown (n + m + 1) = some s2 ∧ s2.textIndex = i ∧
      s2.charIndex = (t.length : Int) ∧ s2.isDeleting = true ∧ s2.textContent = t := by
  obtain ⟨s1, h1, hi1, hc1, hd1⟩ :=
    typing_phase texts shown i t ht n c m s hs hi hc hd (by omega)
  obtain ⟨s2, h2, hi2, hc2, hd2, htx⟩ := typeText_typing_last texts s1 t
    (by rw [hi1]; exact ht) hd1 (by rw [hc1]; omega)
  refine ⟨⟨s1, h1, hd1⟩, s2, ?_, by rw [hi2, hi1], hc2, hd2, htx⟩
  rw [runTyping_succ, h1]; exact h2

/-- In the deleting phase the engine steps back one character with each call
as long as characters remain. -/
theorem deleting_phase (texts : List JsString) (shown : JsString) (i : Nat) (t : JsString)
    (ht : texts[i]? = some t) (n : Nat) (c : Int) (m : Nat) (s : TypingState)
    (hs : runTyping texts shown n = some s) (hi : s.textIndex = i)
    (hc : s.charIndex = c) (hd : s.isDeleting = true) (hm : (m : Int) ≤ c) :
    ∃ s2, runTyping texts shown (n + m) = some s2 ∧ s2.textIndex = i ∧
      s2.charIndex = c - m ∧ s2.isDeleting = true := by
  induction m with
  | zero => exact ⟨s, hs, hi, by simpa using hc, hd⟩
  | succ m ih =>
    obtain ⟨s1, h1, hi1, hc1, hd1⟩ := ih (by push_cast at hm ⊢; omega)
    obtain ⟨s2, h2, hi2, hc2, hd2⟩ := typeText_deleting texts s1 t (by rw [hi1]; exact ht) hd1
      (by rw [hc1]; push_cast at hm ⊢; omega)
    refine ⟨s2, ?_, by rw [hi2, hi1], ?_, hd2⟩
    · rw [← Nat.add_assoc, runTyping_succ, h1]; exact h2
    · rw [hc2, hc1]; push_cast; ring

/-- A deleting phase entered with the whole phrase shown ends after one call
more than the phrase has characters, in a typing state of the next phrase, one
character before its start. -/
theorem deleting_done (texts : List JsString) (shown : JsString) (i : Nat) (t : JsString)
    (ht : texts[i]? = some t) (n : Nat) (s : TypingState)
    (hs : runTyping texts shown n = some s) (hi : s.textIndex = i)
    (hc : s.charIndex = (t.length : Int)) (hd : s.isDeleting = true) :
    ∃ s2, runTyping texts shown (n + t.length + 1) = some s2 ∧
      s2.textIndex = (i + 1) % texts.length ∧ s2.charIndex = -1 ∧ s2.isDeleting = false := by
  obtain ⟨s1, h1, hi1, hc1, hd1⟩ :=
    deleting_phase texts shown i t ht n t.length t.length s hs hi hc hd le_rfl
  obtain ⟨s2, h2, hi2, hc2, hd2⟩ := typeText_deleting_last texts s1 t
    (by rw [hi1]; exact ht) hd1 (by rw [hc1]; omega)
  refine ⟨s2, ?_, by rw [hi2, hi1], by rw [hc2, hc1]; omega, hd2⟩
  rw [runTyping_succ, h1]; exact h2

theorem phrase_at (texts : List JsString) (hne : texts ≠ []) (k : Nat) :
    ∃ t, texts[k % texts.length]? = some t ∧ phraseLength texts k = t.length := by
  have hpos : 0 < texts.length := List.length_pos.mpr hne
  have hlt : k % texts.length < texts.length := Nat.mod_lt _ hpos
  refine ⟨texts[k % texts.length], List.getElem?_eq_getElem hlt, ?_⟩
  simp [phraseLength, List.getD, List.getElem?_eq_getElem hlt]

theorem switchCall_lt_succ (texts : List JsString) (k : Nat) :
    switchCall texts k < switchCall texts (k + 1) := by
  simp only [switchCall]; omega

/-- With a non-empty first phrase the call `switchCall texts k` ends the typing
of the phrase visited `k`-th: the call before leaves the engine typing, this
one leaves it deleting with the whole phrase shown. -/
theorem switch_reached (texts : List JsString) (shown : JsString) (t0 : JsString)
    (h0 : texts[0]? = some t0) (hne0 : t0 ≠ []) (k : Nat) :
    ∃ t, texts[k % texts.length]? = some t ∧ 1 ≤ switchCall texts k ∧
      (∃ s1, runTyping texts shown (switchCall texts k - 1) = some s1 ∧
        s1.isDeleting = false) ∧
      ∃ s2, runTyping texts shown (switchCall texts k) = some s2 ∧
        s2.textIndex = k % texts.length ∧ s2.charIndex = (t.length : Int) ∧
        s2.isDeleting = true ∧ s2.textContent = t := by
  have hne : texts ≠ [] := by
    intro h; subst h; simp at h0
  induction k with
  | zero =>
    obtain ⟨t, ht, hlen⟩ := phrase_at texts hne 0
    have htt : t = t0 := by
      rw [Nat.zero_mod] at ht; rw [ht] at h0; exact Option.some.inj h0
    have hpos : 1 ≤ t.length := by
      rw [htt]; exact List.length_pos.mpr hne0
    have hsw : switchCall texts 0 = t.length := by simp [switchCall, hlen]
    obtain ⟨⟨s1, h1, hd1⟩, s2, h2, hi2, hc2, hd2, htx⟩ :=
      typing_done texts shown 0 t (by simpa using ht) 0 0 (t.length - 1)
        (TypingState.initial shown) rfl rfl rfl rfl (by omega)
    refine ⟨t, ht, by omega, ⟨s1, ?_, hd1⟩, s2, ?_, by simpa using hi2, hc2, hd2, htx⟩
    · rw [hsw]; simpa using h1
    · rw [hsw]
      have : 0 + (t.length - 1) + 1 = t.length := by omega
      rw [this] at h2; exact h2
  | succ k ih =>
    obtain ⟨t, ht, _, _, s2, h2, hi2, hc2, hd2, _⟩ := ih
    obtain ⟨tk, htk, hlenk⟩ := phrase_at texts hne k
    have htt : tk = t := by rw [htk] at ht; exact Option.some.inj ht
    subst htt
    obtain ⟨u, hu, hlenu⟩ := phrase_at texts hne (k + 1)
    obtain ⟨s3, h3, hi3, hc3, hd3⟩ :=
      deleting_done texts shown (k % texts.length) tk htk (switchCall texts k) s2 h2 hi2 hc2 hd2
    have hi3b : s3.textIndex = (k + 1) % texts.length := by
      rw [hi3, Nat.mod_add_mod]
    obtain ⟨⟨s4, h4, hd4⟩, s5, h5, hi5, hc5, hd5, htx5⟩ :=
      typing_done texts shown ((k + 1) % texts.length) u hu
        (switchCall texts k + tk.length + 1) (-1) u.length s3 h3 hi3b hc3 hd3 (by omega)
    have hsw : switchCall texts (k + 1) = switchCall texts k + tk.length + 1 + u.length + 1 := by
      simp only [switchCall, hlenk, hlenu]; omega
    refine ⟨u, hu, by omega, ⟨s4, ?_, hd4⟩, s5, ?_, hi5, hc5, hd5, htx5⟩
    · rw [hsw]; exact h4
    · rw [hsw]; exact h5

/-- Whenever a call of `typeText` switches from typing to deleting, the text
it leaves is the whole current phrase. -/
theorem typeText_switch_shows_phrase (texts : List JsString) (s s2 : TypingState)
    (h : typeText texts s = some s2) (hd : s.isDeleting = false)
    (hd2 : s2.isDeleting = true) :
    ∃ t, texts[s.textIndex]? = some t ∧ s2.textIndex = s.textIndex ∧ s2.textContent = t ∧
      s2.charIndex = (t.length : Int) := by
  cases ht : texts[s.textIndex]? with
  | none => simp [typeText, ht] at h
  | some t =>
    by_cases hc : s.charIndex + 1 = (t.length : Int)
    · obtain ⟨s3, h3, hi3, hc3, _, htx3⟩ := typeText_typing_last texts s t ht hd hc
      rw [h] at h3; cases h3
      exact ⟨t, rfl, hi3, htx3, hc3⟩
    · obtain ⟨s3, h3, _, _, hd3⟩ := typeText_typing texts s t ht hd hc
      rw [h] at h3; cases h3
      rw [hd3] at hd2; cases hd2

/-- C4 (amended): for every list of phrases whose first phrase exists and is
not empty, the engine run from its initial state reaches the deletion phase of
every phrase in turn: the call number `switchCall texts k`, increasing in `k`,
is the one that switches to deleting the phrase visited `k`-th (index
`k mod N`), and at every switch from typing to deleting the text shown is the
whole phrase and the character count its length. -/
theorem typeText_reaches_every_deletion (texts : List JsString) (shown : JsString)
    (h0 : ∃ t0, texts[0]? = some t0 ∧ t0 ≠ []) :
    (∀ k : Nat, switchCall texts k < switchCall texts (k + 1)) ∧
    (∀ k : Nat, ∃ t s1 s2, texts[k % texts.length]? = some t ∧
      runTyping texts shown (switchCall texts k - 1) = some s1 ∧ s1.isDeleting = false ∧
      runTyping texts shown (switchCall texts k) = some s2 ∧ s2.isDeleting = true ∧
      s2.textIndex = k % texts.length ∧ s2.textContent = t ∧
      s2.charIndex = (t.length : Int)) ∧
    (∀ (n : Nat) (s1 s2 : TypingState), runTyping texts shown n = some s1 →
      runTyping texts shown (n + 1) = some s2 → s1.isDeleting = false →
      s2.isDeleting = true →
      ∃ t, texts[s2.textIndex]? = some t ∧ s2.textContent = t ∧
        s2.charIndex = (t.length : Int)) := by
  obtain ⟨t0, h0, hne0⟩ := h0
  refine ⟨switchCall_lt_succ texts, fun k => ?_, fun n s1 s2 h1 h2 hd1 hd2 => ?_⟩
  · obtain ⟨t, ht, _, ⟨s1, h1, hd1⟩, s2, h2, hi2, hc2, hd2, htx⟩ :=
      switch_reached texts shown t0 h0 hne0 k
    exact ⟨t, s1, s2, ht, h1, hd1, h2, hd2, hi2, htx, hc2⟩
  · rw [runTyping_succ, h1] at h2
    obtain ⟨t, ht, hi, htx, hc⟩ := typeText_switch_shows_phrase texts s1 s2 h2 hd1 hd2
    exact ⟨t, by rw [hi]; exact ht, htx, hc⟩

/-- The amended C4 on the phrase list of the script. -/
theorem typeText_reaches_every_deletion_witness :
    (∃ t0, texts[0]? = some t0 ∧ t0 ≠ []) ∧
    (∀ k : Nat, ∃ t s1 s2, texts[k % texts.length]? = some t ∧
      runTyping texts [] (switchCall texts k - 1) = some s1 ∧ s1.isDeleting = false ∧
      runTyping texts [] (switchCall texts k) = some s2 ∧ s2.isDeleting = true ∧
      s2.textIndex = k % texts.length ∧ s2.textContent = t ∧
      s2.charIndex = (t.length : Int)) :=
  ⟨⟨utf16 "Asharam Saini", by decide, by decide⟩,
    (typeText_reaches_every_deletion texts []
      ⟨utf16 "Asharam Saini", by decide, by decide⟩).2.1⟩

/-- C4, counterexample: on the one-phrase list holding the empty phrase the
engine never reaches a deletion phase; every call leaves it typing. -/
theorem typeText_empty_first_phrase_never_deletes :
    ¬ ∃ (n : Nat) (s : TypingState),
      runTyping [[]] [] n = some s ∧ s.isDeleting = true := by
  have key : ∀ n : Nat, ∃ s, runTyping [[]] [] n = some s ∧ s.isDeleting = false ∧
      s.textIndex = 0 ∧ s.charIndex = (n : Int) := by
    intro n
    induction n with
    | zero => exact ⟨_, rfl, rfl, rfl, rfl⟩
    | succ n ih =>
      obtain ⟨s, hs, hd, hi, hc⟩ := ih
      obtain ⟨s2, h2, hi2, hc2, hd2⟩ := typeText_typing [[]] s [] (by rw [hi]; rfl) hd
        (by rw [hc]; simp; omega)
      refine ⟨s2, ?_, hd2, by rw [hi2, hi], by rw [hc2, hc]; push_cast; ring⟩
      rw [runTyping_succ, hs]; exact h2
  rintro ⟨n, s, hs, hd⟩
  obtain ⟨s2, hs2, hd2, _, _⟩ := key n
  rw [hs] at hs2; cases hs2
  rw [hd] at hd2; cases hd2

/-- One call of `typeText` moves the phrase index exactly when it completes a
deletion phase, and then to the next index, wrapping around. -/
theorem typeText_textIndex (texts : List JsString) (s s2 : TypingState)
    (h : typeText texts s = some s2) :
    s2.textIndex =
      if s.isDeleting = true ∧ s2.isDeleting = false then (s.textIndex + 1) % texts.length
      else s.textIndex := by
  cases ht : texts[s.textIndex]? with
  | none => simp [typeText, ht] at h
  | some t =>
    cases hd : s.isDeleting with
    | false =>
      by_cases hc : s.charIndex + 1 = (t.length : Int)
      · obtain ⟨s3, h3, hi3, _⟩ := typeText_typing_last texts s t ht hd hc
        rw [h] at h3; cases h3; simp [hi3]
      · obtain ⟨s3, h3, hi3, _⟩ := typeText_typing texts s t ht hd hc
        rw [h] at h3; cases h3; simp [hi3]
    | true =>
      by_cases hc : 1 ≤ s.charIndex
      · obtain ⟨s3, h3, hi3, _, hd3⟩ := typeText_deleting texts s t ht hd hc
        rw [h] at h3; cases h3; simp [hi3, hd3]
      · obtain ⟨s3, h3, hi3, _, hd3⟩ := typeText_deleting_last texts s t ht hd (by omega)
        rw [h] at h3; cases h3; simp [hi3, hd3]

/-- A call of `typeText` on a state whose phrase index is in range returns,
with the index still in range. -/
theorem typeText_total (texts : List JsString) (s : TypingState)
    (hi : s.textIndex < texts.length) :
    ∃ s2, typeText texts s = some s2 ∧ s2.textIndex < texts.length := by
  have ht : texts[s.textIndex]? = some texts[s.textIndex] := List.getElem?_eq_getElem hi
  have hmod : (s.textIndex + 1) % texts.length < texts.length :=
    Nat.mod_lt _ (by omega)
  cases hd : s.isDeleting with
  | false =>
    by_cases hc : s.charIndex + 1 = (texts[s.textIndex].length : Int)
    · obtain ⟨s3, h3, hi3, _⟩ := typeText_typing_last texts s _ ht hd hc
      exact ⟨s3, h3, by omega⟩
    · obtain ⟨s3, h3, hi3, _⟩ := typeText_typing texts s _ ht hd hc
      exact ⟨s3, h3, by omega⟩
  | true =>
    by_cases hc : 1 ≤ s.charIndex
    · obtain ⟨s3, h3, hi3, _⟩ := typeText_deleting texts s _ ht hd hc
      exact ⟨s3, h3, by omega⟩
    · obtain ⟨s3, h3, hi3, _⟩ := typeText_deleting_last texts s _ ht hd (by omega)
      exact ⟨s3, h3, by omega⟩

/-- Along the run the phrase index is the number of completed deletion phases
modulo the number of phrases. -/
theorem runTyping_textIndex (texts : List JsString) (shown : JsString) (hne : texts ≠ [])
    (n : Nat) :
    ∃ s, runTyping texts shown n = some s ∧
      s.textIndex = completedDeletions texts shown n % texts.length := by
  have hpos : 0 < texts.length := List.length_pos.mpr hne
  induction n with
  | zero => exact ⟨_, rfl, by simp [TypingState.initial, completedDeletions]⟩
  | succ n ih =>
    obtain ⟨s, hs, hi⟩ := ih
    have hlt : s.textIndex < texts.length := by rw [hi]; exact Nat.mod_lt _ hpos
    obtain ⟨s2, h2, _⟩ := typeText_total texts s hlt
    have hrun : runTyping texts shown (n + 1) = some s2 := by
      rw [runTyping_succ, hs]; exact h2
    refine ⟨s2, hrun, ?_⟩
    have hstep := typeText_textIndex texts s s2 h2
    simp only [completedDeletions, hs, hrun]
    cases hd : s.isDeleting <;> cases hd2 : s2.isDeleting <;>
      simp [hd, hd2] at hstep ⊢ <;> rw [hstep, hi]
    exact Nat.mod_add_mod _ _ _

/-! ## Theorems: the counters -/

theorem animationFrame_idle (counter : CounterNode) (h : counter.frame = none) :
    animationFrame counter = counter := by
  simp [animationFrame, h]

theorem animationFrame_iterate_idle (counter : CounterNode) (h : counter.frame = none)
    (m : Nat) : animationFrame^[m] counter = counter := by
  induction m with
  | zero => rfl
  | succ m ih => rw [Function.iterate_succ_apply', ih, animationFrame_idle _ h]

theorem runCounter_succ (animated : List Nat) (id : Nat) (target : JsWhole)
    (counter : CounterNode) (n : Nat) :
    runCounter animated id target counter (n + 1) =
      animationFrame (runCounter animated id target counter n) := by
  simp [runCounter, Function.iterate_succ_apply']

theorem jsDiv_nan_left (b : JsNumber) : jsDiv none b = none := by
  cases b <;> rfl

theorem jsAdd_nan_right (a : JsNumber) : jsAdd a none = none := by
  rcases a with _ | _ | _ | _ <;> rfl

/-- When `parseInt` gave `NaN`, every call of `updateCounter` writes `NaN` and
requests a further frame. -/
theorem runCounter_nan (animated : List Nat) (id : Nat) (counter : CounterNode)
    (hfresh : id ∉ animated) (m : Nat) :
    (runCounter animated id none counter m).textContent = "NaN" ∧
    (runCounter animated id none counter m).written =
      counter.written ++ List.replicate (m + 1) none ∧
    (runCounter animated id none counter m).frame =
      some { target := none, step := none, current := none } := by
  induction m with
  | zero =>
    simp [runCounter, animateCounter, hfresh, updateCounter, jsDiv_nan_left, jsAdd_nan_right,
      jsGe, mathFloor, numberText]
  | succ m ih =>
    obtain ⟨_, hw, hf⟩ := ih
    rw [runCounter_succ]
    simp only [animationFrame, hf, updateCounter, jsAdd_nan_right, jsGe, mathFloor, numberText]
    refine ⟨by simp, ?_, by simp⟩
    simp [hw, List.replicate_succ']

/-- C7: for a fresh counter showing 0 whose `data-count` does not parse
(`parseInt` gives `NaN`), the animation never stops and shows the text `NaN`:
after `animateCounter` and any number of frames the text is `NaN`, which is
neither a zero nor the original text, and a further frame is requested. -/
theorem animateCounter_nan_loops_showing_nan :
    ∀ m : Nat,
      (runCounter [] 0 none { textContent := "0", written := [], frame := none } m).textContent
        = "NaN" ∧
      (runCounter [] 0 none { textContent := "0", written := [], frame := none } m).frame
        ≠ none ∧
      (runCounter [] 0 none { textContent := "0", written := [], frame := none } m).written
        = List.replicate (m + 1) none := by
  intro m
  obtain ⟨ht, hw, hf⟩ := runCounter_nan [] 0
    { textContent := "0", written := [], frame := none } (by decide) m
  refine ⟨ht, ?_, by simpa using hw⟩
  rw [hf]
  exact Option.some_ne_none _

/-! ## Theorems: the active navigation link -/

theorem markLinks_markLinks (S S2 : PageSection) (navLinks : List NavLink) :
    markLinks S (markLinks S2 navLinks) = markLinks S navLinks := by
  simp [markLinks, List.map_map, Function.comp_def]

theorem markLinks_href (S : PageSection) (navLinks : List NavLink) :
    (markLinks S navLinks).map (·.href) = navLinks.map (·.href) := by
  simp [markLinks, List.map_map, Function.comp_def]

theorem markLinks_congr (S : PageSection) (l1 l2 : List NavLink)
    (h : l1.map (·.href) = l2.map (·.href)) : markLinks S l1 = markLinks S l2 := by
  induction l1 generalizing l2 with
  | nil =>
    cases l2 with
    | nil => rfl
    | cons b l2 => simp at h
  | cons a l1 ih =>
    cases l2 with
    | nil => simp at h
    | cons b l2 =>
      simp only [List.map_cons, List.cons.injEq] at h
      have := ih l2 h.2
      simp only [markLinks, List.map_cons, List.cons.injEq] at this ⊢
      exact ⟨by rw [h.1], this⟩

theorem updateActiveNavigation_nil (scrollTop : Int) (navLinks : List NavLink) :
    updateActiveNavigation [] scrollTop navLinks = navLinks := rfl

theorem updateActiveNavigation_cons (S : PageSection) (rest : List PageSection)
    (scrollTop : Int) (navLinks : List NavLink) :
    updateActiveNavigation (S :: rest) scrollTop navLinks =
      updateActiveNavigation rest scrollTop
        (if S.spans scrollTop then markLinks S navLinks else navLinks) := rfl

theorem updateActiveNavigation_append (pre post : List PageSection) (scrollTop : Int)
    (navLinks : List NavLink) :
    updateActiveNavigation (pre ++ post) scrollTop navLinks =
      updateActiveNavigation post scrollTop (updateActiveNavigation pre scrollTop navLinks) := by
  simp [updateActiveNavigation, List.foldl_append]

/-- Where no section spans the scroll offset the links are left as they are. -/
theorem updateActiveNavigation_none (sections : List PageSection) (scrollTop : Int)
    (navLinks : List NavLink) (h : ∀ S ∈ sections, S.spans scrollTop = false) :
    updateActiveNavigation sections scrollTop navLinks = navLinks := by
  induction sections generalizing navLinks with
  | nil => rfl
  | cons S rest ih =>
    rw [updateActiveNavigation_cons, h S (List.mem_cons_self _ _)]
    exact ih _ fun S2 hS2 => h S2 (List.mem_cons_of_mem _ hS2)

theorem markLinks_updateActiveNavigation (S : PageSection) (sections : List PageSection)
    (scrollTop : Int) (navLinks : List NavLink) :
    markLinks S (updateActiveNavigation sections scrollTop navLinks) = markLinks S navLinks := by
  induction sections generalizing navLinks with
  | nil => rfl
  | cons S2 rest ih =>
    rw [updateActiveNavigation_cons, ih]
    split
    · exact markLinks_markLinks S S2 navLinks
    · rfl

/-- The links are marked for the last section that spans the scroll offset. -/
theorem updateActiveNavigation_last (pre post : List PageSection) (S : PageSection)
    (scrollTop : Int) (navLinks : List NavLink) (hS : S.spans scrollTop = true)
    (hpost : ∀ S2 ∈ post, S2.spans scrollTop = false) :
    updateActiveNavigation (pre ++ S :: post) scrollTop navLinks = markLinks S navLinks := by
  rw [updateActiveNavigation_append, updateActiveNavigation_cons, hS, if_pos rfl,
    updateActiveNavigation_none post scrollTop _ hpost, markLinks_updateActiveNavigation]

theorem spans_iff (S : PageSection) (scrollTop : Int) :
    S.spans scrollTop = true ↔
      S.offsetTop - 100 ≤ scrollTop ∧ scrollTop < S.offsetTop - 100 + S.offsetHeight := by
  simp [PageSection.spans]

/-- A list with a section that spans the offset splits at the last such one. -/
theorem exists_last_spanning (sections : List PageSection) (scrollTop : Int)
    (h : ∃ S ∈ sections, S.spans scrollTop = true) :
    ∃ pre S post, sections = pre ++ S :: post ∧ S.spans scrollTop = true ∧
      ∀ S2 ∈ post, S2.spans scrollTop = false := by
  induction sections with
  | nil => simp at h
  | cons S0 rest ih =>
    by_cases hr : ∃ S ∈ rest, S.spans scrollTop = true
    · obtain ⟨pre, S, post, he, hS, hpost⟩ := ih hr
      exact ⟨S0 :: pre, S, post, by rw [he]; rfl, hS, hpost⟩
    · have hrest : ∀ S2 ∈ rest, S2.spans scrollTop = false := by
        intro S2 hS2
        cases hsp : S2.spans scrollTop
        · rfl
        · exact absurd ⟨S2, hS2, hsp⟩ hr
      obtain ⟨S, hmem, hS⟩ := h
      rcases List.mem_cons.mp hmem with rfl | hmem
      · exact ⟨[], S, rest, rfl, hS, hrest⟩
      · rw [hrest S hmem] at hS; cases hS

/-- C8 (amended): when the scroll offset lies within the span of a section and
within the span of no section after it in the document, then after
`updateActiveNavigation` the links are the ones before with their `active`
flags rewritten: a link is active exactly when its `href` is `#` followed by
the id of that section. -/
theorem updateActiveNavigation_marks_section (pre post : List PageSection) (S : PageSection)
    (scrollTop : Int) (navLinks : List NavLink)
    (hS : S.offsetTop - 100 ≤ scrollTop ∧ scrollTop < S.offsetTop - 100 + S.offsetHeight)
    (hpost : ∀ S2 ∈ post,
      ¬ (S2.offsetTop - 100 ≤ scrollTop ∧ scrollTop < S2.offsetTop - 100 + S2.offsetHeight)) :
    (updateActiveNavigation (pre ++ S :: post) scrollTop navLinks).map (·.href) =
      navLinks.map (·.href) ∧
    ∀ link ∈ updateActiveNavigation (pre ++ S :: post) scrollTop navLinks,
      (link.active = true ↔ link.href = some ("#" ++ S.id)) := by
  have hpost2 : ∀ S2 ∈ post, S2.spans scrollTop = false := by
    intro S2 hS2
    cases hsp : S2.spans scrollTop
    · rfl
    · exact absurd ((spans_iff S2 scrollTop).mp hsp) (hpost S2 hS2)
  rw [updateActiveNavigation_last pre post S scrollTop navLinks
    ((spans_iff S scrollTop).mpr hS) hpost2]
  refine ⟨markLinks_href S navLinks, fun link hlink => ?_⟩
  simp only [markLinks, List.mem_map] at hlink
  obtain ⟨l0, _, rfl⟩ := hlink
  simp

/-- A page of three stacked sections scrolled into the second one: only the
link of the second section is active afterwards. -/
theorem updateActiveNavigation_marks_section_witness :
    ((700 : Int) - 100 ≤ 650 ∧ (650 : Int) < 700 - 100 + 900) ∧
    updateActiveNavigation
        ([⟨0, 700, "home"⟩] ++ ⟨700, 900, "about"⟩ :: [⟨1600, 800, "skills"⟩]) 650
        [⟨some "#home", true⟩, ⟨some "#about", false⟩, ⟨some "#skills", false⟩] =
      [⟨some "#home", false⟩, ⟨some "#about", true⟩, ⟨some "#skills", false⟩] ∧
    ∀ link ∈ updateActiveNavigation
        ([⟨0, 700, "home"⟩] ++ ⟨700, 900, "about"⟩ :: [⟨1600, 800, "skills"⟩]) 650
        [⟨some "#home", true⟩, ⟨some "#about", false⟩, ⟨some "#skills", false⟩],
      (link.active = true ↔ link.href = some ("#" ++ "about")) :=
  ⟨by decide, by decide,
    (updateActiveNavigation_marks_section [⟨0, 700, "home"⟩] [⟨1600, 800, "skills"⟩]
      ⟨700, 900, "about"⟩ 650
      [⟨some "#home", true⟩, ⟨some "#about", false⟩, ⟨some "#skills", false⟩]
      (by decide) (by decide)).2⟩

/-- C8, counterexample: with a section `about` lying inside the extent of the
section `home`, the offset 450 is within the span of `home`, yet the call
leaves the link of `home` inactive and the link of `about` active. -/
theorem updateActiveNavigation_overlap_marks_later_section :
    (PageSection.mk 0 1000 "home").spans 450 = true ∧
    updateActiveNavigation [⟨0, 1000, "home"⟩, ⟨500, 300, "about"⟩] 450
        [⟨some "#home", true⟩, ⟨some "#about", false⟩] =
      [⟨some "#home", false⟩, ⟨some "#about", true⟩] := by
  decide

/-- C9 (amended): for a fixed layout, when the scroll offset lies within the
span of some section the links after `updateActiveNavigation` do not depend on
which links were active before (two link lists with the same `href`s give the
same result); when it lies within no span the call leaves the links, and so
the active ones, as they were; and in both cases a second call at the same
offset changes nothing. -/
theorem updateActiveNavigation_state_dependence (sections : List PageSection)
    (scrollTop : Int) :
    ((∃ S ∈ sections, S.spans scrollTop = true) →
      ∀ l1 l2 : List NavLink, l1.map (·.href) = l2.map (·.href) →
        updateActiveNavigation sections scrollTop l1 =
          updateActiveNavigation sections scrollTop l2) ∧
    ((∀ S ∈ sections, S.spans scrollTop = false) →
      ∀ navLinks : List NavLink,
        updateActiveNavigation sections scrollTop navLinks = navLinks) ∧
    (∀ navLinks : List NavLink,
      updateActiveNavigation sections scrollTop
          (updateActiveNavigation sections scrollTop navLinks) =
        updateActiveNavigation sections scrollTop navLinks) := by
  refine ⟨fun h l1 l2 hh => ?_, fun h navLinks => ?_, fun navLinks => ?_⟩
  · obtain ⟨pre, S, post, he, hS, hpost⟩ := exists_last_spanning sections scrollTop h
    rw [he, updateActiveNavigation_last pre post S scrollTop l1 hS hpost,
      updateActiveNavigation_last pre post S scrollTop l2 hS hpost]
    exact markLinks_congr S l1 l2 hh
  · exact updateActiveNavigation_none sections scrollTop navLinks h
  · by_cases h : ∃ S ∈ sections, S.spans scrollTop = true
    · obtain ⟨pre, S, post, he, hS, hpost⟩ := exists_last_spanning sections scrollTop h
      rw [he, updateActiveNavigation_last pre post S scrollTop navLinks hS hpost,
        updateActiveNavigation_last pre post S scrollTop _ hS hpost]
      exact markLinks_markLinks S S navLinks
    · have hnone : ∀ S ∈ sections, S.spans scrollTop = false := by
        intro S hS
        cases hsp : S.spans scrollTop
        · rfl
        · exact absurd ⟨S, hS, hsp⟩ h
      rw [updateActiveNavigation_none sections scrollTop navLinks hnone,
        updateActiveNavigation_none sections scrollTop navLinks hnone]

/-- The amended C9 on a page of two stacked sections: scrolled into the first
one, the result is the same from two different sets of active links; scrolled
past the last one, the links stay as they were. -/
theorem updateActiveNavigation_state_dependence_witness :
    (∃ S ∈ [PageSection.mk 0 700 "home", PageSection.mk 700 900 "about"],
      S.spans 300 = true) ∧
    updateActiveNavigation [⟨0, 700, "home"⟩, ⟨700, 900, "about"⟩] 300
        [⟨some "#home", false⟩, ⟨some "#about", true⟩] =
      updateActiveNavigation [⟨0, 700, "home"⟩, ⟨700, 900, "about"⟩] 300
        [⟨some "#home", true⟩, ⟨some "#about", true⟩] ∧
    (∀ S ∈ [PageSection.mk 0 700 "home", PageSection.mk 700 900 "about"],
      S.spans 1500 = false) ∧
    updateActiveNavigation [⟨0, 700, "home"⟩, ⟨700, 900, "about"⟩] 1500
        [⟨some "#home", false⟩, ⟨some "#about", true⟩] =
      [⟨some "#home", false⟩, ⟨some "#about", true⟩] :=
  have h := updateActiveNavigation_state_dependence
    [⟨0, 700, "home"⟩, ⟨700, 900, "about"⟩] 300
  have h2 := updateActiveNavigation_state_dependence
    [⟨0, 700, "home"⟩, ⟨700, 900, "about"⟩] 1500
  ⟨by decide, h.1 (by decide) _ _ (by decide), by decide, h2.2.1 (by decide) _⟩

/-- C9, counterexample: on a page with one section of span [-100, 400), the
call at the offset 600 leaves the link active when it was active before and
inactive when it was not: the result depends on the state before the call. -/
theorem updateActiveNavigation_outside_spans_keeps_previous :
    updateActiveNavigation [⟨0, 500, "home"⟩] 600 [⟨some "#home", true⟩] =
      [⟨some "#home", true⟩] ∧
    updateActiveNavigation [⟨0, 500, "home"⟩] 600 [⟨some "#home", false⟩] =
      [⟨some "#home", false⟩] ∧
    (updateActiveNavigation [⟨0, 500, "home"⟩] 600 [⟨some "#home", true⟩]).map (·.active) ≠
      (updateActiveNavigation [⟨0, 500, "home"⟩] 600 [⟨some "#home", false⟩]).map (·.active) := by
  decide

/-! ## Theorems: animations triggered by visibility -/

theorem Scene.animateCounter_animated (id : Nat) (s : Scene) (h : id ∈ s.animatedElements) :
    s.animateCounter id = s := by
  cases s
  simp_all [Scene.animateCounter, Portfolio.animateCounter]

theorem animateSkillBar_animated (random : ℚ) (id : Nat) (s : Scene)
    (h : id ∈ s.animatedElements) : animateSkillBar random id s = s := by
  simp [animateSkillBar, h]

theorem counterObserver_animated (entries : List IntersectionEntry) (s : Scene)
    (h : ∀ e ∈ entries, e.isIntersecting = true → e.target ∈ s.animatedElements) :
    counterObserver entries s = s := by
  induction entries with
  | nil => rfl
  | cons e rest ih =>
    have hrest : ∀ e2 ∈ rest, e2.isIntersecting = true → e2.target ∈ s.animatedElements :=
      fun e2 h2 => h e2 (List.mem_cons_of_mem _ h2)
    have hstep : (if e.isIntersecting then s.animateCounter e.target else s) = s := by
      cases hi : e.isIntersecting
      · simp
      · simp [Scene.animateCounter_animated e.target s (h e (List.mem_cons_self _ _) hi)]
    simp only [counterObserver, List.foldl_cons, hstep]
    exact ih hrest

theorem skillObserver_animated (random : Nat → ℚ) (entries : List IntersectionEntry)
    (s : Scene)
    (h : ∀ e ∈ entries, e.isIntersecting = true → e.target ∈ s.animatedElements) :
    skillObserver random entries s = s := by
  induction entries with
  | nil => rfl
  | cons e rest ih =>
    have hrest : ∀ e2 ∈ rest, e2.isIntersecting = true → e2.target ∈ s.animatedElements :=
      fun e2 h2 => h e2 (List.mem_cons_of_mem _ h2)
    have hstep : (if e.isIntersecting then animateSkillBar (random e.target) e.target s
        else s) = s := by
      cases hi : e.isIntersecting
      · simp
      · simp [animateSkillBar_animated _ e.target s (h e (List.mem_cons_self _ _) hi)]
    simp only [skillObserver, List.foldl_cons, hstep]
    exact ih hrest

/-- The step of the loop of the reveal observer. -/
theorem revealStep_animated (s : Scene) (index : Nat) (e : IntersectionEntry)
    (h : e.isIntersecting = true → e.target ∈ s.animatedElements) :
    (if e.isIntersecting && !decide (e.target ∈ s.animatedElements) then
        { s with animatedElements := e.target :: s.animatedElements,
                 timers := s.timers ++ [.reveal (index * 100) e.target] }
      else s) = s := by
  cases hi : e.isIntersecting
  · simp
  · simp [h hi]

theorem revealObserver_animated_from (entries : List IntersectionEntry) (n : Nat) (s : Scene)
    (h : ∀ e ∈ entries, e.isIntersecting = true → e.target ∈ s.animatedElements) :
    (entries.enumFrom n).foldl
      (fun s (p : Nat × IntersectionEntry) =>
        if p.2.isIntersecting && !decide (p.2.target ∈ s.animatedElements) then
          { s with animatedElements := p.2.target :: s.animatedElements,
                   timers := s.timers ++ [.reveal (p.1 * 100) p.2.target] }
        else s) s = s := by
  induction entries generalizing n with
  | nil => rfl
  | cons e rest ih =>
    have hrest : ∀ e2 ∈ rest, e2.isIntersecting = true → e2.target ∈ s.animatedElements :=
      fun e2 h2 => h e2 (List.mem_cons_of_mem _ h2)
    simp only [List.enumFrom_cons, List.foldl_cons,
      revealStep_animated s n e (h e (List.mem_cons_self _ _))]
    exact ih (n + 1) hrest

theorem revealObserver_animated (entries : List IntersectionEntry) (s : Scene)
    (h : ∀ e ∈ entries, e.isIntersecting = true → e.target ∈ s.animatedElements) :
    revealObserver entries s = s :=
  revealObserver_animated_from entries 0 s h

theorem foldl_animatedElements_grows {α : Type} (f : Scene → α → Scene)
    (hf : ∀ s x, s.animatedElements ⊆ (f s x).animatedElements) (l : List α) (s : Scene) :
    s.animatedElements ⊆ (l.foldl f s).animatedElements := by
  induction l generalizing s with
  | nil => exact List.Subset.refl _
  | cons x rest ih => exact List.Subset.trans (hf s x) (ih (f s x))

theorem Scene.animateCounter_grows (id : Nat) (s : Scene) :
    s.animatedElements ⊆ (s.animateCounter id).animatedElements := by
  by_cases h : id ∈ s.animatedElements
  · rw [Scene.animateCounter_animated id s h]
    exact List.Subset.refl _
  · simp [Scene.animateCounter, Portfolio.animateCounter, h]

theorem animateSkillBar_grows (random : ℚ) (id : Nat) (s : Scene) :
    s.animatedElements ⊆ (animateSkillBar random id s).animatedElements := by
  by_cases h : id ∈ s.animatedElements
  · rw [animateSkillBar_animated random id s h]
    exact List.Subset.refl _
  · simp [animateSkillBar, h]

theorem SceneEvent.apply_grows (e : SceneEvent) (s : Scene) :
    s.animatedElements ⊆ (e.apply s).animatedElements := by
  cases e with
  | counterEntries entries =>
    apply foldl_animatedElements_grows
    intro s x
    split
    · exact Scene.animateCounter_grows _ _
    · exact List.Subset.refl _
  | skillEntries random entries =>
    apply foldl_animatedElements_grows
    intro s x
    split
    · exact animateSkillBar_grows _ _ _
    · exact List.Subset.refl _
  | revealEntries entries =>
    apply foldl_animatedElements_grows
    intro s p
    dsimp only
    split
    · exact List.subset_cons_self _ _
    · exact List.Subset.refl _
  | timer i =>
    simp only [SceneEvent.apply, Scene.fireTimer]
    split <;> exact List.Subset.refl _
  | frame id => exact List.Subset.refl _

/-- C11: through every sequence of observer callbacks, timers and animation
frames the set `animatedElements` only grows; and a batch of visibility
entries whose intersecting targets are all in the set already, delivered to
the counter, the skill-bar or the reveal observer, leaves the whole scene as
it is: no text, no style, no timer, no frame and not the set are touched. -/
theorem animatedElements_trigger_once (s : Scene) :
    (∀ events : List SceneEvent,
      s.animatedElements ⊆ (runScene events s).animatedElements) ∧
    (∀ (entries : List IntersectionEntry) (random : Nat → ℚ),
      (∀ e ∈ entries, e.isIntersecting = true → e.target ∈ s.animatedElements) →
      counterObserver entries s = s ∧ skillObserver random entries s = s ∧
        revealObserver entries s = s) := by
  refine ⟨fun events => ?_, fun entries random h => ?_⟩
  · exact foldl_animatedElements_grows _ (fun s e => SceneEvent.apply_grows e s) events s
  · exact ⟨counterObserver_animated entries s h, skillObserver_animated random entries s h,
      revealObserver_animated entries s h⟩

/-- C11 on a scene whose elements 1, 2 and 3 were animated: an intersecting
entry for the counter 1, the skill bar 2 or the card 3 changes nothing. -/
theorem animatedElements_trigger_once_witness :
    (∀ e ∈ [IntersectionEntry.mk true 1, IntersectionEntry.mk true 2,
        IntersectionEntry.mk true 3],
      e.isIntersecting = true → e.target ∈ Scene.sample.animatedElements) ∧
    counterObserver [⟨true, 1⟩, ⟨true, 2⟩, ⟨true, 3⟩] Scene.sample = Scene.sample ∧
    skillObserver (fun _ => 1 / 2) [⟨true, 1⟩, ⟨true, 2⟩, ⟨true, 3⟩] Scene.sample =
      Scene.sample ∧
    revealObserver [⟨true, 1⟩, ⟨true, 2⟩, ⟨true, 3⟩] Scene.sample = Scene.sample :=
  ⟨by decide,
    (animatedElements_trigger_once Scene.sample).2 [⟨true, 1⟩, ⟨true, 2⟩, ⟨true, 3⟩]
      (fun _ => 1 / 2) (by decide)⟩

/-! ## Theorems: the project filter -/

/-- A single click on the button `web` works as specified: once its timers
have fired the two `web` cards are shown and the two others hidden. -/
theorem filterClick_single_click :
    (runFilterClicks [(0, 1)] FilterPage.sample).projectCards.map (·.hidden) =
      [false, false, true, true] := by
  decide

/-- C12: on four cards of the categories web, web, salesforce, salesforce, a
click on `all` at time 0 and a click on `web` at time 150 leave, once all
timers have fired, the two `salesforce` cards shown although the filter
selected last is `web`: the timers that the first click set for them (due at
200 and 300) fire after the second click hid them. -/
theorem filterClick_stale_timer_shows_hidden_card :
    (runFilterClicks [(0, 0), (150, 1)] FilterPage.sample).filterButtons.map (·.active) =
      [false, true, false] ∧
    (runFilterClicks [(0, 0), (150, 1)] FilterPage.sample).timers = [] ∧
    (runFilterClicks [(0, 0), (150, 1)] FilterPage.sample).projectCards.map (·.dataCategory) =
      [some "web", some "web", some "salesforce", some "salesforce"] ∧
    (runFilterClicks [(0, 0), (150, 1)] FilterPage.sample).projectCards.map (·.hidden) =
      [false, false, false, false] := by
  decide

/-! ## Theorems: the theme -/

theorem updateThemeIcon_dataTheme (theme : String) (p : ThemePage) :
    (updateThemeIcon theme p).page.dataTheme = p.dataTheme := by
  unfold updateThemeIcon
  cases p.themeToggle with
  | none => rfl
  | some t =>
    obtain ⟨icon⟩ := t
    cases icon <;> rfl

theorem updateThemeIcon_localStorage (theme : String) (p : ThemePage) :
    (updateThemeIcon theme p).page.localStorage = p.localStorage := by
  unfold updateThemeIcon
  cases p.themeToggle with
  | none => rfl
  | some t =>
    obtain ⟨icon⟩ := t
    cases icon <;> rfl

theorem toggleTheme_dataTheme (p : ThemePage) :
    (toggleTheme p).page.dataTheme =
      some (if p.dataTheme = some "dark" then "light" else "dark") := by
  unfold toggleTheme
  simp only
  split
  · rename_i e h
    rw [updateThemeIcon_dataTheme]
  · rename_i h
    show (updateThemeIcon _ _).page.dataTheme = _
    rw [updateThemeIcon_dataTheme]

theorem toggleTheme_localStorage (p : ThemePage) :
    (toggleTheme p).page.localStorage "theme" =
      some (if p.dataTheme = some "dark" then "light" else "dark") := by
  unfold toggleTheme
  simp only
  split
  · rename_i e h
    rw [updateThemeIcon_localStorage]
    simp
  · rename_i h
    show (updateThemeIcon _ _).page.localStorage "theme" = _
    rw [updateThemeIcon_localStorage]
    simp

theorem initializeTheme_dataTheme (q : ThemePage) :
    (initializeTheme q).page.dataTheme = some (savedTheme q) := by
  unfold initializeTheme
  simp only
  split
  · rw [updateThemeIcon_dataTheme]
  · split
    · rw [updateThemeIcon_dataTheme]
    · show (updateThemeIcon _ _).page.dataTheme = _
      rw [updateThemeIcon_dataTheme]

/-- C14: `toggleTheme` sets the attribute `data-theme` to `light` when it was
`dark` and to `dark` otherwise, and stores that value under the key `theme`;
`initializeTheme` on a page whose storage holds what the toggle stored applies
the theme the toggle set, and applies `light` when the key is not stored. -/
theorem theme_toggle_then_reload (p : ThemePage) :
    (toggleTheme p).page.dataTheme =
      some (if p.dataTheme = some "dark" then "light" else "dark") ∧
    (toggleTheme p).page.localStorage "theme" =
      some (if p.dataTheme = some "dark" then "light" else "dark") ∧
    (∀ q : ThemePage,
      q.localStorage "theme" = (toggleTheme p).page.localStorage "theme" →
      (initializeTheme q).page.dataTheme = (toggleTheme p).page.dataTheme) ∧
    (∀ q : ThemePage, q.localStorage "theme" = none →
      (initializeTheme q).page.dataTheme = some "light") := by
  refine ⟨toggleTheme_dataTheme p, toggleTheme_localStorage p, fun q hq => ?_, fun q hq => ?_⟩
  · rw [initializeTheme_dataTheme, toggleTheme_dataTheme]
    rw [toggleTheme_localStorage] at hq
    simp only [savedTheme, hq]
    split <;> simp
  · rw [initializeTheme_dataTheme]
    simp [savedTheme, hq]

/-- C14 on a loaded light page with nothing stored: the toggle sets and stores
`dark`, the reload after it applies `dark`, and a load with empty storage
applies `light`. -/
theorem theme_toggle_then_reload_witness :
    (toggleTheme ThemePage.sample).page.dataTheme = some "dark" ∧
    (toggleTheme ThemePage.sample).page.localStorage "theme" = some "dark" ∧
    (initializeTheme ((toggleTheme ThemePage.sample).page.reload
      (some { icon := some "fas fa-moon" }))).page.dataTheme = some "dark" ∧
    ThemePage.sample.localStorage "theme" = none ∧
    (initializeTheme ThemePage.sample).page.dataTheme = some "light" :=
  have h := theme_toggle_then_reload ThemePage.sample
  ⟨h.1, h.2.1,
    (h.2.2.1 ((toggleTheme ThemePage.sample).page.reload (some { icon := some "fas fa-moon" }))
      rfl).trans h.1,
    rfl, h.2.2.2 ThemePage.sample rfl⟩

/-! ## Theorems: initialization -/

/-- On a document with every element `initializeApp` runs all ten
initializers and throws nothing. -/
theorem initializeApp_complete_document :
    (initializeApp App.sample).thrown = none ∧
    (initializeApp App.sample).app.initialized =
      [.navigation, .theme, .scrollEffects, .typing, .counters, .skillBars, .projectFilters,
       .contactForm, .scrollAnimations, .modal] := by
  decide

/-- C13: on a document that has every element but `themeToggle`,
`initializeTheme` throws a TypeError from `updateThemeIcon`, before its own
test of `themeToggle`; `initializeApp` ends there, with `initializeNavigation`
the only initializer that returned and none of the later listeners (scroll
effects, form, modal) registered. -/
theorem initializeApp_without_themeToggle_throws :
    (initializeApp { App.sample with theme := ThemePage.sample.reload none }).thrown =
      some "TypeError: themeToggle is null" ∧
    (initializeApp { App.sample with theme := ThemePage.sample.reload none }).app.initialized =
      [.navigation] ∧
    Listener.scrollEffects ∉
      (initializeApp { App.sample with theme := ThemePage.sample.reload none }).app.listeners ∧
    Listener.formSubmit ∉
      (initializeApp { App.sample with theme := ThemePage.sample.reload none }).app.listeners ∧
    Listener.documentKeydown ∉
      (initializeApp { App.sample with theme := ThemePage.sample.reload none }).app.listeners := by
  decide

/-- Handlers registered without a test of their element throw when invoked:
on a document without `navbar` the scroll listener `handleNavbarScroll` is
registered and throws; without `modal` the key-down listener is registered and
throws on Escape; without `navToggle` the click listener of the navigation
links throws in `closeMobileMenu`. -/
theorem registered_handlers_throw_without_element :
    (initializeApp { App.sample with navbar := none }).thrown = none ∧
    Listener.scrollNavbar ∈ (initializeApp { App.sample with navbar := none }).app.listeners ∧
    (handleNavbarScroll 0 (initializeApp { App.sample with navbar := none }).app).thrown =
      some "TypeError: navbar is null" ∧
    (initializeApp { App.sample with page := { Page.initial with modal := none } }).thrown
      = none ∧
    Listener.documentKeydown ∈
      (initializeApp { App.sample with page := { Page.initial with modal := none } }).app.listeners ∧
    (documentKeydown "Escape"
      (initializeApp { App.sample with page := { Page.initial with modal := none } }).app).thrown
      = some "TypeError: modal is null" ∧
    Listener.navLinkClick ∈
      (initializeApp { App.sample with page := { Page.initial with navToggle := none } }).app.listeners ∧
    (closeMobileMenu
      (initializeApp { App.sample with page := { Page.initial with navToggle := none } }).app.page).thrown
      = some "TypeError: navToggle is null" := by
  decide

/-! ## Theorems: the calls of the typing animation -/

/-- The first call of a deleting phase writes the whole phrase again: on every
phrase list, a call made in the deleting phase with the character count at
the length of the phrase leaves the text as long as the phrase. -/
theorem typeText_first_deleting_call_keeps_text (texts : List JsString) (s s2 : TypingState)
    (t : JsString) (ht : texts[s.textIndex]? = some t) (hd : s.isDeleting = true)
    (hc : s.charIndex = (t.length : Int)) (h : typeText texts s = some s2) :
    s2.textContent = t := by
  have hsub : substring0 t (t.length : Int) = t := by simp [substring0]
  simp only [typeText, ht, hd, hc, Bool.not_true, Bool.false_eq_true, if_false, hsub] at h
  split at h <;> (cases h; rfl)

/-- C15: on the phrase list of the script, call 14 of `typeText` is made in the
deleting phase and leaves the 13 characters of the first phrase shown, not
12; call 28 is made in the typing phase of the second phrase and leaves the
text empty, not one character long. -/
theorem typeText_calls_that_keep_the_text :
    (runTyping texts [] 13).map (fun s => (s.isDeleting, s.textContent)) =
      some (true, utf16 "Asharam Saini") ∧
    (runTyping texts [] 14).map (fun s => (s.isDeleting, s.textContent)) =
      some (true, utf16 "Asharam Saini") ∧
    (runTyping texts [] 27).map (fun s => (s.textIndex, s.isDeleting, s.textContent)) =
      some (1, false, []) ∧
    (runTyping texts [] 28).map (fun s => (s.textIndex, s.isDeleting, s.textContent)) =
      some (1, false, []) ∧
    (runTyping texts [] 29).map (fun s => (s.textIndex, s.isDeleting, s.textContent)) =
      some (1, false, utf16 "F") := by
  decide

/-! ## Theorems: the email pattern -/

theorem matches_fail (s : JsString) : ¬ Regex.Matches .fail s := by
  intro h; cases h

theorem matches_eps (s : JsString) : Regex.Matches .eps s ↔ s = [] := by
  constructor
  · intro h; cases h; rfl
  · rintro rfl; exact .eps

theorem matches_cls (negated : Bool) (items : List ClassItem) (s : JsString) :
    Regex.Matches (.cls negated items) s ↔
      ∃ c, s = [c] ∧ ((items.any fun i => i.covers c) != negated) = true := by
  constructor
  · intro h; cases h with
    | cls _ _ c hc => exact ⟨c, rfl, hc⟩
  · rintro ⟨c, rfl, hc⟩; exact .cls _ _ c hc

theorem matches_seq (r1 r2 : Regex) (s : JsString) :
    Regex.Matches (.seq r1 r2) s ↔
      ∃ u v, s = u ++ v ∧ Regex.Matches r1 u ∧ Regex.Matches r2 v := by
  constructor
  · intro h; cases h with
    | seq _ _ u v hu hv => exact ⟨u, v, rfl, hu, hv⟩
  · rintro ⟨u, v, rfl, hu, hv⟩; exact .seq _ _ u v hu hv

theorem matches_alt (r1 r2 : Regex) (s : JsString) :
    Regex.Matches (.alt r1 r2) s ↔ Regex.Matches r1 s ∨ Regex.Matches r2 s := by
  constructor
  · intro h; cases h with
    | altLeft _ _ _ hu => exact Or.inl hu
    | altRight _ _ _ hu => exact Or.inr hu
  · rintro (h | h)
    · exact .altLeft _ _ _ h
    · exact .altRight _ _ _ h

/-- A non-empty match of a repetition starts with a non-empty match of its
body. -/
theorem matches_star_cons (r : Regex) (c : Nat) (s : JsString)
    (h : Regex.Matches (.star r) (c :: s)) :
    ∃ u v, s = u ++ v ∧ Regex.Matches r (c :: u) ∧ Regex.Matches (.star r) v := by
  generalize hR : Regex.star r = R at h
  generalize ht : c :: s = t at h
  induction h generalizing s with
  | eps => cases hR
  | cls _ _ _ _ => cases hR
  | seq _ _ _ _ _ _ _ _ => cases hR
  | altLeft _ _ _ _ _ => cases hR
  | altRight _ _ _ _ _ => cases hR
  | starNil _ => cases ht
  | starCons r2 u v hu hv _ ih2 =>
    cases hR
    cases u with
    | nil => exact ih2 s rfl (by simpa using ht)
    | cons d u =>
      simp only [List.cons_append, List.cons.injEq] at ht
      obtain ⟨rfl, rfl⟩ := ht
      exact ⟨u, v, rfl, hu, hv⟩

theorem nullable_iff (r : Regex) : r.nullable = true ↔ Regex.Matches r [] := by
  induction r with
  | fail => simp [Regex.nullable, matches_fail]
  | eps => simp [Regex.nullable, matches_eps]
  | cls negated items => simp [Regex.nullable, matches_cls]
  | seq r1 r2 ih1 ih2 =>
    simp only [Regex.nullable, Bool.and_eq_true, ih1, ih2, matches_seq]
    constructor
    · rintro ⟨h1, h2⟩; exact ⟨[], [], rfl, h1, h2⟩
    · rintro ⟨u, v, h, h1, h2⟩
      have hu : u = [] := by
        cases u with
        | nil => rfl
        | cons _ _ => simp at h
      have hv : v = [] := by
        cases v with
        | nil => rfl
        | cons _ _ => simp at h
      subst hu hv
      exact ⟨h1, h2⟩
  | alt r1 r2 ih1 ih2 =>
    simp only [Regex.nullable, Bool.or_eq_true, ih1, ih2, matches_alt]
  | star r _ =>
    simp only [Regex.nullable, true_iff]
    exact .starNil r

theorem deriv_iff (r : Regex) (c : Nat) (s : JsString) :
    Regex.Matches (r.deriv c) s ↔ Regex.Matches r (c :: s) := by
  induction r generalizing s with
  | fail => simp [Regex.deriv, matches_fail]
  | eps => simp [Regex.deriv, matches_fail, matches_eps]
  | cls negated items =>
    simp only [Regex.deriv, matches_cls]
    split
    · rename_i h
      rw [matches_eps]
      constructor
      · rintro rfl; exact ⟨c, rfl, h⟩
      · rintro ⟨d, hd, _⟩
        simp only [List.cons.injEq] at hd
        exact hd.2
    · rename_i h
      constructor
      · intro hm; exact absurd hm (matches_fail s)
      · rintro ⟨d, hd, hcov⟩
        simp only [List.cons.injEq] at hd
        obtain ⟨rfl, _⟩ := hd
        exact absurd hcov h
  | seq r1 r2 ih1 ih2 =>
    have key : Regex.Matches (.seq r1 r2) (c :: s) ↔
        (∃ u v, s = u ++ v ∧ Regex.Matches r1 (c :: u) ∧ Regex.Matches r2 v) ∨
        (Regex.Matches r1 [] ∧ Regex.Matches r2 (c :: s)) := by
      rw [matches_seq]
      constructor
      · rintro ⟨u, v, h, h1, h2⟩
        cases u with
        | nil =>
          simp only [List.nil_append] at h
          subst h
          exact Or.inr ⟨h1, h2⟩
        | cons d u =>
          simp only [List.cons_append, List.cons.injEq] at h
          obtain ⟨rfl, rfl⟩ := h
          exact Or.inl ⟨u, v, rfl, h1, h2⟩
      · rintro (⟨u, v, rfl, h1, h2⟩ | ⟨h1, h2⟩)
        · exact ⟨c :: u, v, rfl, h1, h2⟩
        · exact ⟨[], c :: s, rfl, h1, h2⟩
    have hleft : Regex.Matches (.seq (r1.deriv c) r2) s ↔
        ∃ u v, s = u ++ v ∧ Regex.Matches r1 (c :: u) ∧ Regex.Matches r2 v := by
      rw [matches_seq]
      constructor
      · rintro ⟨u, v, h, h1, h2⟩; exact ⟨u, v, h, (ih1 u).mp h1, h2⟩
      · rintro ⟨u, v, h, h1, h2⟩; exact ⟨u, v, h, (ih1 u).mpr h1, h2⟩
    rw [key]
    simp only [Regex.deriv]
    split
    · rename_i hn
      rw [matches_alt, hleft, ih2]
      have hn2 := (nullable_iff r1).mp hn
      constructor
      · rintro (h | h)
        · exact Or.inl h
        · exact Or.inr ⟨hn2, h⟩
      · rintro (h | ⟨_, h⟩)
        · exact Or.inl h
        · exact Or.inr h
    · rename_i hn
      rw [hleft]
      constructor
      · intro h; exact Or.inl h
      · rintro (h | ⟨h, _⟩)
        · exact h
        · exact absurd ((nullable_iff r1).mpr h) hn
  | alt r1 r2 ih1 ih2 =>
    simp only [Regex.deriv, matches_alt, ih1, ih2]
  | star r ih =>
    simp only [Regex.deriv, matches_seq]
    constructor
    · rintro ⟨u, v, rfl, h1, h2⟩
      exact .starCons r (c :: u) v ((ih u).mp h1) h2
    · intro h
      obtain ⟨u, v, hs, h1, h2⟩ := matches_star_cons r c s h
      exact ⟨u, v, hs, (ih u).mpr h1, h2⟩

/-- The derivative matcher decides the language. -/
theorem test_iff (r : Regex) (s : JsString) : r.test s = true ↔ Regex.Matches r s := by
  induction s generalizing r with
  | nil => exact nullable_iff r
  | cons c s ih =>
    have h : r.test (c :: s) = (r.deriv c).test s := rfl
    rw [h, ih, deriv_iff]

theorem class_covers_iff (c : Nat) :
    (([ClassItem.space, ClassItem.unit 64].any fun i => i.covers c) != true) = true ↔
      isJsSpace c = false ∧ c ≠ 64 := by
  cases hsp : isJsSpace c
  · by_cases h : c = 64
    · subst h; simp [ClassItem.covers, hsp]
    · have h2 : ¬ (64 = c) := fun e => h e.symm
      simp [ClassItem.covers, hsp, h, h2]
  · simp [ClassItem.covers, hsp]

theorem matches_notSpaceNorAt (s : JsString) :
    Regex.Matches notSpaceNorAt s ↔ ∃ c, s = [c] ∧ isJsSpace c = false ∧ c ≠ 64 := by
  unfold notSpaceNorAt
  rw [matches_cls]
  constructor
  · rintro ⟨c, hs, h⟩; exact ⟨c, hs, (class_covers_iff c).mp h⟩
  · rintro ⟨c, hs, h⟩; exact ⟨c, hs, (class_covers_iff c).mpr h⟩

theorem matches_chr (n : Nat) (s : JsString) : Regex.Matches (.chr n) s ↔ s = [n] := by
  unfold Regex.chr
  rw [matches_cls]
  constructor
  · rintro ⟨c, hs, h⟩
    simp [ClassItem.covers] at h
    rw [hs, h]
  · rintro rfl
    exact ⟨n, rfl, by simp [ClassItem.covers]⟩

theorem matches_star_class (s : JsString) :
    Regex.Matches (.star notSpaceNorAt) s ↔ ∀ c ∈ s, isJsSpace c = false ∧ c ≠ 64 := by
  induction s with
  | nil =>
    simp only [List.not_mem_nil, false_implies, implies_true, iff_true]
    exact .starNil _
  | cons d s ih =>
    constructor
    · intro h
      obtain ⟨u, v, hs, h1, h2⟩ := matches_star_cons _ d s h
      obtain ⟨c, hc, hok⟩ := (matches_notSpaceNorAt _).mp h1
      simp only [List.cons.injEq] at hc
      obtain ⟨rfl, rfl⟩ := hc
      simp only [List.nil_append] at hs
      subst hs
      intro x hx
      rcases List.mem_cons.mp hx with rfl | hx
      · exact hok
      · exact ih.mp h2 x hx
    · intro h
      have h1 : Regex.Matches notSpaceNorAt [d] :=
        (matches_notSpaceNorAt _).mpr ⟨d, rfl, h d (List.mem_cons_self _ _)⟩
      have h2 : Regex.Matches (.star notSpaceNorAt) s :=
        ih.mpr fun x hx => h x (List.mem_cons_of_mem _ hx)
      exact .starCons _ [d] s h1 h2

theorem matches_plus_class (s : JsString) :
    Regex.Matches notSpaceNorAt.plus s ↔
      s ≠ [] ∧ ∀ c ∈ s, isJsSpace c = false ∧ c ≠ 64 := by
  unfold Regex.plus
  rw [matches_seq]
  constructor
  · rintro ⟨u, v, rfl, h1, h2⟩
    obtain ⟨c, rfl, hok⟩ := (matches_notSpaceNorAt _).mp h1
    refine ⟨by simp, fun x hx => ?_⟩
    rcases List.mem_cons.mp hx with rfl | hx
    · exact hok
    · exact (matches_star_class v).mp h2 x hx
  · rintro ⟨hne, h⟩
    cases s with
    | nil => exact absurd rfl hne
    | cons d s =>
      exact ⟨[d], s, rfl,
        (matches_notSpaceNorAt _).mpr ⟨d, rfl, h d (List.mem_cons_self _ _)⟩,
        (matches_star_class s).mpr fun x hx => h x (List.mem_cons_of_mem _ hx)⟩

/-- The language of the email pattern: three non-empty runs free of white
space and `@`, separated by an `@` and a `.`. -/
theorem matches_emailRegex (s : JsString) :
    Regex.Matches emailRegex s ↔
      ∃ a b c : JsString, s = a ++ 64 :: (b ++ 46 :: c) ∧
        (a ≠ [] ∧ ∀ x ∈ a, isJsSpace x = false ∧ x ≠ 64) ∧
        (b ≠ [] ∧ ∀ x ∈ b, isJsSpace x = false ∧ x ≠ 64) ∧
        (c ≠ [] ∧ ∀ x ∈ c, isJsSpace x = false ∧ x ≠ 64) := by
  unfold emailRegex
  simp only [matches_seq, matches_chr, matches_plus_class]
  constructor
  · rintro ⟨a, _, rfl, ha, _, _, rfl, rfl, b, _, rfl, hb, _, c, rfl, rfl, hc⟩
    exact ⟨a, b, c, by simp, ha, hb, hc⟩
  · rintro ⟨a, b, c, rfl, ha, hb, hc⟩
    exact ⟨a, _, rfl, ha, [64], _, rfl, rfl, b, _, rfl, hb, [46], c, rfl, rfl, hc⟩

theorem beforeAt_split (a rest : JsString) (ha : ∀ x ∈ a, x ≠ 64) :
    beforeAt (a ++ 64 :: rest) = a ∧ afterAt (a ++ 64 :: rest) = rest := by
  have hp : ∀ x ∈ a, (x != 64) = true := fun x hx => by simpa using ha x hx
  constructor
  · simp [beforeAt, List.takeWhile_append_of_pos hp]
  · simp [afterAt, List.dropWhile_append_of_pos hp]

/-- A string with an `@` splits at its first `@`. -/
theorem split_at_first (s : JsString) (h : 64 ∈ s) :
    s = beforeAt s ++ 64 :: afterAt s := by
  induction s with
  | nil => simp at h
  | cons d s ih =>
    by_cases hd : d = 64
    · subst hd
      simp [beforeAt, afterAt]
    · have hmem : 64 ∈ s := by
        rcases List.mem_cons.mp h with h | h
        · exact absurd h.symm hd
        · exact h
      have hp : (d != 64) = true := by simpa using hd
      have h1 : beforeAt (d :: s) = d :: beforeAt s := by
        unfold beforeAt
        exact List.takeWhile_cons_of_pos hp
      have h2 : afterAt (d :: s) = afterAt s := by
        unfold afterAt
        exact congrArg (List.drop 1) (List.dropWhile_cons_of_pos (p := fun x => x != 64) hp)
      rw [h1, h2, List.cons_append, ← ih hmem]

theorem beforeAt_free (s : JsString) : ∀ x ∈ beforeAt s, x ≠ 64 := by
  intro x hx
  have := List.mem_takeWhile_imp hx
  simpa using this

theorem emailShape_of_parts (a b c : JsString)
    (ha : a ≠ [] ∧ ∀ x ∈ a, isJsSpace x = false ∧ x ≠ 64)
    (hb : b ≠ [] ∧ ∀ x ∈ b, isJsSpace x = false ∧ x ≠ 64)
    (hc : c ≠ [] ∧ ∀ x ∈ c, isJsSpace x = false ∧ x ≠ 64) :
    emailShape (a ++ 64 :: (b ++ 46 :: c)) := by
  obtain ⟨hb1, hb2⟩ := beforeAt_split a (b ++ 46 :: c) fun x hx => (ha.2 x hx).2
  refine ⟨?_, ?_, ?_, ?_⟩
  · intro x hx
    simp only [List.mem_append, List.mem_cons] at hx
    rcases hx with hx | rfl | hx | rfl | hx
    · exact (ha.2 x hx).1
    · decide
    · exact (hb.2 x hx).1
    · decide
    · exact (hc.2 x hx).1
  · have h1 : List.count 64 a = 0 := List.count_eq_zero.mpr fun h => (ha.2 64 h).2 rfl
    have h2 : List.count 64 b = 0 := List.count_eq_zero.mpr fun h => (hb.2 64 h).2 rfl
    have h3 : List.count 64 c = 0 := List.count_eq_zero.mpr fun h => (hc.2 64 h).2 rfl
    simp [List.count_append, List.count_cons, h1, h2, h3]
  · rw [hb1]; exact ha.1
  · rw [hb2]
    refine ⟨b.length, List.length_pos.mpr hb.1, ?_, ?_⟩
    · have := List.length_pos.mpr hc.1
      simp only [List.length_append, List.length_cons]
      omega
    · rw [List.getElem?_append_right (le_refl _)]
      simp

theorem parts_of_emailShape (s : JsString) (h : emailShape s) :
    ∃ a b c : JsString, s = a ++ 64 :: (b ++ 46 :: c) ∧
      (a ≠ [] ∧ ∀ x ∈ a, isJsSpace x = false ∧ x ≠ 64) ∧
      (b ≠ [] ∧ ∀ x ∈ b, isJsSpace x = false ∧ x ≠ 64) ∧
      (c ≠ [] ∧ ∀ x ∈ c, isJsSpace x = false ∧ x ≠ 64) := by
  obtain ⟨hsp, hcount, hbefore, i, hi0, hi1, hi⟩ := h
  have hmem : 64 ∈ s := List.count_pos_iff.mp (by omega)
  have hsplit := split_at_first s hmem
  have hfree := beforeAt_free s
  have hca : List.count 64 (beforeAt s) = 0 := List.count_eq_zero.mpr fun h => hfree 64 h rfl
  have hcd : List.count 64 (afterAt s) = 0 := by
    have h2 := hcount
    rw [hsplit, List.count_append, List.count_cons, hca] at h2
    simp at h2
    exact h2
  have hdfree : ∀ x ∈ afterAt s, x ≠ 64 := by
    intro x hx hx64
    subst hx64
    exact List.count_eq_zero.mp hcd hx
  have hilt : i < (afterAt s).length := by omega
  have hget : (afterAt s)[i] = 46 := by
    rw [List.getElem?_eq_getElem hilt] at hi
    exact Option.some.inj hi
  have hdom : afterAt s = (afterAt s).take i ++ 46 :: (afterAt s).drop (i + 1) := by
    conv_lhs => rw [← List.take_append_drop i (afterAt s)]
    rw [List.drop_eq_getElem_cons hilt, hget]
  have hsub : ∀ x ∈ afterAt s, isJsSpace x = false ∧ x ≠ 64 := by
    intro x hx
    refine ⟨hsp x ?_, hdfree x hx⟩
    rw [hsplit]
    exact List.mem_append_right _ (List.mem_cons_of_mem _ hx)
  refine ⟨beforeAt s, (afterAt s).take i, (afterAt s).drop (i + 1), ?_, ⟨hbefore, ?_⟩,
    ⟨?_, ?_⟩, ⟨?_, ?_⟩⟩
  · rw [← hdom]; exact hsplit
  · intro x hx
    refine ⟨hsp x ?_, hfree x hx⟩
    rw [hsplit]
    exact List.mem_append_left _ hx
  · intro h0
    have := congrArg List.length h0
    simp only [List.length_take, List.length_nil] at this
    omega
  · intro x hx
    exact hsub x (List.mem_of_mem_take hx)
  · intro h0
    have := congrArg List.length h0
    simp only [List.length_drop, List.length_nil] at this
    omega
  · intro x hx
    exact hsub x (List.mem_of_mem_drop hx)

/-- C16: the pattern `/^[^\s@]+@[^\s@]+\.[^\s@]+$/` accepts a string exactly
when the string holds no white space, holds exactly one `@`, has at least one
character before the `@`, and the part after the `@` holds a `.` that is
neither its first nor its last character. -/
theorem emailRegex_test_iff_shape (s : JsString) :
    emailRegex.test s = true ↔
      (∀ c ∈ s, isJsSpace c = false) ∧ s.count 64 = 1 ∧ beforeAt s ≠ [] ∧
      ∃ i : Nat, 0 < i ∧ i + 1 < (afterAt s).length ∧ (afterAt s)[i]? = some 46 := by
  rw [test_iff, matches_emailRegex]
  constructor
  · rintro ⟨a, b, c, rfl, ha, hb, hc⟩
    exact emailShape_of_parts a b c ha hb hc
  · intro h
    exact parts_of_emailShape s h

/-! ## Theorems: error messages left by an earlier submission -/

/-- C3, counterexample: on the form left by the submission of the draft
A / bad / Hi / short, the submission of the draft of Jane Doe, all of whose
fields satisfy their rule, leaves the four error messages where they were
(`validateForm` never clears a message) and goes on: the submit button is
disabled and the timer of the success banner is set. -/
theorem handleFormSubmission_keeps_earlier_errors :
    (∀ f : FieldId, f.satisfiedBy FormDraft.allGood) ∧
    (∀ f : FieldId,
      (handleFormSubmission FormDraft.allGood
        (handleFormSubmission FormDraft.allBad ContactForm.sample).form).form.errorsOf f =
        [f.errorText]) ∧
    (handleFormSubmission FormDraft.allGood
      (handleFormSubmission FormDraft.allBad ContactForm.sample).form).thrown = none ∧
    (handleFormSubmission FormDraft.allGood
      (handleFormSubmission FormDraft.allBad ContactForm.sample).form).form.submitButton =
      some { innerHTML := "<i class=\"fas fa-spinner fa-spin\"></i> Sending...",
             disabled := true } ∧
    (handleFormSubmission FormDraft.allGood
      (handleFormSubmission FormDraft.allBad ContactForm.sample).form).form.timers =
      [.finishSubmission 2000 "Send Message"] := by
  refine ⟨allGood_satisfies, fun f => ?_, by decide, by decide, by decide⟩
  cases f <;> decide

/-! ## Theorems: the order of the phrases -/

theorem visitStartCall_lt_end (texts : List JsString) (k : Nat) :
    visitStartCall texts k < deletionEndCall texts k := by
  cases k with
  | zero => simp [visitStartCall, deletionEndCall]
  | succ k => simp only [visitStartCall, deletionEndCall, switchCall]; omega

theorem switchCall_eq_start (texts : List JsString) (k : Nat) :
    switchCall texts k =
      visitStartCall texts k + phraseLength texts k + (if k = 0 then 0 else 1) := by
  cases k with
  | zero => simp [visitStartCall, switchCall]
  | succ k => simp only [visitStartCall, deletionEndCall, switchCall]; simp; omega

/-- The state in which the visit of the phrase visited `k`-th begins: typing,
at the index `k mod N`, the character count at 0 for the first visit and at -1
for the later ones. -/
theorem visit_start (texts : List JsString) (shown : JsString) (t0 : JsString)
    (h0 : texts[0]? = some t0) (hne0 : t0 ≠ []) (k : Nat) :
    ∃ s, runTyping texts shown (visitStartCall texts k) = some s ∧
      s.textIndex = k % texts.length ∧ s.isDeleting = false ∧
      s.charIndex = (if k = 0 then 0 else -1) := by
  have hne : texts ≠ [] := by
    intro h; subst h; simp at h0
  cases k with
  | zero => exact ⟨_, rfl, by simp [TypingState.initial], rfl, rfl⟩
  | succ k =>
    obtain ⟨t, ht, _, _, s2, h2, hi2, hc2, hd2, _⟩ := switch_reached texts shown t0 h0 hne0 k
    obtain ⟨tk, htk, hlenk⟩ := phrase_at texts hne k
    have htt : tk = t := by rw [htk] at ht; exact Option.some.inj ht
    subst htt
    obtain ⟨s3, h3, hi3, hc3, hd3⟩ :=
      deleting_done texts shown (k % texts.length) tk htk (switchCall texts k) s2 h2 hi2 hc2 hd2
    refine ⟨s3, ?_, by rw [hi3, Nat.mod_add_mod], hd3, by simpa using hc3⟩
    simp only [visitStartCall, deletionEndCall, hlenk]
    exact h3

/-- The run within a visit: from its start up to the call before the switch
the engine types the phrase of index `k mod N`, from the switch up to the call
before the end of the deletion it deletes it. -/
theorem visit_trace (texts : List JsString) (shown : JsString) (t0 : JsString)
    (h0 : texts[0]? = some t0) (hne0 : t0 ≠ []) (k n : Nat)
    (h1 : visitStartCall texts k ≤ n) (h2 : n < deletionEndCall texts k) :
    ∃ s, runTyping texts shown n = some s ∧ s.textIndex = k % texts.length ∧
      s.isDeleting = decide (switchCall texts k ≤ n) := by
  have hne : texts ≠ [] := by
    intro h; subst h; simp at h0
  obtain ⟨t, ht, hlen⟩ := phrase_at texts hne k
  have hsw := switchCall_eq_start texts k
  by_cases hn : switchCall texts k ≤ n
  · obtain ⟨t', ht', _, _, s2, hs2, hi2, hc2, hd2, _⟩ :=
      switch_reached texts shown t0 h0 hne0 k
    have htt : t' = t := by rw [ht] at ht'; exact (Option.some.inj ht').symm
    subst htt
    obtain ⟨s3, h3, hi3, _, hd3⟩ :=
      deleting_phase texts shown (k % texts.length) t' ht (switchCall texts k) t'.length
        (n - switchCall texts k) s2 hs2 hi2 hc2 hd2
        (by simp only [deletionEndCall, hlen] at h2; omega)
    have hnn : switchCall texts k + (n - switchCall texts k) = n := by omega
    rw [hnn] at h3
    exact ⟨s3, h3, hi3, by simp [hd3, hn]⟩
  · obtain ⟨s, hs, hi, hd, hc⟩ := visit_start texts shown t0 h0 hne0 k
    obtain ⟨s3, h3, hi3, _, hd3⟩ :=
      typing_phase texts shown (k % texts.length) t ht (visitStartCall texts k)
        (if k = 0 then 0 else -1) (n - visitStartCall texts k) s hs hi hc hd
        (by
          rw [hlen] at hsw
          by_cases hk : k = 0
          · rw [if_pos hk] at hsw ⊢; omega
          · rw [if_neg hk] at hsw ⊢; omega)
    have hnn : visitStartCall texts k + (n - visitStartCall texts k) = n := by omega
    rw [hnn] at h3
    exact ⟨s3, h3, hi3, by simp [hd3, hn]⟩

/-- Within the visit of the phrase visited `k`-th, `k` deletion phases have
been completed. -/
theorem completedDeletions_in_visit (texts : List JsString) (shown : JsString)
    (t0 : JsString) (h0 : texts[0]? = some t0) (hne0 : t0 ≠ []) (n : Nat) :
    ∀ k : Nat, visitStartCall texts k ≤ n → n < deletionEndCall texts k →
      completedDeletions texts shown n = k := by
  induction n with
  | zero =>
    intro k h1 _
    cases k with
    | zero => rfl
    | succ k =>
      simp only [visitStartCall, deletionEndCall] at h1
      omega
  | succ n ih =>
    intro k h1 h2
    obtain ⟨s2, hs2, _, hd2⟩ := visit_trace texts shown t0 h0 hne0 k (n + 1) h1 h2
    by_cases hstart : visitStartCall texts k ≤ n
    · obtain ⟨s1, hs1, _, hd1⟩ :=
        visit_trace texts shown t0 h0 hne0 k n hstart (by omega)
      have hcd := ih k hstart (by omega)
      simp only [completedDeletions, hs1, hs2, hcd, hd1, hd2]
      by_cases hsw : switchCall texts k ≤ n
      · have hsw2 : switchCall texts k ≤ n + 1 := by omega
        simp [hsw, hsw2]
      · simp [hsw]
    · cases k with
      | zero => simp [visitStartCall] at hstart
      | succ j =>
        have hend : deletionEndCall texts j = n + 1 := by
          simp only [visitStartCall] at h1 hstart
          omega
        have hj1 := visitStartCall_lt_end texts j
        obtain ⟨s1, hs1, _, hd1⟩ :=
          visit_trace texts shown t0 h0 hne0 j n (by omega) (by omega)
        have hcd := ih j (by omega) (by omega)
        have hsw1 : switchCall texts j ≤ n := by
          simp only [deletionEndCall] at hend; omega
        have hsw2 : ¬ switchCall texts (j + 1) ≤ n + 1 := by
          have := switchCall_eq_start texts (j + 1)
          simp only [visitStartCall, Nat.succ_ne_zero, if_false] at this
          omega
        simp only [completedDeletions, hs1, hs2, hcd, hd1, hd2]
        simp [hsw1, hsw2]

/-- C5 (amended): over a list of `N` phrases whose first phrase exists and is
not empty, a call of `typeText` moves the phrase index exactly when it
completes a deletion phase, then from `i` to `(i + 1) mod N`; the run is a
sequence of visits, the `k`-th from the call `visitStartCall texts k` up to
the call `deletionEndCall texts k`, where the next begins; throughout the
`k`-th visit the index is `k mod N`, and the call that ends it is the `k+1`-st
completed deletion and moves the index from `k mod N` to `(k + 1) mod N`. So
the phrases are visited in list order, the last is followed by the first, and
`N` visits later the index is what it was. -/
theorem typeText_advances_index_per_deletion (texts : List JsString) (shown : JsString)
    (h0 : ∃ t0, texts[0]? = some t0 ∧ t0 ≠ []) :
    (∀ s : TypingState, s.textIndex < texts.length →
      ∃ s2, typeText texts s = some s2 ∧
        s2.textIndex =
          if s.isDeleting = true ∧ s2.isDeleting = false
          then (s.textIndex + 1) % texts.length else s.textIndex) ∧
    (∀ k : Nat, visitStartCall texts k < deletionEndCall texts k ∧
      visitStartCall texts (k + 1) = deletionEndCall texts k) ∧
    (∀ k n : Nat, visitStartCall texts k ≤ n → n < deletionEndCall texts k →
      ∃ s, runTyping texts shown n = some s ∧ s.textIndex = k % texts.length) ∧
    (∀ k : Nat, ∃ s1 s2,
      runTyping texts shown (deletionEndCall texts k - 1) = some s1 ∧
      runTyping texts shown (deletionEndCall texts k) = some s2 ∧
      s1.isDeleting = true ∧ s2.isDeleting = false ∧
      s1.textIndex = k % texts.length ∧ s2.textIndex = (k + 1) % texts.length) ∧
    (∀ k : Nat, completedDeletions texts shown (deletionEndCall texts k) = k + 1) ∧
    (∀ n : Nat, ∃ s, runTyping texts shown n = some s ∧
      s.textIndex = completedDeletions texts shown n % texts.length) ∧
    (∀ k : Nat, ∃ s1 s2, runTyping texts shown (visitStartCall texts k) = some s1 ∧
      runTyping texts shown (visitStartCall texts (k + texts.length)) = some s2 ∧
      s2.textIndex = s1.textIndex) := by
  obtain ⟨t0, h0, hne0⟩ := h0
  have hne : texts ≠ [] := by
    intro h; subst h; simp at h0
  refine ⟨fun s hi => ?_, fun k => ⟨visitStartCall_lt_end texts k, rfl⟩,
    fun k n h1 h2 => ?_, fun k => ?_, fun k => ?_, runTyping_textIndex texts shown hne,
    fun k => ?_⟩
  · obtain ⟨s2, h2, _⟩ := typeText_total texts s hi
    exact ⟨s2, h2, typeText_textIndex texts s s2 h2⟩
  · obtain ⟨s, hs, hi, _⟩ := visit_trace texts shown t0 h0 hne0 k n h1 h2
    exact ⟨s, hs, hi⟩
  · have hlt := visitStartCall_lt_end texts k
    have hlt2 := visitStartCall_lt_end texts (k + 1)
    obtain ⟨s1, hs1, hi1, hd1⟩ := visit_trace texts shown t0 h0 hne0 k
      (deletionEndCall texts k - 1) (by omega) (by omega)
    obtain ⟨s2, hs2, hi2, hd2⟩ := visit_trace texts shown t0 h0 hne0 (k + 1)
      (deletionEndCall texts k) (le_refl _) hlt2
    have hsw1 : switchCall texts k ≤ deletionEndCall texts k - 1 := by
      simp only [deletionEndCall]; omega
    have hsw2 : ¬ switchCall texts (k + 1) ≤ deletionEndCall texts k := by
      have := switchCall_eq_start texts (k + 1)
      simp only [visitStartCall, Nat.succ_ne_zero, if_false] at this
      omega
    exact ⟨s1, s2, hs1, hs2, by simp [hd1, hsw1], by simp [hd2, hsw2], hi1, hi2⟩
  · exact completedDeletions_in_visit texts shown t0 h0 hne0 (deletionEndCall texts k)
      (k + 1) (le_refl _) (visitStartCall_lt_end texts (k + 1))
  · obtain ⟨s1, hs1, hi1, _⟩ := visit_trace texts shown t0 h0 hne0 k
      (visitStartCall texts k) (le_refl _) (visitStartCall_lt_end texts k)
    obtain ⟨s2, hs2, hi2, _⟩ := visit_trace texts shown t0 h0 hne0 (k + texts.length)
      (visitStartCall texts (k + texts.length)) (le_refl _)
      (visitStartCall_lt_end texts (k + texts.length))
    exact ⟨s1, s2, hs1, hs2, by rw [hi2, hi1, Nat.add_mod_right]⟩

/-- The amended C5 on the phrase list of the script: the deletion of the
fourth phrase is complete with call 131, the fourth completed deletion, and
that call moves the index from 3 back to 0. -/
theorem typeText_advances_index_per_deletion_witness :
    (∃ t0, texts[0]? = some t0 ∧ t0 ≠ []) ∧
    deletionEndCall texts 3 = 131 ∧
    (∃ s1 s2,
      runTyping texts [] (deletionEndCall texts 3 - 1) = some s1 ∧
      runTyping texts [] (deletionEndCall texts 3) = some s2 ∧
      s1.isDeleting = true ∧ s2.isDeleting = false ∧
      s1.textIndex = 3 % texts.length ∧ s2.textIndex = (3 + 1) % texts.length) ∧
    completedDeletions texts [] (deletionEndCall texts 3) = 3 + 1 :=
  have h := typeText_advances_index_per_deletion texts []
    ⟨utf16 "Asharam Saini", by decide, by decide⟩
  ⟨⟨utf16 "Asharam Saini", by decide, by decide⟩, by decide, h.2.2.2.1 3, h.2.2.2.2.1 3⟩

/-- C5, counterexample: on the two phrases `''` and `'a'` the engine never
completes the empty first phrase, so the index stays 0: the second phrase is
never visited. -/
theorem typeText_second_phrase_never_visited :
    ¬ ∃ (n : Nat) (s : TypingState),
      runTyping [[], [97]] [] n = some s ∧ s.textIndex = 1 := by
  have key : ∀ n : Nat, ∃ s, runTyping [[], [97]] [] n = some s ∧ s.isDeleting = false ∧
      s.textIndex = 0 ∧ s.charIndex = (n : Int) := by
    intro n
    induction n with
    | zero => exact ⟨_, rfl, rfl, rfl, rfl⟩
    | succ n ih =>
      obtain ⟨s, hs, hd, hi, hc⟩ := ih
      obtain ⟨s2, h2, hi2, hc2, hd2⟩ := typeText_typing [[], [97]] s [] (by rw [hi]; rfl) hd
        (by rw [hc]; simp; omega)
      refine ⟨s2, ?_, hd2, by rw [hi2, hi], by rw [hc2, hc]; push_cast; ring⟩
      rw [runTyping_succ, hs]; exact h2
  rintro ⟨n, s, hs, hi⟩
  obtain ⟨s2, hs2, _, hi2, _⟩ := key n
  rw [hs] at hs2; cases hs2
  rw [hi] at hi2; cases hi2

/-! ## Theorems: rounding to a double -/

theorem roundHalfEven_intCast (n : ℤ) : roundHalfEven (n : ℚ) = n := by
  simp [roundHalfEven]

theorem roundHalfEven_bounds (x : ℚ) : ⌊x⌋ ≤ roundHalfEven x ∧ roundHalfEven x ≤ ⌊x⌋ + 1 := by
  unfold roundHalfEven
  simp only
  split_ifs <;> omega

theorem roundHalfEven_mono {x y : ℚ} (h : x ≤ y) : roundHalfEven x ≤ roundHalfEven y := by
  have hf : ⌊x⌋ ≤ ⌊y⌋ := Int.floor_mono h
  rcases lt_or_eq_of_le hf with hlt | heq
  · have h1 := (roundHalfEven_bounds x).2
    have h2 := (roundHalfEven_bounds y).1
    omega
  · unfold roundHalfEven
    simp only
    have hxy : x - (⌊x⌋ : ℚ) ≤ y - (⌊y⌋ : ℚ) := by rw [heq]; linarith
    split_ifs <;> first | omega | (exfalso; linarith)

theorem roundHalfEven_le_of_le {x : ℚ} {n : ℤ} (h : x ≤ (n : ℚ)) : roundHalfEven x ≤ n := by
  have := roundHalfEven_mono h
  rwa [roundHalfEven_intCast] at this

theorem le_roundHalfEven_of_le {x : ℚ} {n : ℤ} (h : (n : ℚ) ≤ x) : n ≤ roundHalfEven x := by
  have := roundHalfEven_mono h
  rwa [roundHalfEven_intCast] at this

theorem two_zpow_pos (e : ℤ) : (0 : ℚ) < 2 ^ e := zpow_pos (by norm_num) e

/-- A multiple of the unit of `x` above `x` is above the rounded value. -/
theorem roundValue_le_grid {x : ℚ} {n : ℤ} (h : x ≤ (n : ℚ) * 2 ^ ulpExponent x) :
    roundValue x ≤ (n : ℚ) * 2 ^ ulpExponent x := by
  unfold roundValue
  have hp := two_zpow_pos (ulpExponent x)
  have h1 : x / 2 ^ ulpExponent x ≤ (n : ℚ) := by
    rw [div_le_iff₀ hp]; exact h
  have h2 : ((roundHalfEven (x / 2 ^ ulpExponent x) : ℤ) : ℚ) ≤ (n : ℚ) := by
    exact_mod_cast roundHalfEven_le_of_le h1
  exact mul_le_mul_of_nonneg_right h2 (le_of_lt hp)

/-- A multiple of the unit of `x` below `x` is below the rounded value. -/
theorem grid_le_roundValue {x : ℚ} {n : ℤ} (h : (n : ℚ) * 2 ^ ulpExponent x ≤ x) :
    (n : ℚ) * 2 ^ ulpExponent x ≤ roundValue x := by
  unfold roundValue
  have hp := two_zpow_pos (ulpExponent x)
  have h1 : (n : ℚ) ≤ x / 2 ^ ulpExponent x := by
    rw [le_div_iff₀ hp]; exact h
  have h2 : (n : ℚ) ≤ ((roundHalfEven (x / 2 ^ ulpExponent x) : ℤ) : ℚ) := by
    exact_mod_cast le_roundHalfEven_of_le h1
  exact mul_le_mul_of_nonneg_right h2 (le_of_lt hp)

/-- A multiple of the unit of `x` is its own rounded value. -/
theorem roundValue_grid {x : ℚ} {n : ℤ} (h : x = (n : ℚ) * 2 ^ ulpExponent x) :
    roundValue x = x := by
  have h1 := roundValue_le_grid (le_of_eq h)
  have h2 := grid_le_roundValue (le_of_eq h.symm)
  rw [← h] at h1 h2
  exact le_antisymm h1 h2

theorem roundValue_zero : roundValue 0 = 0 := by
  simp [roundValue, roundHalfEven]

theorem roundValue_nonneg {x : ℚ} (h : 0 ≤ x) : 0 ≤ roundValue x := by
  have := @grid_le_roundValue x 0 (by simpa using h)
  simpa using this

/-- A power of two whose exponent is not below the unit of `x` is a multiple of
the unit. -/
theorem zpow_eq_grid (b e : ℤ) (h : e ≤ b) :
    (2 : ℚ) ^ b = (((2 : ℤ) ^ (b - e).toNat : ℤ) : ℚ) * 2 ^ e := by
  have h1 : b = (b - e).toNat + e := by
    have := Int.toNat_of_nonneg (show 0 ≤ b - e by omega)
    omega
  push_cast
  nth_rewrite 1 [h1]
  rw [zpow_add₀ (by norm_num), zpow_natCast]





theorem ulpExponent_pos {x : ℚ} (hx : 0 < x) :
    ulpExponent x = max (Int.log 2 x - 52) (-1074) := by
  unfold ulpExponent
  rw [abs_of_pos hx]

theorem ulpExponent_mono {x y : ℚ} (hx : 0 < x) (h : x ≤ y) :
    ulpExponent x ≤ ulpExponent y := by
  rw [ulpExponent_pos hx, ulpExponent_pos (lt_of_lt_of_le hx h)]
  have := Int.log_mono_right (b := 2) hx h
  exact max_le_max (by omega) le_rfl

theorem lt_zpow_ulpExponent {x : ℚ} (hx : 0 < x) : x < 2 ^ (ulpExponent x + 53) := by
  have h1 : x < ((2 : ℕ) : ℚ) ^ (Int.log 2 x + 1) := Int.lt_zpow_succ_log_self (by norm_num) x
  have h2 : Int.log 2 x + 1 ≤ ulpExponent x + 53 := by
    rw [ulpExponent_pos hx]
    have := le_max_left (Int.log 2 x - 52) (-1074)
    omega
  have h3 : ((2 : ℕ) : ℚ) ^ (Int.log 2 x + 1) ≤ (2 : ℚ) ^ (ulpExponent x + 53) := by
    push_cast
    exact zpow_le_zpow_right₀ (by norm_num) h2
  exact lt_of_lt_of_le h1 h3

/-- Rounding keeps the order of non-negative values. -/
theorem roundValue_mono {x y : ℚ} (hx : 0 ≤ x) (h : x ≤ y) : roundValue x ≤ roundValue y := by
  rcases eq_or_lt_of_le hx with h0 | hpos
  · rw [← h0, roundValue_zero]
    exact roundValue_nonneg (le_trans hx h)
  · have hy : 0 < y := lt_of_lt_of_le hpos h
    have he := ulpExponent_mono hpos h
    rcases eq_or_lt_of_le he with heq | hlt
    · unfold roundValue
      rw [heq]
      have hp := two_zpow_pos (ulpExponent y)
      have h1 : x / 2 ^ ulpExponent y ≤ y / 2 ^ ulpExponent y :=
        div_le_div_of_nonneg_right h (le_of_lt hp)
      have h2 : ((roundHalfEven (x / 2 ^ ulpExponent y) : ℤ) : ℚ) ≤
          ((roundHalfEven (y / 2 ^ ulpExponent y) : ℤ) : ℚ) := by
        exact_mod_cast roundHalfEven_mono h1
      exact mul_le_mul_of_nonneg_right h2 (le_of_lt hp)
    · have hey : ulpExponent y = Int.log 2 y - 52 := by
        have h1 := ulpExponent_pos hy
        have h2 : -1074 ≤ ulpExponent x := by
          rw [ulpExponent_pos hpos]; exact le_max_right _ _
        rw [h1] at hlt ⊢
        rcases max_choice (Int.log 2 y - 52) (-1074) with hm | hm
        · exact hm
        · rw [hm] at hlt; omega
      have hB : (2 : ℚ) ^ (Int.log 2 y) ≤ y := by
        have := Int.zpow_log_le_self (b := 2) (r := y) (by norm_num) hy
        simpa using this
      have hxB : x ≤ (2 : ℚ) ^ (Int.log 2 y) := by
        have h1 := lt_zpow_ulpExponent hpos
        have h2 : (2 : ℚ) ^ (ulpExponent x + 53) ≤ (2 : ℚ) ^ (Int.log 2 y) :=
          zpow_le_zpow_right₀ (by norm_num) (by omega)
        exact le_of_lt (lt_of_lt_of_le h1 h2)
      have g1 := zpow_eq_grid (Int.log 2 y) (ulpExponent x) (by omega)
      have g2 := zpow_eq_grid (Int.log 2 y) (ulpExponent y) (by omega)
      have r1 := roundValue_le_grid (x := x) (n := (2 : ℤ) ^ (Int.log 2 y - ulpExponent x).toNat)
        (by rw [← g1]; exact hxB)
      have r2 := grid_le_roundValue (x := y) (n := (2 : ℤ) ^ (Int.log 2 y - ulpExponent y).toNat)
        (by rw [← g2]; exact hB)
      rw [← g1] at r1
      rw [← g2] at r2
      exact le_trans r1 r2

/-- A positive value with a mantissa below `2 ^ 53` and an exponent not below
-1074 is its own rounded value. -/
theorem roundValue_of_mantissa (m : ℕ) (a : ℤ) (hm0 : 0 < m) (hm : m < 2 ^ 53)
    (ha : -1074 ≤ a) : roundValue ((m : ℚ) * 2 ^ a) = (m : ℚ) * 2 ^ a := by
  have hp := two_zpow_pos a
  have hx : (0 : ℚ) < (m : ℚ) * 2 ^ a := mul_pos (by exact_mod_cast hm0) hp
  have hlt : (m : ℚ) * 2 ^ a < ((2 : ℕ) : ℚ) ^ (a + 53) := by
    push_cast
    rw [zpow_add₀ (by norm_num), mul_comm ((2 : ℚ) ^ a)]
    have : (m : ℚ) < (2 : ℚ) ^ (53 : ℤ) := by
      have h53 : ((2 : ℚ) ^ (53 : ℤ)) = ((2 ^ 53 : ℕ) : ℚ) := by norm_num
      rw [h53]; exact_mod_cast hm
    exact mul_lt_mul_of_pos_right this hp
  have hlog : Int.log 2 ((m : ℚ) * 2 ^ a) < a + 53 :=
    (Int.lt_zpow_iff_log_lt (by norm_num) hx).mp hlt
  have he : ulpExponent ((m : ℚ) * 2 ^ a) ≤ a := by
    rw [ulpExponent_pos hx]
    exact max_le (by omega) ha
  have hgrid := zpow_eq_grid a (ulpExponent ((m : ℚ) * 2 ^ a)) he
  apply roundValue_grid (n := (m : ℤ) * (2 : ℤ) ^ (a - ulpExponent ((m : ℚ) * 2 ^ a)).toNat)
  nth_rewrite 1 [hgrid]
  push_cast
  ring

/-- The rounded value of a non-negative value is its own rounded value. -/
theorem roundValue_idem {x : ℚ} (hx : 0 ≤ x) : roundValue (roundValue x) = roundValue x := by
  rcases eq_or_lt_of_le hx with h0 | hpos
  · rw [← h0, roundValue_zero, roundValue_zero]
  · have hp := two_zpow_pos (ulpExponent x)
    have hM0 : 0 ≤ roundHalfEven (x / 2 ^ ulpExponent x) :=
      le_roundHalfEven_of_le (by simpa using le_of_lt (div_pos hpos hp))
    have hM1 : roundHalfEven (x / 2 ^ ulpExponent x) ≤ 2 ^ 53 := by
      apply roundHalfEven_le_of_le
      rw [div_le_iff₀ hp]
      have := lt_zpow_ulpExponent hpos
      rw [zpow_add₀ (by norm_num), mul_comm] at this
      have h53 : ((2 : ℚ) ^ (53 : ℤ)) = (((2 : ℤ) ^ 53 : ℤ) : ℚ) := by norm_num
      rw [h53] at this
      exact le_of_lt this
    have hul : -1074 ≤ ulpExponent x := by
      rw [ulpExponent_pos hpos]; exact le_max_right _ _
    obtain ⟨M, hM⟩ := Int.eq_ofNat_of_zero_le hM0
    have hval : roundValue x = (M : ℚ) * 2 ^ ulpExponent x := by
      unfold roundValue
      rw [hM]
      push_cast
      rfl
    rw [hval]
    rw [hM] at hM1
    have hM1' : M ≤ 2 ^ 53 := by exact_mod_cast hM1
    rcases Nat.eq_zero_or_pos M with hz | hMpos
    · subst hz
      simp [roundValue_zero]
    · rcases lt_or_eq_of_le hM1' with hlt | heq
      · exact roundValue_of_mantissa M _ hMpos hlt hul
      · have hrew : (M : ℚ) * 2 ^ ulpExponent x =
            ((2 ^ 52 : ℕ) : ℚ) * 2 ^ (ulpExponent x + 1) := by
          rw [heq, zpow_add₀ (by norm_num)]
          push_cast
          ring
        rw [hrew]
        exact roundValue_of_mantissa (2 ^ 52) _ (by norm_num) (by norm_num) (by omega)

/-! ## Theorems: one call of `updateCounter` -/

theorem roundDouble_eq_fin {x q : ℚ} (h : roundDouble x = .fin q) :
    roundValue x = q ∧ q < 2 ^ 1024 := by
  unfold roundDouble at h
  simp only at h
  split_ifs at h with h1 h2
  rw [NumberValue.fin.injEq] at h
  exact ⟨h, by rw [← h]; exact not_le.mp h1⟩

theorem roundDouble_of_lt {x : ℚ} (h0 : 0 ≤ x) (h : roundValue x < 2 ^ 1024) :
    roundDouble x = .fin (roundValue x) := by
  unfold roundDouble
  simp only
  have h1 : ¬ ((2 : ℚ) ^ 1024 ≤ roundValue x) := not_le.mpr h
  have h2 : ¬ (roundValue x ≤ -(2 : ℚ) ^ 1024) := by
    have := roundValue_nonneg h0
    have hp : (0 : ℚ) < 2 ^ 1024 := by positivity
    intro hc
    linarith
  rw [if_neg h1, if_neg h2]

/-- The quotient `duration / 16` of `animateCounter` is 125. -/
theorem duration_div_16 :
    jsDiv (some (.fin 2000)) (some (.fin 16)) = some (.fin 125) := by
  have h125 : roundValue 125 = 125 := by
    have := roundValue_of_mantissa 125 0 (by norm_num) (by norm_num) (by norm_num)
    simpa using this
  have hx : (2000 : ℚ) / 16 = 125 := by norm_num
  simp only [jsDiv]
  rw [if_neg (by norm_num), hx, roundDouble_of_lt (by norm_num) (by rw [h125]; norm_num), h125]

/-- One call of `updateCounter` for a whole target `T`, from a current value
`c` that is not negative, with a step that is not negative: either the sum is
a finite double below `T`, its floor is written and a frame is requested, or
the target is written and no frame is requested. -/
theorem updateCounter_step (T : ℕ) (σ c : ℚ) (node : CounterNode) (hσ : 0 ≤ σ) (hc0 : 0 ≤ c) :
    (roundValue (c + σ) < (T : ℚ) ∧
      updateCounter { target := some (.fin (T : ℤ)), step := some (.fin σ),
                      current := some (.fin c) } node =
        { textContent := numberText (some (.fin ⌊roundValue (c + σ)⌋)),
          written := node.written ++ [some (.fin ⌊roundValue (c + σ)⌋)],
          frame := some { target := some (.fin (T : ℤ)), step := some (.fin σ),
                          current := some (.fin (roundValue (c + σ))) } }) ∨
    updateCounter { target := some (.fin (T : ℤ)), step := some (.fin σ),
                    current := some (.fin c) } node =
      { node with textContent := numberText (some (.fin (T : ℤ))),
                  written := node.written ++ [some (.fin (T : ℤ))] } := by
  have hx0 : 0 ≤ c + σ := by linarith
  by_cases hlt : roundValue (c + σ) < (T : ℚ) ∧ roundValue (c + σ) < 2 ^ 1024
  · left
    refine ⟨hlt.1, ?_⟩
    have hrd := roundDouble_of_lt hx0 hlt.2
    have hnot : ¬ (((T : ℤ) : ℚ) ≤ roundValue (c + σ)) := by
      rw [Int.cast_natCast]; exact not_le.mpr hlt.1
    simp only [updateCounter, jsAdd, hrd, jsGe, Option.map_some', WholeValue.toNumber,
      NumberValue.le, hnot, decide_False, Bool.false_eq_true, if_false, mathFloor]
  · right
    have hjs : jsGe (some (roundDouble (c + σ))) (some (.fin ((T : ℤ) : ℚ))) = true := by
      unfold roundDouble
      simp only
      split_ifs with h1 h2
      · rfl
      · exfalso
        have := roundValue_nonneg hx0
        have hp : (0 : ℚ) < 2 ^ 1024 := by positivity
        linarith
      · have hge : (T : ℚ) ≤ roundValue (c + σ) := by
          by_contra hc
          exact hlt ⟨not_le.mp hc, not_le.mp h1⟩
        simp [jsGe, NumberValue.le, hge]
    simp only [updateCounter, jsAdd, Option.map_some', WholeValue.toNumber, hjs, if_true]

/-- One call of `updateCounter` keeps the animation running or ends it. -/
theorem updateCounter_invariant (T : ℕ) (σ c : ℚ) (node : CounterNode) (base : List JsWhole)
    (ws : List ℤ) (hσ : 0 ≤ σ)
    (hf : node.frame = none)
    (hw : node.written = base ++ ws.map (fun z => some (.fin z)))
    (hcc : roundValue c = c) (hc0 : 0 ≤ c) (hcT : c ≤ (T : ℚ))
    (hp : ws.Pairwise (· ≤ ·)) (hle : ∀ w ∈ ws, (w : ℚ) ≤ c) :
    (updateCounter { target := some (.fin (T : ℤ)), step := some (.fin σ),
                     current := some (.fin c) } node).running base T σ (roundValue (c + σ))
        (ws ++ [⌊roundValue (c + σ)⌋]) ∨
    (updateCounter { target := some (.fin (T : ℤ)), step := some (.fin σ),
                     current := some (.fin c) } node).finished base T (ws ++ [(T : ℤ)]) := by
  have hx0 : 0 ≤ c + σ := by linarith
  have hmono : c ≤ roundValue (c + σ) := by
    have := roundValue_mono hc0 (show c ≤ c + σ by linarith)
    rwa [hcc] at this
  rcases updateCounter_step T σ c node hσ hc0 with ⟨hlt, heq⟩ | heq
  · left
    rw [heq]
    refine ⟨rfl, ?_, roundValue_idem hx0, roundValue_nonneg hx0, hlt, ?_, ?_⟩
    · simp [hw]
    · rw [List.pairwise_append]
      refine ⟨hp, by simp, fun a ha b hb => ?_⟩
      rw [List.mem_singleton] at hb
      subst hb
      exact Int.le_floor.mpr (le_trans (hle a ha) hmono)
    · intro w hw2
      rw [List.mem_append, List.mem_singleton] at hw2
      rcases hw2 with h | h
      · exact le_trans (hle w h) hmono
      · rw [h]; exact Int.floor_le _
  · right
    rw [heq]
    have hwT : ∀ w ∈ ws, w ≤ (T : ℤ) := by
      intro w hw2
      have := le_trans (hle w hw2) hcT
      exact_mod_cast this
    refine ⟨hf, ?_, rfl, ?_, ?_, ?_⟩
    · simp [hw]
    · rw [List.pairwise_append]
      refine ⟨hp, by simp, fun a ha b hb => ?_⟩
      rw [List.mem_singleton] at hb
      subst hb
      exact hwT a ha
    · intro w hw2
      rw [List.mem_append, List.mem_singleton] at hw2
      rcases hw2 with h | h
      · exact hwT w h
      · rw [h]
    · simp

/-- One animation frame keeps the animation running or ends it. -/
theorem animationFrame_invariant (T : ℕ) (σ c : ℚ) (node : CounterNode) (base : List JsWhole)
    (ws : List ℤ) (hσ : 0 ≤ σ)
    (h : node.running base T σ c ws) :
    (animationFrame node).running base T σ (roundValue (c + σ))
        (ws ++ [⌊roundValue (c + σ)⌋]) ∨
    (animationFrame node).finished base T (ws ++ [(T : ℤ)]) := by
  obtain ⟨hf, hw, hcc, hc0, hcT, hp, hle⟩ := h
  have hstep : animationFrame node =
      updateCounter { target := some (.fin (T : ℤ)), step := some (.fin σ),
                      current := some (.fin c) } { node with frame := none } := by
    simp only [animationFrame, hf]
  rw [hstep]
  exact updateCounter_invariant T σ c _ base ws hσ rfl hw hcc hc0 (le_of_lt hcT) hp hle

/-! ## Theorems: the counter animation ends at its target -/

/-- The step of the animation towards a whole `T` whose 125th part is below
the largest double: the double nearest to `T / 125`. -/
theorem counter_step (T : ℕ) (h : roundValue ((T : ℚ) / 125) < 2 ^ 1024) :
    jsDiv (some (.fin ((T : ℤ) : ℚ))) (jsDiv (some (.fin 2000)) (some (.fin 16))) =
      some (.fin (roundValue ((T : ℚ) / 125))) := by
  have hT0 : (0 : ℚ) ≤ (T : ℚ) := Nat.cast_nonneg T
  have hq0 : (0 : ℚ) ≤ (T : ℚ) / 125 := div_nonneg hT0 (by norm_num)
  rw [duration_div_16]
  simp only [jsDiv, Int.cast_natCast]
  rw [if_neg (by norm_num), roundDouble_of_lt hq0 h]

/-- The step of the animation towards a whole `T` whose 125th part rounds
beyond the largest double: `Infinity`. -/
theorem counter_step_infinite (T : ℕ) (h : (2 : ℚ) ^ 1024 ≤ roundValue ((T : ℚ) / 125)) :
    jsDiv (some (.fin ((T : ℤ) : ℚ))) (jsDiv (some (.fin 2000)) (some (.fin 16))) =
      some .posInf := by
  rw [duration_div_16]
  simp only [jsDiv, Int.cast_natCast]
  rw [if_neg (by norm_num)]
  unfold roundDouble
  simp only
  rw [if_pos h]

/-- The grid that bounds the number of frames: for a positive whole `T` a
power of two `G`, at most the step, with `T` below `256 G`, whose multiples
up to the 256th are doubles. -/
theorem counter_grid (T : ℕ) (hpos : 0 < T) :
    ∃ G : ℚ, 0 < G ∧ G ≤ roundValue ((T : ℚ) / 125) ∧ (T : ℚ) < 256 * G ∧
      ∀ k : ℕ, 0 < k → k ≤ 256 → roundValue ((k : ℚ) * G) = (k : ℚ) * G := by
  have hTq : (0 : ℚ) < (T : ℚ) := by exact_mod_cast hpos
  have hp0 : 0 ≤ Int.log 2 (T : ℚ) := by
    rw [Int.log_natCast]; exact Int.natCast_nonneg _
  have hlow : (2 : ℚ) ^ Int.log 2 (T : ℚ) ≤ (T : ℚ) := by
    have := Int.zpow_log_le_self (b := 2) (r := (T : ℚ)) (by norm_num) hTq
    simpa using this
  have hhigh : (T : ℚ) < (2 : ℚ) ^ (Int.log 2 (T : ℚ) + 1) := by
    have := Int.lt_zpow_succ_log_self (b := 2) (by norm_num) (T : ℚ)
    simpa using this
  have hgrid : ∀ k : ℕ, 0 < k → k ≤ 256 →
      roundValue ((k : ℚ) * 2 ^ (Int.log 2 (T : ℚ) - 7)) =
        (k : ℚ) * 2 ^ (Int.log 2 (T : ℚ) - 7) := by
    intro k hk0 hk
    exact roundValue_of_mantissa k _ hk0
      (lt_of_le_of_lt hk (by norm_num)) (by omega)
  have hsplit : (2 : ℚ) ^ Int.log 2 (T : ℚ) = 128 * 2 ^ (Int.log 2 (T : ℚ) - 7) := by
    rw [zpow_sub₀ (by norm_num)]
    norm_num
    field_simp
  have hsplit2 : (2 : ℚ) ^ (Int.log 2 (T : ℚ) + 1) = 256 * 2 ^ (Int.log 2 (T : ℚ) - 7) := by
    rw [zpow_add₀ (by norm_num), hsplit]
    ring
  refine ⟨2 ^ (Int.log 2 (T : ℚ) - 7), two_zpow_pos _, ?_, by rw [← hsplit2]; exact hhigh,
    hgrid⟩
  have hG := hgrid 1 (by norm_num) (by norm_num)
  simp only [Nat.cast_one, one_mul] at hG
  have hle : (2 : ℚ) ^ (Int.log 2 (T : ℚ) - 7) ≤ (T : ℚ) / 125 := by
    rw [le_div_iff₀ (by norm_num)]
    have := two_zpow_pos (Int.log 2 (T : ℚ) - 7)
    linarith
  have := roundValue_mono (le_of_lt (two_zpow_pos _)) hle
  rwa [hG] at this

/-- A running animation ends within 256 calls of `updateCounter`, and the
values written up to each frame are the first ones of those written in all. -/
theorem counter_finishes (T : ℕ) (σ G : ℚ) (animated : List Nat) (id : Nat)
    (counter : CounterNode) (base : List JsWhole)
    (hσ : 0 ≤ σ) (hG : G ≤ σ)
    (hTG : (T : ℚ) < 256 * G)
    (hgrid : ∀ k : ℕ, 0 < k → k ≤ 256 → roundValue ((k : ℚ) * G) = (k : ℚ) * G)
    (d : ℕ) :
    ∀ (j : ℕ) (c : ℚ) (ws : List ℤ),
      (runCounter animated id (some (.fin (T : ℤ))) counter j).running base T σ c ws →
      ws.length = j + 1 → ((j : ℚ) + 1) * G ≤ c → j + 1 + d = 256 →
      ∃ (n : ℕ) (wsF : List ℤ), j < n ∧ n < 256 ∧
        (runCounter animated id (some (.fin (T : ℤ))) counter n).finished base T wsF ∧
        wsF.length = n + 1 ∧ wsF.take (j + 1) = ws ∧
        ∀ m : ℕ, j ≤ m → m < n →
          (runCounter animated id (some (.fin (T : ℤ))) counter m).frame ≠ none ∧
          (runCounter animated id (some (.fin (T : ℤ))) counter m).written =
            base ++ (wsF.take (m + 1)).map (fun z => some (.fin z)) := by
  induction d with
  | zero =>
    intro j c ws hrun _ hc hj
    obtain ⟨_, _, _, _, hcT, _, _⟩ := hrun
    exfalso
    have hj2 : ((j : ℚ) + 1) = 256 := by
      have : j + 1 = 256 := by omega
      exact_mod_cast this
    rw [hj2] at hc
    linarith
  | succ d ih =>
    intro j c ws hrun hlen hc hj
    have hrun0 := hrun
    obtain ⟨hf, hw, hcc, hc0, hcT, hp, hle⟩ := hrun
    have hfr : (runCounter animated id (some (.fin (T : ℤ))) counter j).frame ≠ none := by
      rw [hf]; exact Option.some_ne_none _
    rcases animationFrame_invariant T σ c _ base ws hσ hrun0 with hr | hfin
    · rw [← runCounter_succ] at hr
      have hgk := hgrid (j + 2) (by omega) (by omega)
      have hc2 : (((j + 1 : ℕ) : ℚ) + 1) * G ≤ roundValue (c + σ) := by
        have hsum : ((j + 2 : ℕ) : ℚ) * G ≤ c + σ := by
          push_cast
          have : ((j : ℚ) + 2) * G = ((j : ℚ) + 1) * G + G := by ring
          linarith
        have hnn : (0 : ℚ) ≤ ((j + 2 : ℕ) : ℚ) * G := by
          rw [← hgk]
          apply roundValue_nonneg
          have : (0 : ℚ) ≤ ((j : ℚ) + 1) * G := by
            have hT0 : (0 : ℚ) ≤ (T : ℚ) := Nat.cast_nonneg T
            have hGpos : 0 < G := by linarith
            positivity
          push_cast
          have hG0 : 0 ≤ G := by
            have hT0 : (0 : ℚ) ≤ (T : ℚ) := Nat.cast_nonneg T
            linarith
          have e : ((j : ℚ) + 2) * G = ((j : ℚ) + 1) * G + G := by ring
          linarith
        have := roundValue_mono hnn hsum
        rw [hgk] at this
        have e : (((j + 1 : ℕ) : ℚ) + 1) = ((j + 2 : ℕ) : ℚ) := by push_cast; ring
        rw [e]
        exact this
      obtain ⟨n, wsF, hjn, hn, hfinished, hlenF, htake, hall⟩ :=
        ih (j + 1) (roundValue (c + σ)) (ws ++ [⌊roundValue (c + σ)⌋]) hr
          (by simp [hlen]) hc2 (by omega)
      have htake2 : wsF.take (j + 1) = ws := by
        have h1 : wsF.take (j + 1) = (wsF.take (j + 1 + 1)).take (j + 1) := by
          rw [List.take_take]; simp
        rw [h1, htake, List.take_left' hlen]
      refine ⟨n, wsF, by omega, hn, hfinished, hlenF, htake2, fun m hjm hmn => ?_⟩
      rcases Nat.eq_or_lt_of_le hjm with heq | hlt
      · subst heq
        exact ⟨hfr, by rw [hw, htake2]⟩
      · exact hall m hlt hmn
    · rw [← runCounter_succ] at hfin
      refine ⟨j + 1, ws ++ [(T : ℤ)], by omega, by omega, hfin, by simp [hlen],
        List.take_left' hlen, fun m hjm hmn => ?_⟩
      have hmj : m = j := by omega
      subst hmj
      exact ⟨hfr, by rw [hw, List.take_left' hlen]⟩

theorem runCounter_of_idle (animated : List Nat) (id : Nat) (target : JsWhole)
    (counter : CounterNode) (n m : Nat) (hnm : n ≤ m)
    (h : (runCounter animated id target counter n).frame = none) :
    runCounter animated id target counter m = runCounter animated id target counter n := by
  have hsplit : m = (m - n) + n := by omega
  unfold runCounter at h ⊢
  rw [hsplit, Function.iterate_add_apply]
  exact animationFrame_iterate_idle _ h _

/-- C6: for every whole target `T ≥ 0`, in the double arithmetic of the
script, on a counter not animated before and so with no frame pending:
`animateCounter` and its animation frames write a finite sequence `ws` of at
most 256 values, one with `animateCounter` and one per frame while a frame is
requested; after the last no frame is requested and the text is the target;
the sequence does not decrease, holds no value above `T`, and ends with `T`. -/
theorem animateCounter_writes_monotone_to_target (T : Nat) (animated : List Nat) (id : Nat)
    (counter : CounterNode) (hfresh : id ∉ animated) (hidle : counter.frame = none) :
    ∃ (n : ℕ) (ws : List ℤ), n < 256 ∧ ws.length = n + 1 ∧
      (∀ m : ℕ, m < n →
        (runCounter animated id (some (.fin (T : ℤ))) counter m).frame ≠ none ∧
        (runCounter animated id (some (.fin (T : ℤ))) counter m).written =
          counter.written ++ (ws.take (m + 1)).map (fun z => some (.fin z))) ∧
      (∀ m : ℕ, n ≤ m →
        (runCounter animated id (some (.fin (T : ℤ))) counter m).frame = none ∧
        (runCounter animated id (some (.fin (T : ℤ))) counter m).written =
          counter.written ++ ws.map (fun z => some (.fin z)) ∧
        (runCounter animated id (some (.fin (T : ℤ))) counter m).textContent =
          numberText (some (.fin (T : ℤ)))) ∧
      ws.Pairwise (· ≤ ·) ∧ (∀ w ∈ ws, w ≤ (T : ℤ)) ∧ ws.getLast? = some (T : ℤ) := by
  have hT0 : (0 : ℚ) ≤ (T : ℚ) := Nat.cast_nonneg T
  have hσ0 : 0 ≤ roundValue ((T : ℚ) / 125) :=
    roundValue_nonneg (div_nonneg hT0 (by norm_num))
  have hfinal : ∀ (n : ℕ) (wsF : List ℤ),
      (runCounter animated id (some (.fin (T : ℤ))) counter n).finished counter.written T wsF →
      ∀ m : ℕ, n ≤ m →
        (runCounter animated id (some (.fin (T : ℤ))) counter m).frame = none ∧
        (runCounter animated id (some (.fin (T : ℤ))) counter m).written =
          counter.written ++ wsF.map (fun z => some (.fin z)) ∧
        (runCounter animated id (some (.fin (T : ℤ))) counter m).textContent =
          numberText (some (.fin (T : ℤ))) := by
    intro n wsF hfin m hnm
    rw [runCounter_of_idle animated id _ counter n m hnm hfin.1]
    exact ⟨hfin.1, hfin.2.1, hfin.2.2.1⟩
  rcases lt_or_le (roundValue ((T : ℚ) / 125)) (2 ^ 1024) with hstepfin | hstepinf
  · have hstep := counter_step T hstepfin
    have hrun0 : runCounter animated id (some (.fin (T : ℤ))) counter 0 =
        updateCounter { target := some (.fin (T : ℤ)),
                        step := some (.fin (roundValue ((T : ℚ) / 125))),
                        current := some (.fin 0) } counter := by
      simp only [runCounter, Function.iterate_zero, id_eq, animateCounter, hfresh, if_false,
        Option.map_some', WholeValue.toNumber, hstep]
    rcases updateCounter_invariant T (roundValue ((T : ℚ) / 125)) 0 counter counter.written []
        hσ0 hidle (by simp) roundValue_zero le_rfl hT0 List.Pairwise.nil
        (by simp) with hr | hfin
    · rw [← hrun0] at hr
      have hr0 := hr
      obtain ⟨_, _, _, hc0, hcT, _, _⟩ := hr
      have hpos : 0 < T := by
        have : (0 : ℚ) < (T : ℚ) := lt_of_le_of_lt hc0 hcT
        exact_mod_cast this
      obtain ⟨G, hGpos, hG, hTG, hgrid⟩ := counter_grid T hpos
      have hG1 := hgrid 1 (by norm_num) (by norm_num)
      simp only [Nat.cast_one, one_mul] at hG1
      have hc1 : (((0 : ℕ) : ℚ) + 1) * G ≤ roundValue (0 + roundValue ((T : ℚ) / 125)) := by
        have := roundValue_mono (le_of_lt hGpos)
          (show G ≤ 0 + roundValue ((T : ℚ) / 125) by linarith)
        rw [hG1] at this
        simpa using this
      obtain ⟨n, wsF, _, hn, hfinished, hlenF, _, hall⟩ :=
        counter_finishes T (roundValue ((T : ℚ) / 125)) G animated id counter counter.written
          hσ0 hG hTG hgrid 255 0 _ _ hr0 (by simp) hc1 (by norm_num)
      exact ⟨n, wsF, hn, hlenF, fun m hm => hall m (Nat.zero_le m) hm,
        hfinal n wsF hfinished, hfinished.2.2.2.1, hfinished.2.2.2.2.1, hfinished.2.2.2.2.2⟩
    · rw [← hrun0] at hfin
      refine ⟨0, [] ++ [(T : ℤ)], by norm_num, by simp,
        fun m hm => absurd hm (Nat.not_lt_zero m),
        hfinal 0 _ hfin, hfin.2.2.2.1, hfin.2.2.2.2.1, hfin.2.2.2.2.2⟩
  · have hstep := counter_step_infinite T hstepinf
    have hrun0 : runCounter animated id (some (.fin (T : ℤ))) counter 0 =
        { counter with textContent := numberText (some (.fin (T : ℤ))),
                       written := counter.written ++ [some (.fin (T : ℤ))] } := by
      simp only [runCounter, Function.iterate_zero, id_eq, animateCounter, hfresh, if_false,
        Option.map_some', WholeValue.toNumber, hstep, updateCounter, jsAdd, jsGe,
        NumberValue.le, if_true]
    have hfin : (runCounter animated id (some (.fin (T : ℤ))) counter 0).finished
        counter.written T [(T : ℤ)] := by
      rw [hrun0]
      exact ⟨hidle, by simp, rfl, by simp, by simp, by simp⟩
    refine ⟨0, [(T : ℤ)], by norm_num, by simp,
      fun m hm => absurd hm (Nat.not_lt_zero m),
      hfinal 0 _ hfin, hfin.2.2.2.1, hfin.2.2.2.2.1, hfin.2.2.2.2.2⟩

/-- C6 for the target 25 on a fresh counter showing 0. -/
theorem animateCounter_writes_monotone_to_target_witness :
    (0 : Nat) ∉ ([] : List Nat) ∧
    ({ textContent := "0", written := [], frame := none } : CounterNode).frame = none ∧
    ∃ (n : ℕ) (ws : List ℤ), n < 256 ∧ ws.length = n + 1 ∧
      (∀ m : ℕ, m < n →
        (runCounter [] 0 (some (.fin ((25 : ℕ) : ℤ)))
          { textContent := "0", written := [], frame := none } m).frame ≠ none ∧
        (runCounter [] 0 (some (.fin ((25 : ℕ) : ℤ)))
          { textContent := "0", written := [], frame := none } m).written =
          [] ++ (ws.take (m + 1)).map (fun z => some (.fin z))) ∧
      (∀ m : ℕ, n ≤ m →
        (runCounter [] 0 (some (.fin ((25 : ℕ) : ℤ)))
          { textContent := "0", written := [], frame := none } m).frame = none ∧
        (runCounter [] 0 (some (.fin ((25 : ℕ) : ℤ)))
          { textContent := "0", written := [], frame := none } m).written =
          [] ++ ws.map (fun z => some (.fin z)) ∧
        (runCounter [] 0 (some (.fin ((25 : ℕ) : ℤ)))
          { textContent := "0", written := [], frame := none } m).textContent =
          numberText (some (.fin ((25 : ℕ) : ℤ)))) ∧
      ws.Pairwise (· ≤ ·) ∧ (∀ w ∈ ws, w ≤ ((25 : ℕ) : ℤ)) ∧
      ws.getLast? = some ((25 : ℕ) : ℤ) :=
  ⟨by decide, rfl,
    animateCounter_writes_monotone_to_target 25 [] 0
      { textContent := "0", written := [], frame := none } (by decide) rfl⟩

/-! ## Theorems: the values written for the target 25 -/

/-- The target 25 in the arithmetic of the script: the step is the double
nearest to 0.2, above it, yet the tenth sum rounds below 2, so the tenth value
written is 1; the 125th sum is still below 25, so 126 values are written, the
last one by the 125th animation frame, and it is 25. -/
theorem animateCounter_25_values :
    jsDiv (some (.fin 25)) (jsDiv (some (.fin 2000)) (some (.fin 16))) =
      some (.fin (3602879701896397 / 2 ^ 54)) ∧
    (runCounter [] 0 (some (.fin 25))
      { textContent := "0", written := [], frame := none } 9).written =
      [0, 0, 0, 0, 1, 1, 1, 1, 1, 1].map (fun z => some (.fin z)) ∧
    (runCounter [] 0 (some (.fin 25))
      { textContent := "0", written := [], frame := none } 124).frame.isSome = true ∧
    (runCounter [] 0 (some (.fin 25))
      { textContent := "0", written := [], frame := none } 124).written.getLast? =
      some (some (.fin 24)) ∧
    (runCounter [] 0 (some (.fin 25))
      { textContent := "0", written := [], frame := none } 125).frame.isSome = false ∧
    (runCounter [] 0 (some (.fin 25))
      { textContent := "0", written := [], frame := none } 125).written.length = 126 ∧
    (runCounter [] 0 (some (.fin 25))
      { textContent := "0", written := [], frame := none } 125).written.getLast? =
      some (some (.fin 25)) ∧
    (runCounter [] 0 (some (.fin 25))
      { textContent := "0", written := [], frame := none } 125).textContent = "25" := by
  decide!

/-! ## Theorems: the text of a whole Number -/

/-- A double given by its mantissa and exponent is the result of an operation
with that exact result. -/
theorem roundDouble_of_mantissa (m : ℕ) (a : ℤ) (hm0 : 0 < m) (hm : m < 2 ^ 53)
    (ha : -1074 ≤ a) (hlt : (m : ℚ) * 2 ^ a < 2 ^ 1024) :
    roundDouble ((m : ℚ) * 2 ^ a) = .fin ((m : ℚ) * 2 ^ a) := by
  have h := roundValue_of_mantissa m a hm0 hm ha
  have h0 : (0 : ℚ) ≤ (m : ℚ) * 2 ^ a :=
    mul_nonneg (Nat.cast_nonneg m) (le_of_lt (two_zpow_pos a))
  rw [roundDouble_of_lt h0 (by rw [h]; exact hlt), h]

theorem findSome?_range_succ {α : Type} (f : ℕ → Option α) (n : ℕ) (a : α)
    (h : f 0 = some a) : (List.range (n + 1)).findSome? f = some a := by
  rw [List.range_succ_eq_map, List.findSome?_cons, h]

theorem roundDouble_1e20 :
    roundDouble (100000000000000000000 : ℚ) = .fin (100000000000000000000 : ℚ) := by
  have h := roundDouble_of_mantissa 95367431640625 20 (by norm_num) (by norm_num)
    (by norm_num) (by norm_num)
  have e : ((95367431640625 : ℕ) : ℚ) * 2 ^ (20 : ℤ) = (100000000000000000000 : ℚ) := by
    norm_num
  rwa [e] at h

theorem roundDouble_2e20 :
    roundDouble (200000000000000000000 : ℚ) = .fin (200000000000000000000 : ℚ) := by
  have h := roundDouble_of_mantissa 95367431640625 21 (by norm_num) (by norm_num)
    (by norm_num) (by norm_num)
  have e : ((95367431640625 : ℕ) : ℚ) * 2 ^ (21 : ℤ) = (200000000000000000000 : ℚ) := by
    norm_num
  rwa [e] at h

theorem roundDouble_1e21 :
    roundDouble (1000000000000000000000 : ℚ) = .fin (1000000000000000000000 : ℚ) := by
  have h := roundDouble_of_mantissa 476837158203125 21 (by norm_num) (by norm_num)
    (by norm_num) (by norm_num)
  have e : ((476837158203125 : ℕ) : ℚ) * 2 ^ (21 : ℤ) = (1000000000000000000000 : ℚ) := by
    norm_num
  rwa [e] at h

theorem roundDouble_2e21 :
    roundDouble (2000000000000000000000 : ℚ) = .fin (2000000000000000000000 : ℚ) := by
  have h := roundDouble_of_mantissa 476837158203125 22 (by norm_num) (by norm_num)
    (by norm_num) (by norm_num)
  have e : ((476837158203125 : ℕ) : ℚ) * 2 ^ (22 : ℤ) = (2000000000000000000000 : ℚ) := by
    norm_num
  rwa [e] at h

theorem decimalLength_1e20 : decimalLength (10 ^ 20) = 21 := by
  have h : Nat.log 10 (10 ^ 20) = 20 :=
    Nat.log_eq_of_pow_le_of_lt_pow (by norm_num) (by norm_num)
  rw [decimalLength, h]

theorem decimalLength_1e21 : decimalLength (10 ^ 21) = 22 := by
  have h : Nat.log 10 (10 ^ 21) = 21 :=
    Nat.log_eq_of_pow_le_of_lt_pow (by norm_num) (by norm_num)
  rw [decimalLength, h]

theorem decimalCandidate_1e20 : decimalCandidate (10 ^ 20) 21 (0 + 1) = some (10 ^ 20) := by
  rw [decimalCandidate]
  norm_num [roundDouble_1e20, roundDouble_2e20]

theorem decimalCandidate_1e21 : decimalCandidate (10 ^ 21) 22 (0 + 1) = some (10 ^ 21) := by
  rw [decimalCandidate]
  norm_num [roundDouble_1e21, roundDouble_2e21]

theorem shortestDecimal_1e20 : shortestDecimal (10 ^ 20) = 10 ^ 20 := by
  rw [shortestDecimal, decimalLength_1e20]
  exact congrArg (fun o => Option.getD o (10 ^ 20))
    (findSome?_range_succ (fun i => decimalCandidate (10 ^ 20) 21 (i + 1)) 20 (10 ^ 20)
      decimalCandidate_1e20)

theorem shortestDecimal_1e21 : shortestDecimal (10 ^ 21) = 10 ^ 21 := by
  rw [shortestDecimal, decimalLength_1e21]
  exact congrArg (fun o => Option.getD o (10 ^ 21))
    (findSome?_range_succ (fun i => decimalCandidate (10 ^ 21) 22 (i + 1)) 21 (10 ^ 21)
      decimalCandidate_1e21)

/-- The text of a whole Number has its digits in full up to 21 digits and an
exponent from `10^21` on. -/
theorem numberText_exponent_from_1e21 :
    numberText (some (.fin (10 ^ 20))) = "100000000000000000000" ∧
    numberText (some (.fin (10 ^ 21))) = "1e+21" := by
  constructor
  · have hz : ((10 : ℤ) ^ 20).natAbs = 10 ^ 20 := by norm_num
    have hpos : ¬ ((10 : ℤ) ^ 20 < 0) := by norm_num
    have hne : ¬ ((10 : ℕ) ^ 20 = 0) := by norm_num
    have h21 : 21 ≤ 21 := le_refl 21
    rw [numberText]
    simp only [hpos, if_false, hz]
    rw [wholeText]
    simp only [hne, if_false, shortestDecimal_1e20, decimalLength_1e20, h21, if_true]
    decide!
  · have hs : significantDigits (10 ^ 21) = ['1'] := by decide!
    have hz : ((10 : ℤ) ^ 21).natAbs = 10 ^ 21 := by norm_num
    have hpos : ¬ ((10 : ℤ) ^ 21 < 0) := by norm_num
    have hne : ¬ ((10 : ℕ) ^ 21 = 0) := by norm_num
    have h22 : ¬ (22 ≤ 21) := by norm_num
    rw [numberText]
    simp only [hpos, if_false, hz]
    rw [wholeText]
    simp only [hne, if_false, shortestDecimal_1e21, decimalLength_1e21, h22, hs]
    decide

end Portfolio
